import Mathlib

/-!
# Concrete semantics of the codesembench C fixtures

The repository is a corpus of small C programs, each paired with a question
about pointer aliasing or heap escape.  This development gives the C
fragments a concrete, executable semantics over a block/offset memory model
and proves the aliasing and escape facts stated about them.

Conventions of the embedding

* A pointer is `null` or a pair (block, cell offset).  Every scalar (an `int`
  or a pointer) occupies one cell, so `sizeof (struct point) = 2`,
  `sizeof (struct card) = 2`, `sizeof (struct x) = 1` and a pointer is one cell.
* Undefined behaviour (dereferencing an invalid pointer, reading an
  uninitialised cell, arithmetic on the null pointer) and exhausted loop fuel
  are the result `none`.
* `int` arithmetic is two's complement on 32 bits (`wrap32`).
* `malloc` either fails (returns `null`) or returns a fresh block; which one
  is decided by an oracle carried by the memory.
* The fixtures carry a few typos that a C compiler rejects (`int y }` without
  `;`, `return 0` without `;`, `sizeof (point)` for `sizeof (struct point)`,
  the question heading the files under `api/testdata/.../simple_c_escape`
  without comment marks); the embedding reads them as the evidently intended
  program.
* A program point of interest (the line marked HERE, or the point a statement
  is about) is observed by returning the variables as they are there; inside a
  loop the observations of all iterations are collected in a list.
-/

namespace CSem

/-! ## Values and memory -/

/-- Pointer values: the null pointer, or a cell offset inside a block. -/
inductive Ptr where
  | null : Ptr
  | mk (block : Nat) (off : Int) : Ptr
deriving DecidableEq, Repr

/-- Contents of a memory cell. -/
inductive Val where
  | undef : Val
  | int (n : Int) : Val
  | ptr (p : Ptr) : Val
deriving DecidableEq, Repr

/-- Memory: `next` blocks have been allocated, block `b` has `size b` cells,
`cell b o` is the content of cell `o` of block `b`; `mallocs` counts the calls
to `malloc` so far and `oom k` tells whether call number `k` fails. -/
structure Mem where
  next : Nat
  size : Nat → Nat
  cell : Nat → Int → Val
  mallocs : Nat
  oom : Nat → Bool

/-- The memory at program start: nothing allocated. -/
def Mem.empty (oom : Nat → Bool) : Mem :=
  { next := 0, size := fun _ => 0, cell := fun _ _ => Val.undef, mallocs := 0, oom := oom }

/-- A pointer may be dereferenced when it points into an allocated block. -/
def Mem.valid (m : Mem) : Ptr → Bool
  | Ptr.null => false
  | Ptr.mk b o => decide (b < m.next) && decide (0 ≤ o) && decide (o < (m.size b : Int))

/-- Read of one cell (`*p`). -/
def Mem.load (m : Mem) (p : Ptr) : Option Val :=
  match p with
  | Ptr.null => none
  | Ptr.mk b o => if m.valid (Ptr.mk b o) then some (m.cell b o) else none

/-- Read of an `int` lvalue; an uninitialised or non-`int` cell is undefined behaviour. -/
def Mem.loadInt (m : Mem) (p : Ptr) : Option Int :=
  match m.load p with
  | some (Val.int n) => some n
  | _ => none

/-- Read of a pointer lvalue. -/
def Mem.loadPtr (m : Mem) (p : Ptr) : Option Ptr :=
  match m.load p with
  | some (Val.ptr q) => some q
  | _ => none

/-- The memory with cell `o` of block `b` overwritten by `v`. -/
def Mem.put (m : Mem) (b : Nat) (o : Int) (v : Val) : Mem :=
  { m with cell := fun b1 o1 => if b1 = b ∧ o1 = o then v else m.cell b1 o1 }

/-- Write of one cell (`*p = v`). -/
def Mem.store (m : Mem) (p : Ptr) (v : Val) : Option Mem :=
  match p with
  | Ptr.null => none
  | Ptr.mk b o => if m.valid (Ptr.mk b o) then some (m.put b o v) else none

/-- The memory after the write `*p = v`, when `p` is valid. -/
def Mem.write (m : Mem) (p : Ptr) (v : Val) : Mem :=
  match p with
  | Ptr.null => m
  | Ptr.mk b o => m.put b o v

/-- The memory extended by one fresh block (number `m.next`) of `n`
uninitialised cells. -/
def Mem.grow (m : Mem) (n : Nat) : Mem :=
  { m with next := m.next + 1,
           size := fun b => if b = m.next then n else m.size b,
           cell := fun b o => if b = m.next then Val.undef else m.cell b o }

/-- Allocation of a fresh block of `n` uninitialised cells (automatic storage,
and the successful case of `malloc`): the pointer to its first cell and the
extended memory. -/
def Mem.alloc (m : Mem) (n : Nat) : Ptr × Mem :=
  (Ptr.mk m.next 0, m.grow n)

/-- Call `malloc (n cells)`: it fails when the oracle says so, and otherwise
returns a fresh block. -/
def Mem.malloc (m : Mem) (n : Nat) : Ptr × Mem :=
  if m.oom m.mallocs then (Ptr.null, { m with mallocs := m.mallocs + 1 })
  else (Ptr.mk m.next 0, { m.grow n with mallocs := m.mallocs + 1 })

/-- Pointer arithmetic `p + k` on a pointer to elements of `sz` cells. -/
def Ptr.add (sz : Nat) (p : Ptr) (k : Int) : Option Ptr :=
  match p with
  | Ptr.null => none
  | Ptr.mk b o => some (Ptr.mk b (o + k * sz))

/-- Address of the member at cell offset `k` of the struct `p` points to (`&p->f`). -/
def Ptr.field (p : Ptr) (k : Nat) : Ptr :=
  match p with
  | Ptr.null => Ptr.null
  | Ptr.mk b o => Ptr.mk b (o + k)

/-- Two's complement reduction to the range of a 32-bit `int`. -/
def wrap32 (n : Int) : Int := (n + 2147483648) % 4294967296 - 2147483648

/-- The `int` value of a C comparison. -/
def boolInt (b : Bool) : Int := if b then 1 else 0

/-- Library `memcpy (dst, src, n cells)`: the cells are copied one by one, in
increasing order; source and destination must be valid. -/
def memcpy (dst src : Ptr) : Nat → Mem → Option Mem
  | 0, m => some m
  | k + 1, m => do
    let m ← memcpy dst src k m
    let a ← Ptr.add 1 src k
    let v ← m.load a
    let d ← Ptr.add 1 dst k
    m.store d v

/-- A `while` loop (also the expansion of a `for` loop): `fuel` bounds the
number of tests of the condition; running out of fuel gives `none`. -/
def whileLoop {σ : Type} (cond : σ → Bool) (body : σ → Option σ) : Nat → σ → Option σ
  | 0, _ => none
  | fuel + 1, s => if cond s then (body s).bind (whileLoop cond body fuel) else some s

/-- Cell offsets of the members of `struct point { int x; int y; }`. -/
def Point.x : Nat := 0
/-- See `Point.x`. -/
def Point.y : Nat := 1
/-- Number of cells of a `struct point`. -/
def Point.sizeof : Nat := 2

/-- A memory with one block of four cells holding the `int` values 5, 6, 7, 8
(two `struct point`, or four `int`). -/
def fourInts : Mem :=
  (((((Mem.empty fun _ => false).grow 4).put 0 0 (Val.int 5)).put 0 1 (Val.int 6)).put 0 2
    (Val.int 7)).put 0 3 (Val.int 8)

/-- A memory with one block of six cells holding the `int` values 1 to 6
(three `struct point`). -/
def threePoints : Mem :=
  (((((((Mem.empty fun _ => false).grow 6).put 0 0 (Val.int 1)).put 0 1 (Val.int 2)).put 0 2
    (Val.int 3)).put 0 3 (Val.int 4)).put 0 4 (Val.int 5)).put 0 5 (Val.int 6)

/-- A memory with one block holding one point, `x = INT_MAX` and `y = 0`. -/
def maxPoint : Mem :=
  (((Mem.empty fun _ => false).grow 2).put 0 0 (Val.int 2147483647)).put 0 1 (Val.int 0)

/-! ## alias1.c -/

namespace Alias1

/-- The variables of `fn` at its end. -/
structure Env where
  x : Int
  y : Int
  p : Ptr
  m0 : Ptr
  m1 : Ptr
deriving DecidableEq, Repr

/-- Source `fn` (alias1.c:5-16): the returned value, the variables at the
`return`, and the memory. -/
def fn (x y : Int) (p : Ptr) (m : Mem) : Option (Int × Env × Mem) := do
  -- int *m0 = p;
  let m0 := p
  -- int *m1 = p + 1;
  let m1 ← Ptr.add 1 p 1
  let m ←
    if x > y then do
      -- *m0 = x; *m1 = y;
      let m ← m.store m0 (Val.int x)
      m.store m1 (Val.int y)
    else do
      -- *m0 = y; *m1 = x;
      let m ← m.store m0 (Val.int y)
      m.store m1 (Val.int x)
  -- return 0
  some (0, { x := x, y := y, p := p, m0 := m0, m1 := m1 }, m)

end Alias1

/-! ## alias2.c -/

namespace Alias2

/-- The locals of `increment_points`. -/
structure Env where
  i : Int
  p0 : Ptr
  p1 : Ptr
deriving DecidableEq, Repr

/-- State of the loop: the locals, the memory, and the locals as they were
observed each time control passed the point after line 14, where both
`p0 = p0 + 1` and `p1 = &p[i]` have been executed (oldest first). -/
structure Loop where
  env : Env
  mem : Mem
  seen : List Env

/-- Source loop body (alias2.c:11-15). -/
def body (p : Ptr) (s : Loop) : Option Loop := do
  -- p0->x += 1;
  let vx ← s.mem.loadInt (s.env.p0.field Point.x)
  let m ← s.mem.store (s.env.p0.field Point.x) (Val.int (wrap32 (vx + 1)))
  -- p0->y += 1;
  let vy ← m.loadInt (s.env.p0.field Point.y)
  let m ← m.store (s.env.p0.field Point.y) (Val.int (wrap32 (vy + 1)))
  -- p0 = p0 + 1;
  let p0 ← Ptr.add Point.sizeof s.env.p0 1
  -- p1 = &p[i];
  let p1 ← Ptr.add Point.sizeof p s.env.i
  let e : Env := { i := s.env.i, p0 := p0, p1 := p1 }
  -- i += 1;
  some { env := { e with i := wrap32 (e.i + 1) }, mem := m, seen := s.seen ++ [e] }

/-- Source `increment_points` (alias2.c:7-17): the state at function exit. -/
def increment_points (fuel : Nat) (p : Ptr) (n : Int) (m : Mem) : Option Loop :=
  -- int i = 0; struct point *p0 = p, *p1 = 0;
  whileLoop (fun s => decide (s.env.i < n)) (body p) fuel
    { env := { i := 0, p0 := p, p1 := Ptr.null }, mem := m, seen := [] }

end Alias2

/-! ## alias3b.c -/

namespace Alias3b

/-- The locals of `increment_points`. -/
structure Env where
  i : Int
  p0 : Ptr
  p1 : Ptr
deriving DecidableEq, Repr

/-- State of the loop: the locals, the memory, and the locals as they were
observed each time the line marked HERE had been executed (oldest first). -/
structure Loop where
  env : Env
  mem : Mem
  seen : List Env

/-- Source loop body (alias3b.c:12-16). -/
def body (p : Ptr) (s : Loop) : Option Loop := do
  -- p0->x += 1;
  let vx ← s.mem.loadInt (s.env.p0.field Point.x)
  let m ← s.mem.store (s.env.p0.field Point.x) (Val.int (wrap32 (vx + 1)))
  -- p0->y += 1;
  let vy ← m.loadInt (s.env.p0.field Point.y)
  let m ← m.store (s.env.p0.field Point.y) (Val.int (wrap32 (vy + 1)))
  -- p1 = &p[i];
  let p1 ← Ptr.add Point.sizeof p s.env.i
  -- p0 = p0 + 1; // HERE
  let p0 ← Ptr.add Point.sizeof s.env.p0 1
  let e : Env := { i := s.env.i, p0 := p0, p1 := p1 }
  -- i += 1;
  some { env := { e with i := wrap32 (e.i + 1) }, mem := m, seen := s.seen ++ [e] }

/-- Source `increment_points` (alias3b.c:8-18): the state at function exit. -/
def increment_points (fuel : Nat) (p : Ptr) (n : Int) (m : Mem) : Option Loop :=
  -- int i = 0; struct point *p0 = p, *p1 = 0;
  whileLoop (fun s => decide (s.env.i < n)) (body p) fuel
    { env := { i := 0, p0 := p, p1 := Ptr.null }, mem := m, seen := [] }

end Alias3b

/-! ## alias5.c -/

namespace Alias5

/-- The locals of `increment_points`; `p3` and `p4` are declared without an
initialiser and hold no value (`none`) until they are assigned. -/
structure Env where
  i : Int
  p0 : Ptr
  p1 : Ptr
  p2 : Ptr
  p3 : Option Ptr
  p4 : Option Ptr
deriving DecidableEq, Repr

/-- State of the loop: the locals, the memory, and the locals as they were
observed each time the line marked HERE had been executed (oldest first). -/
structure Loop where
  env : Env
  mem : Mem
  seen : List Env

/-- Source loop body (alias5.c:12-19). -/
def body (p : Ptr) (s : Loop) : Option Loop := do
  -- p0->x += 1;
  let vx ← s.mem.loadInt (s.env.p0.field Point.x)
  let m ← s.mem.store (s.env.p0.field Point.x) (Val.int (wrap32 (vx + 1)))
  -- p0->y += 1;
  let vy ← m.loadInt (s.env.p0.field Point.y)
  let m ← m.store (s.env.p0.field Point.y) (Val.int (wrap32 (vy + 1)))
  -- p1 = &p[i];
  let p1 ← Ptr.add Point.sizeof p s.env.i
  -- p2 = &p[2*i];
  let p2 ← Ptr.add Point.sizeof p (wrap32 (2 * s.env.i))
  -- p0 = p0 + 1;
  let p0 ← Ptr.add Point.sizeof s.env.p0 1
  -- i += 1;
  let i := wrap32 (s.env.i + 1)
  -- p3 = &p[i];
  let p3 ← Ptr.add Point.sizeof p i
  -- p4 = &p[i-1];  // HERE
  let p4 ← Ptr.add Point.sizeof p (wrap32 (i - 1))
  let e : Env := { i := i, p0 := p0, p1 := p1, p2 := p2, p3 := some p3, p4 := some p4 }
  some { env := e, mem := m, seen := s.seen ++ [e] }

/-- Source `increment_points` (alias5.c:8-21): the state at function exit. -/
def increment_points (fuel : Nat) (p : Ptr) (n : Int) (m : Mem) : Option Loop :=
  -- int i = 0; struct point *p0 = p, *p1 = 0, *p2 = 0, *p3, *p4;
  whileLoop (fun s => decide (s.env.i < n)) (body p) fuel
    { env := { i := 0, p0 := p, p1 := Ptr.null, p2 := Ptr.null, p3 := none, p4 := none },
      mem := m, seen := [] }

end Alias5


/-! ## alias6.c -/

namespace Alias6

/-- Cell offsets of the members of `struct card { int suit; int rank; }`. -/
def suit : Nat := 0
/-- See `suit`. -/
def rank : Nat := 1

/-- Source `swap` (alias6.c:13-18):
`tmp = *z; *z = *y; *y = *x; *x = tmp;`. -/
def swap (x y z : Ptr) (m : Mem) : Option Mem := do
  let tmp ← m.loadPtr z
  let vy ← m.loadPtr y
  let m ← m.store z (Val.ptr vy)
  let vx ← m.loadPtr x
  let m ← m.store y (Val.ptr vx)
  m.store x (Val.ptr tmp)

/-- The variables of `main` at a program point: the addresses of the three
cards, of the cells `c0`, `c1`, `c2` (whose address is taken), and the values
of the plain locals `orig_c0`, `orig_c1`, `orig_c2`. -/
structure Env where
  card0 : Ptr
  card1 : Ptr
  card2 : Ptr
  orig_c0 : Ptr
  orig_c1 : Ptr
  orig_c2 : Ptr
  c0 : Ptr
  c1 : Ptr
  c2 : Ptr

/-- Source `main` (alias6.c:22-26): the declarations, up to the first call of
`swap`. -/
def mainSetup (m : Mem) : Option (Env × Mem) := do
  -- struct card card0 = {1, 12};
  let (card0, m) := m.alloc 2
  let m ← m.store (card0.field suit) (Val.int 1)
  let m ← m.store (card0.field rank) (Val.int 12)
  -- struct card card1 = {2, 2};
  let (card1, m) := m.alloc 2
  let m ← m.store (card1.field suit) (Val.int 2)
  let m ← m.store (card1.field rank) (Val.int 2)
  -- struct card card2 = {3, 2};
  let (card2, m) := m.alloc 2
  let m ← m.store (card2.field suit) (Val.int 3)
  let m ← m.store (card2.field rank) (Val.int 2)
  -- struct card *orig_c0 = &card0, *orig_c1 = &card1, *orig_c2 = &card2;
  let orig_c0 := card0
  let orig_c1 := card1
  let orig_c2 := card2
  -- struct card *c0 = &card0, *c1 = &card1, *c2 = &card2;
  let (c0, m) := m.alloc 1
  let m ← m.store c0 (Val.ptr card0)
  let (c1, m) := m.alloc 1
  let m ← m.store c1 (Val.ptr card1)
  let (c2, m) := m.alloc 1
  let m ← m.store c2 (Val.ptr card2)
  some ({ card0 := card0, card1 := card1, card2 := card2,
          orig_c0 := orig_c0, orig_c1 := orig_c1, orig_c2 := orig_c2,
          c0 := c0, c1 := c1, c2 := c2 }, m)

/-- Source `main` (alias6.c:22-28), up to and including the line marked HERE. -/
def mainToHere (m : Mem) : Option (Env × Mem) := do
  -- struct card card0 = {1, 12};
  let (card0, m) := m.alloc 2
  let m ← m.store (card0.field suit) (Val.int 1)
  let m ← m.store (card0.field rank) (Val.int 12)
  -- struct card card1 = {2, 2};
  let (card1, m) := m.alloc 2
  let m ← m.store (card1.field suit) (Val.int 2)
  let m ← m.store (card1.field rank) (Val.int 2)
  -- struct card card2 = {3, 2};
  let (card2, m) := m.alloc 2
  let m ← m.store (card2.field suit) (Val.int 3)
  let m ← m.store (card2.field rank) (Val.int 2)
  -- struct card *orig_c0 = &card0, *orig_c1 = &card1, *orig_c2 = &card2;
  let orig_c0 := card0
  let orig_c1 := card1
  let orig_c2 := card2
  -- struct card *c0 = &card0, *c1 = &card1, *c2 = &card2;
  let (c0, m) := m.alloc 1
  let m ← m.store c0 (Val.ptr card0)
  let (c1, m) := m.alloc 1
  let m ← m.store c1 (Val.ptr card1)
  let (c2, m) := m.alloc 1
  let m ← m.store c2 (Val.ptr card2)
  -- swap(&c0, &c1, &c2);
  let m ← swap c0 c1 c2 m
  -- swap(&c0, &c1, &c2); // HERE
  let m ← swap c0 c1 c2 m
  some ({ card0 := card0, card1 := card1, card2 := card2,
          orig_c0 := orig_c0, orig_c1 := orig_c1, orig_c2 := orig_c2,
          c0 := c0, c1 := c1, c2 := c2 }, m)

/-- Source `main` (alias6.c:21-32): the lines printed by the three `printf`
calls, each as the list of its `%d` arguments. -/
def main (m : Mem) : Option (List (List Int)) := do
  let (e, m) ← mainToHere m
  -- printf("%d %d\n", c0->suit, c0->rank);
  let c0 ← m.loadPtr e.c0
  let s0 ← m.loadInt (c0.field suit)
  let r0 ← m.loadInt (c0.field rank)
  -- printf("%d %d\n", orig_c1->suit, orig_c1->rank);
  let s1 ← m.loadInt (e.orig_c1.field suit)
  let r1 ← m.loadInt (e.orig_c1.field rank)
  -- printf("%d\n", c0 == orig_c1);
  some [[s0, r0], [s1, r1], [boolInt (decide (c0 = e.orig_c1))]]

/-- A memory with one block of three pointer cells, holding the addresses
of blocks 5, 6 and 7 (which need not be allocated). -/
def threeCells : Mem :=
  ((((Mem.empty fun _ => false).grow 3).put 0 0 (Val.ptr (Ptr.mk 5 0))).put 0 1
    (Val.ptr (Ptr.mk 6 0))).put 0 2 (Val.ptr (Ptr.mk 7 0))

end Alias6

/-! ## alias7.c -/

namespace Alias7

/-- Cell offset of the member of `struct x { int a; }`. -/
def a : Nat := 0

/-- The file-scope variables `x0` and `i`, and the memory. -/
structure State where
  x0 : Ptr
  i : Int
  mem : Mem

/-- The state at program start: `struct x *x0 = 0; int i = 0;`. -/
def init (m : Mem) : State := { x0 := Ptr.null, i := 0, mem := m }

/-- Source `gen0` (alias7.c:14-21). -/
def gen0 (s : State) : Option (Ptr × State) := do
  -- if (x0 == 0) { x0 = (struct x*)malloc(3 * sizeof(struct x)); }
  let s :=
    if s.x0 = Ptr.null then
      { s with x0 := (s.mem.malloc 3).1, mem := (s.mem.malloc 3).2 }
    else s
  -- struct x* result = x0 + i;
  let result ← Ptr.add 1 s.x0 s.i
  -- i = (i + 1) % 3;
  let s := { s with i := (wrap32 (s.i + 1)).tmod 3 }
  -- return result;
  some (result, s)

/-- Source `rep0` (alias7.c:23-25). -/
def rep0 (s : State) : Option (Ptr × State) :=
  gen0 s

/-- The results of `k` successive calls of `rep0`, oldest first, and the
state after them. -/
def calls : Nat → State → Option (List Ptr × State)
  | 0, s => some ([], s)
  | k + 1, s => do
    let (ps, s) ← calls k s
    let (r, s) ← rep0 s
    some (ps ++ [r], s)

/-- The locals of `main`, which shadow the file-scope `x0`. -/
structure Env where
  x0 : Ptr
  x1 : Ptr
  x2 : Ptr
  x3 : Ptr
deriving DecidableEq, Repr

/-- Source `main` (alias7.c:27-35), up to and including the line marked HERE. -/
def mainToHere (s : State) : Option (Env × State) := do
  -- struct x *x0 = rep0(); ... struct x *x3 = rep0();
  let (x0, s) ← rep0 s
  let (x1, s) ← rep0 s
  let (x2, s) ← rep0 s
  let (x3, s) ← rep0 s
  -- x0->a = 1; x1->a = 2; x2->a = 3;
  let m ← s.mem.store (x0.field a) (Val.int 1)
  let m ← m.store (x1.field a) (Val.int 2)
  let m ← m.store (x2.field a) (Val.int 3)
  -- x3->a = 4; // HERE
  let m ← m.store (x3.field a) (Val.int 4)
  some ({ x0 := x0, x1 := x1, x2 := x2, x3 := x3 }, { s with mem := m })

/-- Source `main` (alias7.c:27-37): the `%d` argument of its `printf`. -/
def main (s : State) : Option (List (List Int)) := do
  let (e, s) ← mainToHere s
  -- printf("%d", x0->a);
  let v ← s.mem.loadInt (e.x0.field a)
  some [[v]]

end Alias7

/-! ## alias9.c -/

namespace Alias9

/-- Cell offset of the member of `struct x { int a; }`. -/
def a : Nat := 0

/-- The file-scope variables `x0`, `i` and `max`, and the memory. -/
structure State where
  x0 : Ptr
  i : Int
  max : Int
  mem : Mem

/-- The state at program start: `struct x *x0 = 0; int i = 0; int max = 50;`. -/
def init (m : Mem) : State := { x0 := Ptr.null, i := 0, max := 50, mem := m }

/-- Read of `x0[i]->a` for a local array pointer `x0`. -/
def loadA (x0 : Ptr) (i : Int) (m : Mem) : Option Int := do
  let c ← Ptr.add 1 x0 i
  let q ← m.loadPtr c
  m.loadInt (q.field a)

/-- Write `x0[i]->a = v` for a local array pointer `x0`. -/
def storeA (x0 : Ptr) (i : Int) (v : Int) (m : Mem) : Option Mem := do
  let c ← Ptr.add 1 x0 i
  let q ← m.loadPtr c
  m.store (q.field a) (Val.int v)

/-- Body of the first loop of `gen0` (alias9.c:18-20), on the loop-local `i`. -/
def allocBody (x0 : Ptr) (s : Int × State) : Option (Int × State) := do
  -- x0[i] = (struct x*)malloc(sizeof(struct x));
  let r := s.2.mem.malloc 1
  let c ← Ptr.add 1 x0 s.1
  let m ← r.2.store c (Val.ptr r.1)
  -- i++
  some (wrap32 (s.1 + 1), { s.2 with mem := m })

/-- Body of the second loop of `gen0` (alias9.c:23-25), on the loop-local `i`. -/
def fillBody (x0 : Ptr) (s : Int × State) : Option (Int × State) := do
  -- x0[i]->a = x0[i-1]->a + x0[i-2]->a;
  let v1 ← loadA x0 (wrap32 (s.1 - 1)) s.2.mem
  let v2 ← loadA x0 (wrap32 (s.1 - 2)) s.2.mem
  let m ← storeA x0 s.1 (wrap32 (v1 + v2)) s.2.mem
  -- ++i
  some (wrap32 (s.1 + 1), { s.2 with mem := m })

/-- Source `gen0` (alias9.c:16-27); its `x0` and `i` are locals that shadow
the file-scope variables. -/
def gen0 (fuel : Nat) (s : State) : Option (Ptr × State) := do
  -- struct x **x0 = (struct x**)malloc(max * sizeof(struct x*));
  let r := s.mem.malloc s.max.toNat
  let x0 := r.1
  let s : State := { s with mem := r.2 }
  -- for (int i = 0; i < max; i++) { ... }
  let (_, s) ← whileLoop (fun t => decide (t.1 < t.2.max)) (allocBody x0) fuel (0, s)
  -- x0[0]->a = 1;
  let m ← storeA x0 0 1 s.mem
  -- x0[1]->a = 1;
  let m ← storeA x0 1 1 m
  let s : State := { s with mem := m }
  -- for (int i = 2; i < max; ++i) { ... }
  let (_, s) ← whileLoop (fun t => decide (t.1 < t.2.max)) (fillBody x0) fuel (2, s)
  -- return x0;
  some (x0, s)

/-- Source `rep` (alias9.c:29-35). -/
def rep (fuel : Nat) (orig : Ptr) (s : State) : Option (Ptr × State) := do
  -- struct x **result = gen0();
  let (result, s) ← gen0 fuel s
  -- if (orig != 0) { memcpy(result, orig, max*sizeof(struct x*)); }
  if orig ≠ Ptr.null then do
    let m ← memcpy result orig s.max.toNat s.mem
    some (result, { s with mem := m })
  else
    some (result, s)

/-- The locals of `main`, which shadow the file-scope `x0`. -/
structure Env where
  x0 : Ptr
  x1 : Ptr
  x2 : Ptr
  x3 : Ptr
deriving DecidableEq, Repr

/-- Body of the loop of `main` (alias9.c:42-48), on the loop-local `i`. -/
def pickBody (e : Env) (s : Int × State) : Option (Int × State) := do
  -- if (x0[i]->a % 2 == 0)
  let v ← loadA e.x0 s.1 s.2.mem
  let m ←
    if v.tmod 2 = 0 then do
      -- x3[i] = x1[i];
      let c1 ← Ptr.add 1 e.x1 s.1
      let q ← s.2.mem.loadPtr c1
      let c3 ← Ptr.add 1 e.x3 s.1
      s.2.mem.store c3 (Val.ptr q)
    else do
      -- x3[i] = x2[i];
      let c2 ← Ptr.add 1 e.x2 s.1
      let q ← s.2.mem.loadPtr c2
      let c3 ← Ptr.add 1 e.x3 s.1
      s.2.mem.store c3 (Val.ptr q)
  -- i++
  some (wrap32 (s.1 + 1), { s.2 with mem := m })

/-- Source `main` (alias9.c:37-50): its locals, the `%d` argument of its
`printf`, and the state, all at the line marked HERE. -/
def main (fuel : Nat) (s : State) : Option (Env × List (List Int) × State) := do
  -- struct x **x0 = rep(0);
  let (x0, s) ← rep fuel Ptr.null s
  -- struct x **x1 = rep(x0);
  let (x1, s) ← rep fuel x0 s
  -- struct x **x2 = rep(x1);
  let (x2, s) ← rep fuel x1 s
  -- struct x **x3 = rep(0);
  let (x3, s) ← rep fuel Ptr.null s
  let e : Env := { x0 := x0, x1 := x1, x2 := x2, x3 := x3 }
  -- for (int i = 0; i < max; i++) { ... }
  let (_, s) ← whileLoop (fun t => decide (t.1 < t.2.max)) (pickBody e) fuel (0, s)
  -- printf("%d\n", x3[0]->a);  // HERE
  let v ← loadA e.x3 0 s.mem
  some (e, [[v]], s)

/-- The values `x0[i]->a`, `i < 50`, that a call of `gen0` leaves: the
Fibonacci numbers, reduced modulo 2^32 from index 46 on. -/
def gen0Values : List Int :=
  [1, 1, 2, 3, 5, 8, 13, 21, 34, 55, 89, 144, 233, 377, 610, 987, 1597, 2584, 4181, 6765,
   10946, 17711, 28657, 46368, 75025, 121393, 196418, 317811, 514229, 832040, 1346269, 2178309,
   3524578, 5702887, 9227465, 14930352, 24157817, 39088169, 63245986, 102334155, 165580141,
   267914296, 433494437, 701408733, 1134903170, 1836311903, -1323752223, 512559680,
   -811192543, -298632863]

/-- Invariant used in the proofs: block `A` is an allocated array of 50
cells, and its cell `j` holds the address of block `S + j`. -/
def IsArray (m : Mem) (A S : Nat) : Prop :=
  A < m.next ∧ m.size A = 50 ∧ ∀ j : Nat, j < 50 → m.cell A j = Val.ptr (Ptr.mk (S + j) 0)

/-- Invariant used in the proofs: the blocks `S` to `S + 49` are allocated
with one cell each, and for `j < k` block `S + j` holds the `int` value
number `j` of `gen0Values`. -/
def HasStructs (m : Mem) (S k : Nat) : Prop :=
  S + 50 ≤ m.next ∧ (∀ j : Nat, j < 50 → m.size (S + j) = 1) ∧
    ∀ j : Nat, j < k → m.cell (S + j) 0 = Val.int (gen0Values.getD j 0)

/-- Invariant used in the proofs: the blocks below `N` have the same size
and content in `m1` as in `m`. -/
def AgreeBelow (m m1 : Mem) (N : Nat) : Prop :=
  ∀ (b : Nat) (o : Int), b < N → m1.size b = m.size b ∧ m1.cell b o = m.cell b o

end Alias9

/-! ## escape1.c -/

namespace Escape1

/-- Source `create_point` (escape1.c:8-13, the same text in both copies of
the file): the returned pointer and the memory. -/
def create_point (x0 y0 : Int) (m : Mem) : Option (Ptr × Mem) := do
  -- struct point *result = (struct point *) malloc (sizeof (point));
  let result := (m.malloc Point.sizeof).1
  let m := (m.malloc Point.sizeof).2
  -- result->x = x0;
  let m ← m.store (result.field Point.x) (Val.int x0)
  -- result->y = y0;
  let m ← m.store (result.field Point.y) (Val.int y0)
  -- return result;
  some (result, m)

end Escape1

/-! ## escape2.c -/

namespace Escape2

/-- Source `create_point` (tasks/simple_c_escape/escape2.c:8-17): the returned
pointer and the memory. -/
def create_point (x0 y0 : Int) (m : Mem) : Option (Ptr × Mem) := do
  -- struct point *result = (struct point *) malloc (sizeof (point));
  let result := (m.malloc Point.sizeof).1
  let m := (m.malloc Point.sizeof).2
  if x0 = y0 then
    -- return 0;
    some (Ptr.null, m)
  else do
    -- result->x = x0;
    let m ← m.store (result.field Point.x) (Val.int x0)
    -- result->y = y0;
    let m ← m.store (result.field Point.y) (Val.int y0)
    -- return result;
    some (result, m)

end Escape2

/-! ## Lemmas on the memory model -/

@[simp] theorem Mem.put_next (m : Mem) (b : Nat) (o : Int) (v : Val) :
    (m.put b o v).next = m.next := rfl

@[simp] theorem Mem.put_size (m : Mem) (b : Nat) (o : Int) (v : Val) :
    (m.put b o v).size = m.size := rfl

@[simp] theorem Mem.put_mallocs (m : Mem) (b : Nat) (o : Int) (v : Val) :
    (m.put b o v).mallocs = m.mallocs := rfl

@[simp] theorem Mem.put_oom (m : Mem) (b : Nat) (o : Int) (v : Val) :
    (m.put b o v).oom = m.oom := rfl

theorem Mem.put_cell (m : Mem) (b : Nat) (o : Int) (v : Val) (b1 : Nat) (o1 : Int) :
    (m.put b o v).cell b1 o1 = if b1 = b ∧ o1 = o then v else m.cell b1 o1 := rfl

@[simp] theorem Mem.valid_put (m : Mem) (b : Nat) (o : Int) (v : Val) (p : Ptr) :
    (m.put b o v).valid p = m.valid p := by
  cases p <;> rfl

@[simp] theorem Mem.grow_next (m : Mem) (n : Nat) : (m.grow n).next = m.next + 1 := rfl

@[simp] theorem Mem.grow_mallocs (m : Mem) (n : Nat) : (m.grow n).mallocs = m.mallocs := rfl

@[simp] theorem Mem.grow_oom (m : Mem) (n : Nat) : (m.grow n).oom = m.oom := rfl

theorem Mem.grow_size (m : Mem) (n : Nat) (b : Nat) :
    (m.grow n).size b = if b = m.next then n else m.size b := rfl

theorem Mem.grow_cell (m : Mem) (n : Nat) (b : Nat) (o : Int) :
    (m.grow n).cell b o = if b = m.next then Val.undef else m.cell b o := rfl

theorem Mem.valid_mk (m : Mem) (b : Nat) (o : Int) :
    m.valid (Ptr.mk b o) = true ↔ b < m.next ∧ 0 ≤ o ∧ o < (m.size b : Int) := by
  simp [Mem.valid, and_assoc]

theorem Mem.load_mk (m : Mem) (b : Nat) (o : Int) :
    m.load (Ptr.mk b o) = if m.valid (Ptr.mk b o) = true then some (m.cell b o) else none := rfl

theorem Mem.store_mk (m : Mem) (b : Nat) (o : Int) (v : Val) :
    m.store (Ptr.mk b o) v = if m.valid (Ptr.mk b o) = true then some (m.put b o v) else none := rfl

theorem Mem.ext_cell {m1 m2 : Mem} (h1 : m1.next = m2.next) (h2 : m1.size = m2.size)
    (h3 : ∀ b o, m1.cell b o = m2.cell b o) (h4 : m1.mallocs = m2.mallocs)
    (h5 : m1.oom = m2.oom) : m1 = m2 := by
  cases m1; cases m2
  simp only [Mem.mk.injEq]
  exact ⟨h1, h2, funext fun b => funext fun o => h3 b o, h4, h5⟩

theorem Mem.store_eq_write {m : Mem} {p : Ptr} (v : Val) (h : m.valid p = true) :
    m.store p v = some (m.write p v) := by
  cases p with
  | null => simp [Mem.valid] at h
  | mk b o => simp [Mem.store, Mem.write, h]

theorem Mem.store_eq_some {m m1 : Mem} {p : Ptr} {v : Val} (h : m.store p v = some m1) :
    m.valid p = true ∧ m1 = m.write p v := by
  cases p with
  | null => simp [Mem.store] at h
  | mk b o =>
    by_cases hv : m.valid (Ptr.mk b o) = true
    · simp [Mem.store_mk, hv] at h
      exact ⟨hv, by rw [← h]; rfl⟩
    · simp [Mem.store_mk, hv] at h

@[simp] theorem Mem.valid_write (m : Mem) (p : Ptr) (v : Val) (q : Ptr) :
    (m.write p v).valid q = m.valid q := by
  cases p <;> simp [Mem.write]

theorem Mem.load_write_same {m : Mem} {p : Ptr} (v : Val) (h : m.valid p = true) :
    (m.write p v).load p = some v := by
  cases p with
  | null => simp [Mem.valid] at h
  | mk b o => simp [Mem.write, Mem.load_mk, h, Mem.put_cell]

theorem Mem.load_write_ne (m : Mem) {p q : Ptr} (v : Val) (h : q ≠ p) :
    (m.write p v).load q = m.load q := by
  cases p with
  | null => rfl
  | mk b o =>
    cases q with
    | null => rfl
    | mk b1 o1 =>
      have h1 : ¬ (b1 = b ∧ o1 = o) := fun h2 => h (by rw [h2.1, h2.2])
      simp [Mem.write, Mem.load_mk, Mem.put_cell, h1]

theorem Mem.valid_of_load {m : Mem} {p : Ptr} {w : Val} (h : m.load p = some w) :
    m.valid p = true := by
  cases p with
  | null => simp [Mem.load] at h
  | mk b o =>
    by_contra hv
    simp [Mem.load_mk, hv] at h

theorem Mem.loadPtr_eq_some {m : Mem} {p q : Ptr} :
    m.loadPtr p = some q ↔ m.load p = some (Val.ptr q) := by
  unfold Mem.loadPtr
  split <;> simp_all

theorem Mem.loadInt_eq_some {m : Mem} {p : Ptr} {n : Int} :
    m.loadInt p = some n ↔ m.load p = some (Val.int n) := by
  unfold Mem.loadInt
  split <;> simp_all

theorem Mem.loadPtr_write_same {m : Mem} {p : Ptr} (q : Ptr) (h : m.valid p = true) :
    (m.write p (Val.ptr q)).loadPtr p = some q :=
  Mem.loadPtr_eq_some.mpr (Mem.load_write_same _ h)

theorem Mem.loadPtr_write_ne (m : Mem) {p q : Ptr} (v : Val) (h : q ≠ p) :
    (m.write p v).loadPtr q = m.loadPtr q := by
  simp [Mem.loadPtr, Mem.load_write_ne m v h]

theorem Mem.loadInt_write_same {m : Mem} {p : Ptr} (n : Int) (h : m.valid p = true) :
    (m.write p (Val.int n)).loadInt p = some n :=
  Mem.loadInt_eq_some.mpr (Mem.load_write_same _ h)

theorem Mem.loadInt_write_ne (m : Mem) {p q : Ptr} (v : Val) (h : q ≠ p) :
    (m.write p v).loadInt q = m.loadInt q := by
  simp [Mem.loadInt, Mem.load_write_ne m v h]

theorem Mem.valid_of_loadPtr {m : Mem} {p q : Ptr} (h : m.loadPtr p = some q) :
    m.valid p = true :=
  Mem.valid_of_load (Mem.loadPtr_eq_some.mp h)

theorem Mem.valid_of_loadInt {m : Mem} {p : Ptr} {n : Int} (h : m.loadInt p = some n) :
    m.valid p = true :=
  Mem.valid_of_load (Mem.loadInt_eq_some.mp h)

theorem Mem.write_write_same (m : Mem) (p : Ptr) (v w : Val) :
    (m.write p v).write p w = m.write p w := by
  cases p with
  | null => rfl
  | mk b o =>
    apply Mem.ext_cell <;> simp [Mem.write]
    intro b1 o1
    simp only [Mem.put_cell]
    split_ifs <;> rfl

theorem Mem.write_write_comm (m : Mem) {p q : Ptr} (v w : Val) (h : p ≠ q) :
    (m.write p v).write q w = (m.write q w).write p v := by
  cases p with
  | null => rfl
  | mk b o =>
    cases q with
    | null => rfl
    | mk b1 o1 =>
      apply Mem.ext_cell <;> simp [Mem.write]
      intro b2 o2
      simp only [Mem.put_cell]
      split_ifs with h1 h2 <;> try rfl
      exact absurd (by rw [← h1.1, ← h1.2, ← h2.1, ← h2.2]) h

theorem Mem.write_of_load {m : Mem} {p : Ptr} {v : Val} (h : m.load p = some v) :
    m.write p v = m := by
  cases p with
  | null => rfl
  | mk b o =>
    have hv := Mem.valid_of_load h
    simp [Mem.load_mk, hv] at h
    apply Mem.ext_cell <;> simp [Mem.write]
    intro b1 o1
    simp only [Mem.put_cell]
    split_ifs with h1
    · rw [h1.1, h1.2, h]
    · rfl

/-- Writing three distinct cells twice leaves the later three values. -/
theorem Mem.write3_write3 (m : Mem) {x y z : Ptr} (hxy : x ≠ y) (hyz : y ≠ z) (hxz : x ≠ z)
    (v1 v2 v3 w1 w2 w3 : Val) :
    (((((m.write z w3).write y w2).write x w1).write z v3).write y v2).write x v1
      = ((m.write z v3).write y v2).write x v1 := by
  rw [Mem.write_write_comm ((m.write z w3).write y w2) w1 v3 hxz,
    Mem.write_write_comm (m.write z w3) w2 v3 hyz, Mem.write_write_same,
    Mem.write_write_comm ((m.write z v3).write y w2) w1 v2 hxy, Mem.write_write_same,
    Mem.write_write_same]

/-- The pointer `p + 1` differs from `p`, for elements of at least one cell. -/
theorem Ptr.add_one_ne {sz : Nat} (hsz : 0 < sz) {p q : Ptr} (h : Ptr.add sz p 1 = some q) :
    q ≠ p := by
  cases p with
  | null => simp [Ptr.add] at h
  | mk b o =>
    simp [Ptr.add] at h
    subst h
    simp
    omega

/-! ## alias6.c: the pointer rotation -/

namespace Alias6

/-- The memory left by one call of `swap` on cells `x`, `y`, `z` that hold
`a`, `b`, `c`. -/
theorem swap_eq (m : Mem) (x y z a b c : Ptr) (hxz : x ≠ z)
    (hx : m.loadPtr x = some a) (hy : m.loadPtr y = some b) (hz : m.loadPtr z = some c) :
    swap x y z m = some (((m.write z (Val.ptr b)).write y (Val.ptr a)).write x (Val.ptr c)) := by
  have vx := Mem.valid_of_loadPtr hx
  have vy := Mem.valid_of_loadPtr hy
  have vz := Mem.valid_of_loadPtr hz
  simp [swap, bind, hz, hy, Mem.store_eq_write _ vz, Mem.loadPtr_write_ne _ _ hxz, hx,
    Mem.store_eq_write, vy, vx]

/-- One call of `swap` on distinct cells holding `(a, b, c)` leaves `(c, a, b)`. -/
theorem swap_loads (m : Mem) (x y z a b c : Ptr) (hxy : x ≠ y) (hyz : y ≠ z) (hxz : x ≠ z)
    (hx : m.loadPtr x = some a) (hy : m.loadPtr y = some b) (hz : m.loadPtr z = some c) :
    ∃ m1, swap x y z m = some m1 ∧ m1.loadPtr x = some c ∧ m1.loadPtr y = some a ∧
      m1.loadPtr z = some b := by
  have vx := Mem.valid_of_loadPtr hx
  have vy := Mem.valid_of_loadPtr hy
  have vz := Mem.valid_of_loadPtr hz
  refine ⟨_, swap_eq m x y z a b c hxz hx hy hz, ?_, ?_, ?_⟩
  · exact Mem.loadPtr_write_same c (by simpa using vx)
  · rw [Mem.loadPtr_write_ne _ _ hxy.symm]
    exact Mem.loadPtr_write_same a (by simpa using vy)
  · rw [Mem.loadPtr_write_ne _ _ hxz.symm, Mem.loadPtr_write_ne _ _ hyz.symm]
    exact Mem.loadPtr_write_same b vz

/-- C1: in `main` of alias6.c, for every initial memory, control reaches the
line marked HERE, where the cell `c0` holds the address of `card1`, which is
also the value of `orig_c1`; and the third `printf` prints `1` for
`c0 == orig_c1` (after the two lines `2 2` of the card both point to). -/
theorem main_c0_eq_orig_c1 (m : Mem) :
    ∃ e m1, mainToHere m = some (e, m1) ∧
      e.orig_c1 = e.card1 ∧ m1.loadPtr e.c0 = some e.card1 ∧
      m1.loadPtr e.c0 = some e.orig_c1 ∧ e.card1 ≠ Ptr.null ∧
      main m = some [[2, 2], [2, 2], [1]] := by
  simp_arith [mainToHere, main, swap, Mem.alloc, Mem.store_mk, Mem.valid_mk, Mem.loadPtr,
    Mem.loadInt, Mem.load_mk, Mem.put_cell, Mem.grow_cell, Mem.grow_size, Ptr.field, suit, rank,
    boolInt, bind, Option.bind]
  refine ⟨_, _, ⟨rfl, rfl⟩, ?_⟩
  simp_arith [Mem.valid_mk, Mem.load_mk, Mem.put_cell, Mem.grow_cell, Mem.grow_size]

/-- C7: `swap` rotates the contents of three distinct pointer cells: from
`(a, b, c)` one call leaves `(c, a, b)`; two calls leave `(b, c, a)`, the very
memory that one call with the arguments reversed (the rotation in the opposite
direction) leaves; three calls give back the initial memory. -/
theorem swap_three_cycle (m : Mem) (x y z a b c : Ptr)
    (hxy : x ≠ y) (hyz : y ≠ z) (hxz : x ≠ z)
    (hx : m.loadPtr x = some a) (hy : m.loadPtr y = some b) (hz : m.loadPtr z = some c) :
    (∃ m1, swap x y z m = some m1 ∧
      m1.loadPtr x = some c ∧ m1.loadPtr y = some a ∧ m1.loadPtr z = some b) ∧
    (∃ m2, (swap x y z m).bind (swap x y z) = some m2 ∧
      m2.loadPtr x = some b ∧ m2.loadPtr y = some c ∧ m2.loadPtr z = some a ∧
      swap z y x m = some m2) ∧
    ((swap x y z m).bind (swap x y z)).bind (swap x y z) = some m := by
  obtain ⟨m1, e1, x1, y1, z1⟩ := swap_loads m x y z a b c hxy hyz hxz hx hy hz
  obtain ⟨m2, e2, x2, y2, z2⟩ := swap_loads m1 x y z c a b hxy hyz hxz x1 y1 z1
  obtain ⟨m3, e3, _, _, _⟩ := swap_loads m2 x y z b c a hxy hyz hxz x2 y2 z2
  have f1 := swap_eq m x y z a b c hxz hx hy hz
  have f2 := swap_eq m1 x y z c a b hxz x1 y1 z1
  have f3 := swap_eq m2 x y z b c a hxz x2 y2 z2
  have r1 := swap_eq m z y x c b a hxz.symm hz hy hx
  rw [e1] at f1
  rw [e2] at f2
  rw [e3] at f3
  injection f1 with f1
  injection f2 with f2
  injection f3 with f3
  have k2 : m2 = ((m.write x (Val.ptr b)).write y (Val.ptr c)).write z (Val.ptr a) := by
    rw [f2, f1, Mem.write3_write3 m hxy hyz hxz,
      Mem.write_write_comm (m.write x (Val.ptr b)) (Val.ptr c) (Val.ptr a) hyz,
      Mem.write_write_comm m (Val.ptr b) (Val.ptr a) hxz,
      Mem.write_write_comm (m.write z (Val.ptr a)) (Val.ptr b) (Val.ptr c) hxy]
  refine ⟨⟨m1, e1, x1, y1, z1⟩, ⟨m2, ?_, x2, y2, z2, ?_⟩, ?_⟩
  · simp [e1, e2]
  · rw [r1, k2]
  · simp only [e1, e2, e3, Option.some_bind]
    rw [f3, f2, f1, Mem.write3_write3 _ hxy hyz hxz, Mem.write3_write3 _ hxy hyz hxz,
      Mem.write_of_load (Mem.loadPtr_eq_some.mp hz), Mem.write_of_load (Mem.loadPtr_eq_some.mp hy),
      Mem.write_of_load (Mem.loadPtr_eq_some.mp hx)]

/-- Witness of C7 on a block of three cells holding the addresses of blocks
5, 6 and 7: three calls of `swap` give back the memory. -/
theorem swap_three_cycle_witness :
    (Ptr.mk 0 0 ≠ Ptr.mk 0 1 ∧ Ptr.mk 0 1 ≠ Ptr.mk 0 2 ∧ Ptr.mk 0 0 ≠ Ptr.mk 0 2 ∧
      threeCells.loadPtr (Ptr.mk 0 0) = some (Ptr.mk 5 0) ∧
      threeCells.loadPtr (Ptr.mk 0 1) = some (Ptr.mk 6 0) ∧
      threeCells.loadPtr (Ptr.mk 0 2) = some (Ptr.mk 7 0)) ∧
    (∃ m2, (swap (Ptr.mk 0 0) (Ptr.mk 0 1) (Ptr.mk 0 2) threeCells).bind
        (swap (Ptr.mk 0 0) (Ptr.mk 0 1) (Ptr.mk 0 2)) = some m2 ∧
      m2.loadPtr (Ptr.mk 0 0) = some (Ptr.mk 6 0) ∧ m2.loadPtr (Ptr.mk 0 1) = some (Ptr.mk 7 0) ∧
      m2.loadPtr (Ptr.mk 0 2) = some (Ptr.mk 5 0) ∧
      swap (Ptr.mk 0 2) (Ptr.mk 0 1) (Ptr.mk 0 0) threeCells = some m2) ∧
    (((swap (Ptr.mk 0 0) (Ptr.mk 0 1) (Ptr.mk 0 2) threeCells).bind
        (swap (Ptr.mk 0 0) (Ptr.mk 0 1) (Ptr.mk 0 2))).bind
        (swap (Ptr.mk 0 0) (Ptr.mk 0 1) (Ptr.mk 0 2)) = some threeCells) :=
  ⟨⟨by decide, by decide, by decide, by decide, by decide, by decide⟩,
    (swap_three_cycle threeCells (Ptr.mk 0 0) (Ptr.mk 0 1) (Ptr.mk 0 2) (Ptr.mk 5 0) (Ptr.mk 6 0)
      (Ptr.mk 7 0) (by decide) (by decide) (by decide) (by decide) (by decide) (by decide)).2⟩

end Alias6


theorem wrap32_of_range {n : Int} (h0 : -2147483648 ≤ n) (h1 : n < 2147483648) :
    wrap32 n = n := by
  unfold wrap32
  omega

theorem Mem.malloc_ne_null {m : Mem} {n : Nat} (h : (m.malloc n).1 ≠ Ptr.null) :
    m.oom m.mallocs = false := by
  by_contra h1
  simp [Mem.malloc, h1] at h

theorem Mem.malloc_of_ok {m : Mem} (n : Nat) (h : m.oom m.mallocs = false) :
    m.malloc n = (Ptr.mk m.next 0, { m.grow n with mallocs := m.mallocs + 1 }) := by
  simp [Mem.malloc, h]

theorem Mem.valid_malloc {m : Mem} (n : Nat) (h : m.oom m.mallocs = false) {k : Int}
    (h0 : 0 ≤ k) (h1 : k < n) : (m.malloc n).2.valid (Ptr.mk m.next k) = true := by
  rw [Mem.malloc_of_ok n h, Mem.valid_mk]
  simp [Mem.grow, h0, h1]

namespace Alias7

/-- The first call of `gen0`, when `malloc` succeeds, allocates the buffer
and returns its slot 0. -/
theorem gen0_init (m : Mem) (h : m.oom m.mallocs = false) :
    gen0 (init m) = some (Ptr.mk m.next 0,
      { x0 := Ptr.mk m.next 0, i := 1, mem := (m.malloc 3).2 }) := by
  simp [gen0, init, Mem.malloc_of_ok 3 h, Ptr.add, wrap32]
  decide

/-- A call of `gen0` once the buffer exists returns slot `i` and advances
`i` modulo 3, leaving the buffer pointer and the memory alone. -/
theorem gen0_step (b : Nat) (k : Int) (M : Mem) (h0 : 0 ≤ k) (h1 : k < 3) :
    gen0 { x0 := Ptr.mk b 0, i := k, mem := M } =
      some (Ptr.mk b k, { x0 := Ptr.mk b 0, i := (k + 1) % 3, mem := M }) := by
  have hw : wrap32 (k + 1) = k + 1 := wrap32_of_range (by omega) (by omega)
  have ht : (k + 1).tmod 3 = (k + 1) % 3 := Int.tmod_eq_emod (by omega) (by omega)
  simp [gen0, Ptr.add, hw, ht]

/-- Closed form of `n + 1` successive calls. -/
theorem calls_succ (m : Mem) (h : m.oom m.mallocs = false) (n : Nat) :
    calls (n + 1) (init m) =
      some ((List.range (n + 1)).map (fun j : Nat => Ptr.mk m.next ((j : Int) % 3)),
        { x0 := Ptr.mk m.next 0, i := (((n + 1) % 3 : Nat) : Int), mem := (m.malloc 3).2 }) := by
  induction n with
  | zero => simp [calls, rep0, gen0_init m h, bind, List.range_succ]
  | succ n ih =>
    rw [calls, ih]
    have h0 : (0 : Int) ≤ (((n + 1) % 3 : Nat) : Int) := by omega
    have h1 : (((n + 1) % 3 : Nat) : Int) < 3 := by omega
    have h2 : ((((n + 1) % 3 : Nat) : Int) + 1) % 3 = (((n + 1 + 1) % 3 : Nat) : Int) := by omega
    simp only [rep0, bind, Option.bind, gen0_step m.next _ _ h0 h1, h2]
    rw [List.range_succ (n := n + 1), List.map_append]
    simp

/-- The memory and the four results of `main` at the line marked HERE. -/
theorem mainToHere_eq (m : Mem) (h : m.oom m.mallocs = false) :
    mainToHere (init m) = some
      ({ x0 := Ptr.mk m.next 0, x1 := Ptr.mk m.next 1, x2 := Ptr.mk m.next 2,
         x3 := Ptr.mk m.next 0 },
       { x0 := Ptr.mk m.next 0, i := 1,
         mem := ((((m.malloc 3).2.write (Ptr.mk m.next 0) (Val.int 1)).write (Ptr.mk m.next 1)
           (Val.int 2)).write (Ptr.mk m.next 2) (Val.int 3)).write (Ptr.mk m.next 0) (Val.int 4) }) := by
  have g1 := gen0_step m.next 1 (m.malloc 3).2 (by omega) (by omega)
  have g2 := gen0_step m.next 2 (m.malloc 3).2 (by omega) (by omega)
  have g3 := gen0_step m.next 0 (m.malloc 3).2 (by omega) (by omega)
  norm_num at g1 g2 g3
  have v0 := Mem.valid_malloc 3 h (k := 0) (by omega) (by norm_num)
  have v1 := Mem.valid_malloc 3 h (k := 1) (by omega) (by norm_num)
  have v2 := Mem.valid_malloc 3 h (k := 2) (by omega) (by norm_num)
  simp [mainToHere, rep0, gen0_init m h, bind, g1, g2, g3, Ptr.field, a, Mem.store_eq_write,
    v0, v1, v2]

/-- C2: in alias7.c, when `malloc` returns a non-null block, `main` reaches
the line marked HERE and there its locals `x0` and `x3` hold the same address,
slot 0 of the buffer that the file-scope `x0` points to; so the final `printf`
shows the `4` stored through `x3`. -/
theorem main_x0_eq_x3 (m : Mem) (hm : (m.malloc 3).1 ≠ Ptr.null) :
    ∃ e s, mainToHere (init m) = some (e, s) ∧ e.x0 = e.x3 ∧
      s.x0 = (m.malloc 3).1 ∧ Ptr.add 1 s.x0 0 = some e.x0 ∧ Ptr.add 1 s.x0 0 = some e.x3 ∧
      main (init m) = some [[4]] := by
  have h := Mem.malloc_ne_null hm
  have hb : (m.malloc 3).1 = Ptr.mk m.next 0 := by rw [Mem.malloc_of_ok 3 h]
  have v0 := Mem.valid_malloc 3 h (k := 0) (by omega) (by norm_num)
  refine ⟨_, _, mainToHere_eq m h, rfl, hb.symm, by simp [Ptr.add], by simp [Ptr.add], ?_⟩
  simp [main, mainToHere_eq m h, bind, Ptr.field, a, Mem.loadInt_write_same, v0]

/-- Witness of C2 on the empty memory with a `malloc` that never fails. -/
theorem main_x0_eq_x3_witness :
    ((Mem.empty fun _ => false).malloc 3).1 ≠ Ptr.null ∧
    ∃ e s, mainToHere (init (Mem.empty fun _ => false)) = some (e, s) ∧ e.x0 = e.x3 ∧
      s.x0 = ((Mem.empty fun _ => false).malloc 3).1 ∧
      Ptr.add 1 s.x0 0 = some e.x0 ∧ Ptr.add 1 s.x0 0 = some e.x3 ∧
      main (init (Mem.empty fun _ => false)) = some [[4]] :=
  ⟨by decide, main_x0_eq_x3 (Mem.empty fun _ => false) (by decide)⟩

/-- C8: in alias7.c, when `malloc` succeeds, call number `n` (from 0) of
`rep0`, which is `gen0`, returns the buffer base plus `n mod 3`; two
successive calls return different slots, and calls `j` and `k` return the same
address exactly when `j` and `k` are congruent modulo 3. -/
theorem gen0_nth_call (m : Mem) (hm : (m.malloc 3).1 ≠ Ptr.null) (N : Nat) :
    (∀ s, rep0 s = gen0 s) ∧
    ∃ ps s, calls N (init m) = some (ps, s) ∧ ps.length = N ∧
      (∀ n : Nat, n < N → ps[n]? = Ptr.add 1 (m.malloc 3).1 ((n : Int) % 3)) ∧
      (∀ n : Nat, n + 1 < N → ps[n]? ≠ ps[n + 1]?) ∧
      (∀ j k : Nat, j < N → k < N → (ps[j]? = ps[k]? ↔ j % 3 = k % 3)) := by
  have h := Mem.malloc_ne_null hm
  have hb : (m.malloc 3).1 = Ptr.mk m.next 0 := by rw [Mem.malloc_of_ok 3 h]
  refine ⟨fun _ => rfl, ?_⟩
  have key : ∃ s, calls N (init m) =
      some ((List.range N).map (fun j : Nat => Ptr.mk m.next ((j : Int) % 3)), s) := by
    cases N with
    | zero => exact ⟨_, rfl⟩
    | succ n => exact ⟨_, calls_succ m h n⟩
  obtain ⟨s, hs⟩ := key
  have get : ∀ n, n < N →
      ((List.range N).map (fun j : Nat => Ptr.mk m.next ((j : Int) % 3)))[n]?
        = some (Ptr.mk m.next ((n : Int) % 3)) := by
    intro n hn
    simp [List.getElem?_map, List.getElem?_range hn]
  refine ⟨_, s, hs, by simp, ?_, ?_, ?_⟩
  · intro n hn
    rw [get n hn, hb]
    simp [Ptr.add]
  · intro n hn
    rw [get n (by omega), get (n + 1) hn]
    simp
    omega
  · intro j k hj hk
    rw [get j hj, get k hk]
    simp
    omega

/-- Witness of C8: seven calls on the empty memory with a `malloc` that never fails. -/
theorem gen0_nth_call_witness :
    ((Mem.empty fun _ => false).malloc 3).1 ≠ Ptr.null ∧
    ∃ ps s, calls 7 (init (Mem.empty fun _ => false)) = some (ps, s) ∧ ps.length = 7 ∧
      (∀ n : Nat, n < 7 →
        ps[n]? = Ptr.add 1 ((Mem.empty fun _ => false).malloc 3).1 ((n : Int) % 3)) ∧
      (∀ n : Nat, n + 1 < 7 → ps[n]? ≠ ps[n + 1]?) ∧
      (∀ j k : Nat, j < 7 → k < 7 → (ps[j]? = ps[k]? ↔ j % 3 = k % 3)) :=
  ⟨by decide, (gen0_nth_call (Mem.empty fun _ => false) (by decide) 7).2⟩

end Alias7

/-! ## escape1.c and escape2.c -/

/-- A block just returned by a successful `malloc` was not valid before. -/
theorem Mem.not_valid_fresh (m : Mem) (k : Int) : m.valid (Ptr.mk m.next k) = false := by
  simp [Mem.valid]

namespace Escape1

/-- The result of `create_point` when `malloc` succeeds. -/
theorem create_point_eq (x0 y0 : Int) (m : Mem) (h : m.oom m.mallocs = false) :
    create_point x0 y0 m = some (Ptr.mk m.next 0,
      ((m.malloc Point.sizeof).2.write (Ptr.mk m.next 0) (Val.int x0)).write (Ptr.mk m.next 1)
        (Val.int y0)) := by
  have v0 := Mem.valid_malloc Point.sizeof h (k := 0) (by omega) (by norm_num [Point.sizeof])
  have v1 := Mem.valid_malloc Point.sizeof h (k := 1) (by omega) (by norm_num [Point.sizeof])
  have hb : (m.malloc Point.sizeof).1 = Ptr.mk m.next 0 := by rw [Mem.malloc_of_ok _ h]
  simp [create_point, hb, bind, Ptr.field, Point.x, Point.y, Mem.store_eq_write, v0, v1]

/-- C4: in escape1.c, when `malloc` succeeds, `create_point` returns, and what
it returns is the pointer `malloc` gave, an object that did not exist before
the call and whose members `x` and `y` now hold `x0` and `y0`. -/
theorem create_point_returns_malloc (x0 y0 : Int) (m : Mem)
    (hm : (m.malloc Point.sizeof).1 ≠ Ptr.null) :
    ∃ m1, create_point x0 y0 m = some ((m.malloc Point.sizeof).1, m1) ∧
      m.valid (m.malloc Point.sizeof).1 = false ∧
      m1.loadInt ((m.malloc Point.sizeof).1.field Point.x) = some x0 ∧
      m1.loadInt ((m.malloc Point.sizeof).1.field Point.y) = some y0 := by
  have h := Mem.malloc_ne_null hm
  have v0 := Mem.valid_malloc Point.sizeof h (k := 0) (by omega) (by norm_num [Point.sizeof])
  have v1 := Mem.valid_malloc Point.sizeof h (k := 1) (by omega) (by norm_num [Point.sizeof])
  have hb : (m.malloc Point.sizeof).1 = Ptr.mk m.next 0 := by rw [Mem.malloc_of_ok _ h]
  rw [hb]
  refine ⟨_, create_point_eq x0 y0 m h, Mem.not_valid_fresh m 0, ?_, ?_⟩
  · have hne : Ptr.mk m.next 0 ≠ Ptr.mk m.next 1 := by simp
    simp only [Ptr.field, Point.x, Nat.cast_zero, add_zero]
    rw [Mem.loadInt_write_ne _ _ hne]
    exact Mem.loadInt_write_same x0 v0
  · simp only [Ptr.field, Point.y, Nat.cast_one, zero_add]
    exact Mem.loadInt_write_same y0 (by simpa using v1)

/-- Witness of C4 on the empty memory with a `malloc` that never fails. -/
theorem create_point_returns_malloc_witness :
    ((Mem.empty fun _ => false).malloc Point.sizeof).1 ≠ Ptr.null ∧
    ∃ m1, create_point 3 4 (Mem.empty fun _ => false)
        = some (((Mem.empty fun _ => false).malloc Point.sizeof).1, m1) ∧
      (Mem.empty fun _ => false).valid ((Mem.empty fun _ => false).malloc Point.sizeof).1 = false ∧
      m1.loadInt (((Mem.empty fun _ => false).malloc Point.sizeof).1.field Point.x) = some 3 ∧
      m1.loadInt (((Mem.empty fun _ => false).malloc Point.sizeof).1.field Point.y) = some 4 :=
  ⟨by decide, create_point_returns_malloc 3 4 (Mem.empty fun _ => false) (by decide)⟩

end Escape1

namespace Escape2

/-- On equal arguments `create_point` returns the null pointer. -/
theorem create_point_same (x0 : Int) (m : Mem) :
    create_point x0 x0 m = some (Ptr.null, (m.malloc Point.sizeof).2) := by
  simp [create_point]

/-- On different arguments `create_point` is the function of escape1.c. -/
theorem create_point_diff (x0 y0 : Int) (m : Mem) (h : x0 ≠ y0) :
    create_point x0 y0 m = Escape1.create_point x0 y0 m := by
  simp [create_point, Escape1.create_point, h]

/-- C5: in escape2.c (tasks version), when `malloc` succeeds, `create_point`
returns; the result is null exactly when `x0 = y0`; otherwise it is the pointer
`malloc` gave, an object that did not exist before the call, with members
`x = x0` and `y = y0`; and there are arguments for which that heap object is
returned. -/
theorem create_point_null_iff (x0 y0 : Int) (m : Mem)
    (hm : (m.malloc Point.sizeof).1 ≠ Ptr.null) :
    (∃ r m1, create_point x0 y0 m = some (r, m1) ∧ (r = Ptr.null ↔ x0 = y0) ∧
      (x0 ≠ y0 → r = (m.malloc Point.sizeof).1 ∧ m.valid r = false ∧
        m1.loadInt (r.field Point.x) = some x0 ∧ m1.loadInt (r.field Point.y) = some y0)) ∧
    (∃ a b m1, create_point a b m = some ((m.malloc Point.sizeof).1, m1)) := by
  have h := Mem.malloc_ne_null hm
  have hb : (m.malloc Point.sizeof).1 = Ptr.mk m.next 0 := by rw [Mem.malloc_of_ok _ h]
  have e1 := Escape1.create_point_eq
  constructor
  · by_cases hxy : x0 = y0
    · subst hxy
      exact ⟨_, _, create_point_same x0 m, by simp, fun hne => absurd rfl hne⟩
    · have v0 := Mem.valid_malloc Point.sizeof h (k := 0) (by omega) (by norm_num [Point.sizeof])
      have v1 := Mem.valid_malloc Point.sizeof h (k := 1) (by omega) (by norm_num [Point.sizeof])
      refine ⟨_, _, (create_point_diff x0 y0 m hxy).trans (e1 x0 y0 m h), by simp [hxy], ?_⟩
      intro _
      refine ⟨hb.symm, Mem.not_valid_fresh m 0, ?_, ?_⟩
      · have hne : Ptr.mk m.next 0 ≠ Ptr.mk m.next 1 := by simp
        simp only [Ptr.field, Point.x, Nat.cast_zero, add_zero]
        rw [Mem.loadInt_write_ne _ _ hne]
        exact Mem.loadInt_write_same x0 v0
      · simp only [Ptr.field, Point.y, Nat.cast_one, zero_add]
        exact Mem.loadInt_write_same y0 (by simpa using v1)
  · rw [hb]
    exact ⟨0, 1, _, (create_point_diff 0 1 m (by decide)).trans (e1 0 1 m h)⟩

/-- Witness of C5 on the empty memory with a `malloc` that never fails: the
arguments 3 and 4 give the heap object, with its members set. -/
theorem create_point_null_iff_witness :
    ((Mem.empty fun _ => false).malloc Point.sizeof).1 ≠ Ptr.null ∧
    ∃ r m1, create_point 3 4 (Mem.empty fun _ => false) = some (r, m1) ∧
      (r = Ptr.null ↔ (3 : Int) = 4) ∧
      ((3 : Int) ≠ 4 → r = ((Mem.empty fun _ => false).malloc Point.sizeof).1 ∧
        (Mem.empty fun _ => false).valid r = false ∧
        m1.loadInt (r.field Point.x) = some 3 ∧ m1.loadInt (r.field Point.y) = some 4) :=
  ⟨by decide, (create_point_null_iff 3 4 (Mem.empty fun _ => false) (by decide)).1⟩

end Escape2

/-! ## alias1.c -/

namespace Alias1

/-- Whatever `fn` returns, its variables at the `return` are `m0 = p` and
`m1 = p + 1`. -/
theorem fn_env {x y : Int} {p : Ptr} {m : Mem} {r : Int} {e : Env} {m1 : Mem}
    (h : fn x y p m = some (r, e, m1)) :
    r = 0 ∧ e.p = p ∧ e.m0 = p ∧ Ptr.add 1 p 1 = some e.m1 := by
  unfold fn at h
  cases hq : Ptr.add 1 p 1 with
  | none => simp [hq, bind] at h
  | some q =>
    simp only [hq, bind] at h
    split_ifs at h <;>
    · simp only [Option.bind_eq_some, Option.some.injEq, Prod.mk.injEq] at h
      obtain ⟨_, hw, _, _, _, _, h1, h2, _⟩ := h
      subst h2 hw
      exact ⟨h1.symm, rfl, rfl, rfl⟩

/-- When `p` and `p + 1` are valid, `fn` returns. -/
theorem fn_returns (x y : Int) {p q : Ptr} (m : Mem) (hq : Ptr.add 1 p 1 = some q)
    (vp : m.valid p = true) (vq : m.valid q = true) :
    ∃ e m1, fn x y p m = some (0, e, m1) := by
  unfold fn
  by_cases hxy : x > y <;>
    simp [hq, bind, hxy, Mem.store_eq_write, vp, vq]

/-- C3: in alias1.c, for all `x`, `y`, `p` and every memory, whenever `fn`
reaches its `return` (which it does as soon as `p` and `p + 1` may be written),
`m0` holds the address `p` holds, and `m1` holds `p + 1`, an address different
from that of `m0` and `p`: of the three pointers only `m0` and `p` are equal. -/
theorem fn_m0_eq_p (x y : Int) (p : Ptr) (m : Mem) :
    (∀ r e m1, fn x y p m = some (r, e, m1) →
      e.p = p ∧ e.m0 = e.p ∧ Ptr.add 1 e.p 1 = some e.m1 ∧ e.m1 ≠ e.m0 ∧ e.m1 ≠ e.p) ∧
    (∀ q, Ptr.add 1 p 1 = some q → m.valid p = true → m.valid q = true →
      ∃ e m1, fn x y p m = some (0, e, m1)) := by
  constructor
  · intro r e m1 h
    obtain ⟨_, hp, hm0, hm1⟩ := fn_env h
    rw [hp, hm0]
    exact ⟨rfl, rfl, hm1, Ptr.add_one_ne one_pos hm1, Ptr.add_one_ne one_pos hm1⟩
  · intro q hq vp vq
    exact fn_returns x y m hq vp vq

/-- Witness of C3: `fn 3 4` and `fn 4 3` (one for each branch) on the first
cell of a block of four `int`. -/
theorem fn_m0_eq_p_witness :
    (Ptr.add 1 (Ptr.mk 0 0) 1 = some (Ptr.mk 0 1) ∧ fourInts.valid (Ptr.mk 0 0) = true ∧
      fourInts.valid (Ptr.mk 0 1) = true) ∧
    (∃ e m1, fn 3 4 (Ptr.mk 0 0) fourInts = some (0, e, m1) ∧
      e.p = Ptr.mk 0 0 ∧ e.m0 = e.p ∧ Ptr.add 1 e.p 1 = some e.m1 ∧ e.m1 ≠ e.m0 ∧ e.m1 ≠ e.p) ∧
    (∃ e m1, fn 4 3 (Ptr.mk 0 0) fourInts = some (0, e, m1) ∧
      e.p = Ptr.mk 0 0 ∧ e.m0 = e.p ∧ Ptr.add 1 e.p 1 = some e.m1 ∧ e.m1 ≠ e.m0 ∧ e.m1 ≠ e.p) :=
  ⟨⟨by decide, by decide, by decide⟩,
    (((fn_m0_eq_p 3 4 (Ptr.mk 0 0) fourInts).2 (Ptr.mk 0 1) (by decide) (by decide)
      (by decide)).imp fun e he => he.imp fun m1 h =>
        ⟨h, (fn_m0_eq_p 3 4 (Ptr.mk 0 0) fourInts).1 0 e m1 h⟩),
    (((fn_m0_eq_p 4 3 (Ptr.mk 0 0) fourInts).2 (Ptr.mk 0 1) (by decide) (by decide)
      (by decide)).imp fun e he => he.imp fun m1 h =>
        ⟨h, (fn_m0_eq_p 4 3 (Ptr.mk 0 0) fourInts).1 0 e m1 h⟩)⟩

end Alias1

/-! ## Loops -/

/-- A property kept by the body of a loop holds when the loop exits, and
the condition is then false. -/
theorem whileLoop_inv {σ : Type} (cond : σ → Bool) (body : σ → Option σ) (P : σ → Prop)
    (step : ∀ s s1, P s → cond s = true → body s = some s1 → P s1) :
    ∀ (fuel : Nat) (s r : σ), P s → whileLoop cond body fuel s = some r →
      P r ∧ cond r = false := by
  intro fuel
  induction fuel with
  | zero => intro s r _ h; simp [whileLoop] at h
  | succ k ih =>
    intro s r hs h
    by_cases hc : cond s = true
    · simp only [whileLoop, hc, if_true, Option.bind_eq_some] at h
      obtain ⟨s1, hb, hr⟩ := h
      exact ih s1 r (step s s1 hs hc hb) hr
    · simp only [whileLoop, hc, Bool.false_eq_true, if_false, Option.some.injEq] at h
      subst h
      exact ⟨hs, by simpa using hc⟩

/-- A loop whose condition is false at the start does not run its body. -/
theorem whileLoop_false {σ : Type} (cond : σ → Bool) (body : σ → Option σ) (fuel : Nat) (s : σ)
    (h : cond s = false) : whileLoop cond body (fuel + 1) s = some s := by
  simp [whileLoop, h]

/-! ## alias2.c and alias3b.c -/

namespace Alias2

/-- What one iteration of the loop does to the locals, when it completes. -/
theorem body_some {p : Ptr} {s s1 : Loop} (h : body p s = some s1) :
    ∃ p0 p1, Ptr.add Point.sizeof s.env.p0 1 = some p0 ∧
      Ptr.add Point.sizeof p s.env.i = some p1 ∧
      s1.env = { i := wrap32 (s.env.i + 1), p0 := p0, p1 := p1 } ∧
      s1.seen = s.seen ++ [{ i := s.env.i, p0 := p0, p1 := p1 }] := by
  simp only [body, bind, Option.bind_eq_some, Option.some.injEq] at h
  obtain ⟨_, _, _, _, _, _, _, _, p0, h0, p1, h1, rfl⟩ := h
  exact ⟨p0, p1, h0, h1, rfl, rfl⟩

/-- One iteration of the loop on an element whose members hold `vx` and `vy`. -/
theorem body_eq (b : Nat) (o : Int) (s : Loop) (b0 : Nat) (o0 vx vy : Int)
    (hp0 : s.env.p0 = Ptr.mk b0 o0)
    (hx : s.mem.loadInt (Ptr.mk b0 o0) = some vx)
    (hy : s.mem.loadInt (Ptr.mk b0 (o0 + 1)) = some vy) :
    body (Ptr.mk b o) s = some
      { env := { i := wrap32 (s.env.i + 1), p0 := Ptr.mk b0 (o0 + 2),
                 p1 := Ptr.mk b (o + s.env.i * 2) },
        mem := (s.mem.write (Ptr.mk b0 o0) (Val.int (wrap32 (vx + 1)))).write
          (Ptr.mk b0 (o0 + 1)) (Val.int (wrap32 (vy + 1))),
        seen := s.seen ++ [{ i := s.env.i, p0 := Ptr.mk b0 (o0 + 2),
                             p1 := Ptr.mk b (o + s.env.i * 2) }] } := by
  have vx0 := Mem.valid_of_loadInt hx
  have vy0 := Mem.valid_of_loadInt hy
  have hne : Ptr.mk b0 (o0 + 1) ≠ Ptr.mk b0 o0 := by simp
  simp [body, hp0, bind, Ptr.field, Point.x, Point.y, Point.sizeof, hx, Mem.store_eq_write, vx0,
    Mem.loadInt_write_ne _ _ hne, hy, vy0, Ptr.add]

/-- The loop invariant of `increment_points` on a non-null `p` and an `n` in
the range of `int`: `0 ≤ i`, `p0 = p + i`, and at every observation so far
`p0 = p1 + 1`. -/
theorem loop_inv (b : Nat) (o n : Int) (hn : n ≤ 2147483647) (fuel : Nat) (m : Mem) (r : Loop)
    (h : increment_points fuel (Ptr.mk b o) n m = some r) :
    0 ≤ r.env.i ∧ r.env.p0 = Ptr.mk b (o + r.env.i * 2) ∧
      ∀ e ∈ r.seen, Ptr.add Point.sizeof e.p1 1 = some e.p0 := by
  refine (whileLoop_inv _ _
    (fun s => 0 ≤ s.env.i ∧ s.env.p0 = Ptr.mk b (o + s.env.i * 2) ∧
      ∀ e ∈ s.seen, Ptr.add Point.sizeof e.p1 1 = some e.p0) ?_ fuel _ r ?_ h).1
  · intro s s1 ⟨hi, hp0, hseen⟩ hc hb
    obtain ⟨p0, p1, h0, h1, he, hs⟩ := body_some hb
    have hlt : s.env.i < n := by simpa using hc
    have hw : wrap32 (s.env.i + 1) = s.env.i + 1 := wrap32_of_range (by omega) (by omega)
    simp only [hp0, Ptr.add, Point.sizeof, Option.some.injEq] at h0 h1
    subst h0 h1
    rw [he, hs, hw]
    refine ⟨by simp; omega, by simp; ring, ?_⟩
    intro e he1
    rw [List.mem_append] at he1
    rcases he1 with he1 | he1
    · exact hseen e he1
    · simp only [List.mem_singleton] at he1
      subst he1
      simp [Ptr.add, Point.sizeof]
  · simp

/-- With a null `p` the loop body cannot complete, so nothing is observed. -/
theorem loop_null (n : Int) (fuel : Nat) (m : Mem) (r : Loop)
    (h : increment_points fuel Ptr.null n m = some r) : r.seen = [] := by
  refine (whileLoop_inv _ _ (fun s => s.env.p0 = Ptr.null ∧ s.seen = []) ?_ fuel _ r ?_ h).1.2
  · intro s s1 ⟨hp0, _⟩ _ hb
    obtain ⟨p0, p1, h0, _, _, _⟩ := body_some hb
    simp [hp0, Ptr.add] at h0
  · simp

/-- The loop runs to its exit on an array of initialised points: `k`
iterations are left when `i + k = n`. -/
theorem loop_runs (b : Nat) (o n : Int) (hn : n ≤ 2147483647) (k : Nat) :
    ∀ s : Loop, 0 ≤ s.env.i → s.env.i + k = n → s.env.p0 = Ptr.mk b (o + s.env.i * 2) →
      (∀ j : Int, s.env.i ≤ j → j < n → ∃ vx vy,
        s.mem.loadInt (Ptr.mk b (o + j * 2)) = some vx ∧
        s.mem.loadInt (Ptr.mk b (o + j * 2 + 1)) = some vy) →
      ∃ r, whileLoop (fun s => decide (s.env.i < n)) (body (Ptr.mk b o)) (k + 1) s = some r ∧
        r.env.i = n := by
  induction k with
  | zero =>
    intro s _ hk _ _
    refine ⟨s, whileLoop_false _ _ 0 s ?_, by simpa using hk⟩
    simp
    omega
  | succ k ih =>
    intro s hi hk hp0 harr
    have hlt : s.env.i < n := by push_cast at hk; omega
    obtain ⟨vx, vy, hx, hy⟩ := harr s.env.i (le_refl _) hlt
    have hb := body_eq b o s b (o + s.env.i * 2) vx vy hp0 hx hy
    have hw : wrap32 (s.env.i + 1) = s.env.i + 1 := wrap32_of_range (by omega) (by omega)
    rw [whileLoop]
    simp only [hlt, decide_True, if_true, hb, Option.some_bind]
    apply ih
    · simp only [hw]; omega
    · simp only [hw]; push_cast at hk; omega
    · simp only [hw]; congr 1; ring
    · intro j hj hjn
      simp only [hw] at hj
      obtain ⟨wx, wy, hwx, hwy⟩ := harr j (by omega) hjn
      refine ⟨wx, wy, ?_, ?_⟩
      · rw [Mem.loadInt_write_ne, Mem.loadInt_write_ne, hwx]
        · simp; omega
        · simp; omega
      · rw [Mem.loadInt_write_ne, Mem.loadInt_write_ne, hwy]
        · simp; omega
        · simp; omega

/-- At function exit `p1` is non-null exactly when the loop body has run,
that is when `1 ≤ n`. -/
theorem exit_p1 (p : Ptr) (n : Int) (fuel : Nat) (m : Mem) (r : Loop)
    (h : increment_points fuel p n m = some r) : r.env.p1 ≠ Ptr.null ↔ 1 ≤ n := by
  have key := whileLoop_inv (fun s : Loop => decide (s.env.i < n)) (body p)
    (fun s => (s.env.i = 0 ∧ s.env.p1 = Ptr.null) ∨ (s.env.p1 ≠ Ptr.null ∧ 1 ≤ n)) ?_
    fuel _ r ?_ h
  · obtain ⟨hP, hc⟩ := key
    have hge : ¬ r.env.i < n := by simpa using hc
    rcases hP with ⟨h0, h1⟩ | ⟨h1, h2⟩
    · rw [h0] at hge
      simp [h1]
      omega
    · simp [h1, h2]
  · intro s s1 hP hc hb
    obtain ⟨p0, p1, _, h1, he, _⟩ := body_some hb
    have hlt : s.env.i < n := by simpa using hc
    right
    rw [he]
    constructor
    · cases p with
      | null => simp [Ptr.add] at h1
      | mk b o =>
        simp [Ptr.add] at h1
        subst h1
        simp
    · rcases hP with ⟨h0, _⟩ | ⟨_, h2⟩
      · omega
      · exact h2
  · left
    simp

/-- C10: in `increment_points` of alias2.c with a non-null `p`: when `n ≤ 0`
the function returns without running the loop body (nothing observed, memory
untouched), `p1` is still null, different from `p` and from `p0`, and
`p0 = p`; at every function exit `p1` is non-null exactly when `1 ≤ n`; and
for `1 ≤ n` the exit is reached, with fuel `n + 1`, on every array of `n`
initialised points. -/
theorem p1_null_iff_n_le_zero (p : Ptr) (hp : p ≠ Ptr.null) (n : Int) (m : Mem) :
    (n ≤ 0 → ∀ fuel, ∃ r, increment_points (fuel + 1) p n m = some r ∧
      r.seen = [] ∧ r.mem = m ∧ r.env.p1 = Ptr.null ∧ r.env.p1 ≠ p ∧ r.env.p1 ≠ r.env.p0 ∧
      r.env.p0 = p) ∧
    (∀ fuel r, increment_points fuel p n m = some r → (r.env.p1 ≠ Ptr.null ↔ 1 ≤ n)) ∧
    (1 ≤ n → n ≤ 2147483647 →
      (∀ j : Int, 0 ≤ j → j < n → ∃ q vx vy, Ptr.add Point.sizeof p j = some q ∧
        m.loadInt (q.field Point.x) = some vx ∧ m.loadInt (q.field Point.y) = some vy) →
      ∃ r, increment_points (n.toNat + 1) p n m = some r ∧ r.env.p1 ≠ Ptr.null) := by
  refine ⟨?_, fun fuel r h => exit_p1 p n fuel m r h, ?_⟩
  · intro hn fuel
    refine ⟨_, whileLoop_false _ _ fuel _ ?_, rfl, rfl, rfl, fun h => hp h.symm,
      fun h => hp h.symm, rfl⟩
    simp
    omega
  · intro h1 hn harr
    cases p with
    | null => exact absurd rfl hp
    | mk b o =>
      obtain ⟨r, hr, _⟩ := loop_runs b o n hn n.toNat
        { env := { i := 0, p0 := Ptr.mk b o, p1 := Ptr.null }, mem := m, seen := [] }
        (le_refl _) (by simp; omega) (by simp) (by
          intro j hj hjn
          obtain ⟨q, vx, vy, hq, hx, hy⟩ := harr j hj hjn
          simp only [Ptr.add, Point.sizeof, Option.some.injEq] at hq
          subst hq
          simp only [Ptr.field, Point.x, Point.y, Nat.cast_zero, add_zero, Nat.cast_one] at hx hy
          exact ⟨vx, vy, by simpa using hx, by simpa using hy⟩)
      exact ⟨r, hr, (exit_p1 _ n _ m r hr).mpr h1⟩

/-- Witness of C10 on a block of two points: with `n = 0` the body does not
run and `p1` stays null; with `n = 2` the function returns with `p1` non-null. -/
theorem p1_null_iff_n_le_zero_witness :
    Ptr.mk 0 0 ≠ Ptr.null ∧
    ((0 : Int) ≤ 0 ∧ ∃ r, increment_points 1 (Ptr.mk 0 0) 0 fourInts = some r ∧
      r.seen = [] ∧ r.mem = fourInts ∧ r.env.p1 = Ptr.null ∧ r.env.p1 ≠ Ptr.mk 0 0 ∧
      r.env.p1 ≠ r.env.p0 ∧ r.env.p0 = Ptr.mk 0 0) ∧
    ((1 : Int) ≤ 2 ∧ (2 : Int) ≤ 2147483647 ∧
      ∃ r, increment_points 3 (Ptr.mk 0 0) 2 fourInts = some r ∧ r.env.p1 ≠ Ptr.null) :=
  ⟨by decide,
    ⟨by decide, (p1_null_iff_n_le_zero (Ptr.mk 0 0) (by decide) 0 fourInts).1 (by decide) 0⟩,
    ⟨by decide, by decide,
      (p1_null_iff_n_le_zero (Ptr.mk 0 0) (by decide) 2 fourInts).2.2 (by decide) (by decide)
        (by
          intro j h0 h1
          interval_cases j
          · exact ⟨Ptr.mk 0 0, 5, 6, by decide, by decide, by decide⟩
          · exact ⟨Ptr.mk 0 2, 7, 8, by decide, by decide, by decide⟩)⟩⟩

end Alias2

namespace Alias3b

/-- What one iteration of the loop of alias3b.c does to the locals, when it
completes. -/
theorem body3b_some {p : Ptr} {s s1 : Loop} (h : body p s = some s1) :
    ∃ p0 p1, Ptr.add Point.sizeof s.env.p0 1 = some p0 ∧
      Ptr.add Point.sizeof p s.env.i = some p1 ∧
      s1.env = { i := wrap32 (s.env.i + 1), p0 := p0, p1 := p1 } ∧
      s1.seen = s.seen ++ [{ i := s.env.i, p0 := p0, p1 := p1 }] := by
  simp only [body, bind, Option.bind_eq_some, Option.some.injEq] at h
  obtain ⟨_, _, _, _, _, _, _, _, p1, h1, p0, h0, rfl⟩ := h
  exact ⟨p0, p1, h0, h1, rfl, rfl⟩

/-- The loop invariant of `increment_points` of alias3b.c on a non-null `p`
and an `n` in the range of `int`: `0 ≤ i`, `p0 = p + i`, and at every
execution of the line marked HERE so far `p0 = p1 + 1`. -/
theorem loop3b_inv (b : Nat) (o n : Int) (hn : n ≤ 2147483647) (fuel : Nat) (m : Mem) (r : Loop)
    (h : increment_points fuel (Ptr.mk b o) n m = some r) :
    0 ≤ r.env.i ∧ r.env.p0 = Ptr.mk b (o + r.env.i * 2) ∧
      ∀ e ∈ r.seen, Ptr.add Point.sizeof e.p1 1 = some e.p0 := by
  refine (whileLoop_inv _ _
    (fun s => 0 ≤ s.env.i ∧ s.env.p0 = Ptr.mk b (o + s.env.i * 2) ∧
      ∀ e ∈ s.seen, Ptr.add Point.sizeof e.p1 1 = some e.p0) ?_ fuel _ r ?_ h).1
  · intro s s1 ⟨hi, hp0, hseen⟩ hc hb
    obtain ⟨p0, p1, h0, h1, he, hs⟩ := body3b_some hb
    have hlt : s.env.i < n := by simpa using hc
    have hw : wrap32 (s.env.i + 1) = s.env.i + 1 := wrap32_of_range (by omega) (by omega)
    simp only [hp0, Ptr.add, Point.sizeof, Option.some.injEq] at h0 h1
    subst h0 h1
    rw [he, hs, hw]
    refine ⟨by simp; omega, by simp; ring, ?_⟩
    intro e he1
    rw [List.mem_append] at he1
    rcases he1 with he1 | he1
    · exact hseen e he1
    · simp only [List.mem_singleton] at he1
      subst he1
      simp [Ptr.add, Point.sizeof]
  · simp

/-- With a null `p` the loop body of alias3b.c cannot complete, so nothing is
observed. -/
theorem loop3b_null (n : Int) (fuel : Nat) (m : Mem) (r : Loop)
    (h : increment_points fuel Ptr.null n m = some r) : r.seen = [] := by
  refine (whileLoop_inv _ _ (fun s => s.env.p0 = Ptr.null ∧ s.seen = []) ?_ fuel _ r ?_ h).1.2
  · intro s s1 ⟨hp0, _⟩ _ hb
    obtain ⟨p0, p1, h0, _, _, _⟩ := body3b_some hb
    simp [hp0, Ptr.add] at h0
  · simp

end Alias3b

/-- C6, as the code has it: in `increment_points` of alias2.c after line 14,
and of alias3b.c after the line marked HERE, for every `p`, every `n` in the
range of `int` and every memory, each time that point has been passed `p0`
held `p1 + 1`, one element past `p1`; so `p0` and `p1` never hold the same
address there. -/
theorem p0_eq_p1_add_one (fuel : Nat) (p : Ptr) (n : Int) (m : Mem) (hn : n ≤ 2147483647) :
    (∀ r, Alias2.increment_points fuel p n m = some r →
      ∀ e ∈ r.seen, Ptr.add Point.sizeof e.p1 1 = some e.p0 ∧ e.p0 ≠ e.p1) ∧
    (∀ r, Alias3b.increment_points fuel p n m = some r →
      ∀ e ∈ r.seen, Ptr.add Point.sizeof e.p1 1 = some e.p0 ∧ e.p0 ≠ e.p1) := by
  constructor
  · intro r h e he
    cases p with
    | null => simp [Alias2.loop_null n fuel m r h] at he
    | mk b o =>
      have h1 := (Alias2.loop_inv b o n hn fuel m r h).2.2 e he
      exact ⟨h1, Ptr.add_one_ne (by decide) h1⟩
  · intro r h e he
    cases p with
    | null => simp [Alias3b.loop3b_null n fuel m r h] at he
    | mk b o =>
      have h1 := (Alias3b.loop3b_inv b o n hn fuel m r h).2.2 e he
      exact ⟨h1, Ptr.add_one_ne (by decide) h1⟩

/-- Witness of C6 as amended: two iterations over a block of two points. -/
theorem p0_eq_p1_add_one_witness :
    (2 : Int) ≤ 2147483647 ∧
    (∃ r, Alias2.increment_points 3 (Ptr.mk 0 0) 2 fourInts = some r ∧ r.seen.length = 2 ∧
      ∀ e ∈ r.seen, Ptr.add Point.sizeof e.p1 1 = some e.p0 ∧ e.p0 ≠ e.p1) ∧
    (∃ r, Alias3b.increment_points 3 (Ptr.mk 0 0) 2 fourInts = some r ∧ r.seen.length = 2 ∧
      ∀ e ∈ r.seen, Ptr.add Point.sizeof e.p1 1 = some e.p0 ∧ e.p0 ≠ e.p1) := by
  have h2 : (Alias2.increment_points 3 (Ptr.mk 0 0) 2 fourInts).map (fun r => r.seen.length)
      = some 2 := by decide
  have h3 : (Alias3b.increment_points 3 (Ptr.mk 0 0) 2 fourInts).map (fun r => r.seen.length)
      = some 2 := by decide
  obtain ⟨r2, e2, l2⟩ := Option.map_eq_some'.mp h2
  obtain ⟨r3, e3, l3⟩ := Option.map_eq_some'.mp h3
  exact ⟨by decide,
    ⟨r2, e2, l2, (p0_eq_p1_add_one 3 (Ptr.mk 0 0) 2 fourInts (by decide)).1 r2 e2⟩,
    ⟨r3, e3, l3, (p0_eq_p1_add_one 3 (Ptr.mk 0 0) 2 fourInts (by decide)).2 r3 e3⟩⟩

/-- C6 as stated fails: with `n = 1` on a block of two points, the one time
the point is passed `p0` is `p + 1` and `p1` is `p`, in alias2.c and in
alias3b.c alike. -/
theorem p0_ne_p1_counterexample :
    (Alias2.increment_points 2 (Ptr.mk 0 0) 1 fourInts).map (fun r => r.seen)
      = some [{ i := 0, p0 := Ptr.mk 0 2, p1 := Ptr.mk 0 0 }] ∧
    (Alias3b.increment_points 2 (Ptr.mk 0 0) 1 fourInts).map (fun r => r.seen)
      = some [{ i := 0, p0 := Ptr.mk 0 2, p1 := Ptr.mk 0 0 }] ∧
    Ptr.mk 0 2 ≠ Ptr.mk 0 0 := by
  decide

/-! ## alias9.c: the file-scope variables -/

namespace Alias9

/-- The first loop body of `gen0` writes no file-scope variable. -/
theorem allocBody_frame {x0 : Ptr} {t t1 : Int × State} (h : allocBody x0 t = some t1) :
    t1.2.x0 = t.2.x0 ∧ t1.2.i = t.2.i ∧ t1.2.max = t.2.max := by
  simp only [allocBody, bind, Option.bind_eq_some, Option.some.injEq] at h
  obtain ⟨_, _, _, _, rfl⟩ := h
  exact ⟨rfl, rfl, rfl⟩

/-- The second loop body of `gen0` writes no file-scope variable. -/
theorem fillBody_frame {x0 : Ptr} {t t1 : Int × State} (h : fillBody x0 t = some t1) :
    t1.2.x0 = t.2.x0 ∧ t1.2.i = t.2.i ∧ t1.2.max = t.2.max := by
  simp only [fillBody, bind, Option.bind_eq_some, Option.some.injEq] at h
  obtain ⟨_, _, _, _, _, _, rfl⟩ := h
  exact ⟨rfl, rfl, rfl⟩

/-- The loop body of `main` writes no file-scope variable. -/
theorem pickBody_frame {e : Env} {t t1 : Int × State} (h : pickBody e t = some t1) :
    t1.2.x0 = t.2.x0 ∧ t1.2.i = t.2.i ∧ t1.2.max = t.2.max := by
  simp only [pickBody, bind, Option.bind_eq_some] at h
  obtain ⟨_, _, h⟩ := h
  split_ifs at h <;>
  · simp only [Option.bind_eq_some, Option.some.injEq] at h
    obtain ⟨_, _, _, _, _, _, _, _, rfl⟩ := h
    exact ⟨rfl, rfl, rfl⟩

/-- A loop whose body writes no file-scope variable writes none. -/
theorem loop_frame (cond : Int × State → Bool) (body : Int × State → Option (Int × State))
    (hb : ∀ t t1, body t = some t1 →
      t1.2.x0 = t.2.x0 ∧ t1.2.i = t.2.i ∧ t1.2.max = t.2.max)
    (fuel : Nat) (t r : Int × State) (h : whileLoop cond body fuel t = some r) :
    r.2.x0 = t.2.x0 ∧ r.2.i = t.2.i ∧ r.2.max = t.2.max := by
  refine (whileLoop_inv cond body
    (fun u => u.2.x0 = t.2.x0 ∧ u.2.i = t.2.i ∧ u.2.max = t.2.max) ?_ fuel t r
    ⟨rfl, rfl, rfl⟩ h).1
  intro u u1 ⟨h1, h2, h3⟩ _ hu
  obtain ⟨k1, k2, k3⟩ := hb u u1 hu
  exact ⟨k1.trans h1, k2.trans h2, k3.trans h3⟩

/-- The function `gen0` writes no file-scope variable. -/
theorem gen0_frame {fuel : Nat} {s s1 : State} {r : Ptr} (h : gen0 fuel s = some (r, s1)) :
    s1.x0 = s.x0 ∧ s1.i = s.i ∧ s1.max = s.max := by
  simp only [gen0, bind, Option.bind_eq_some, Option.some.injEq, Prod.mk.injEq] at h
  obtain ⟨t1, h1, m1, _, m2, _, t2, h2, _, rfl⟩ := h
  obtain ⟨a1, a2, a3⟩ := loop_frame _ _ (fun _ _ => allocBody_frame) fuel _ t1 h1
  obtain ⟨b1, b2, b3⟩ := loop_frame _ _ (fun _ _ => fillBody_frame) fuel _ t2 h2
  exact ⟨b1.trans a1, b2.trans a2, b3.trans a3⟩

/-- The function `rep` writes no file-scope variable. -/
theorem rep_frame {fuel : Nat} {orig : Ptr} {s s1 : State} {r : Ptr}
    (h : rep fuel orig s = some (r, s1)) :
    s1.x0 = s.x0 ∧ s1.i = s.i ∧ s1.max = s.max := by
  simp only [rep, bind, Option.bind_eq_some] at h
  obtain ⟨⟨r0, s0⟩, hg, h⟩ := h
  have hf := gen0_frame hg
  split_ifs at h
  · simp only [Option.bind_eq_some, Option.some.injEq, Prod.mk.injEq] at h
    obtain ⟨_, _, _, rfl⟩ := h
    exact hf
  · simp only [Option.some.injEq, Prod.mk.injEq] at h
    obtain ⟨_, rfl⟩ := h
    exact hf

/-- The function `main` writes no file-scope variable. -/
theorem main_frame {fuel : Nat} {s s1 : State} {e : Env} {out : List (List Int)}
    (h : main fuel s = some (e, out, s1)) :
    s1.x0 = s.x0 ∧ s1.i = s.i ∧ s1.max = s.max := by
  simp only [main, bind, Option.bind_eq_some, Option.some.injEq, Prod.mk.injEq] at h
  obtain ⟨⟨x0, t0⟩, h0, ⟨x1, t1⟩, h1, ⟨x2, t2⟩, h2, ⟨x3, t3⟩, h3, t4, h4, _, _, _, _, rfl⟩ := h
  obtain ⟨a1, a2, a3⟩ := rep_frame h0
  obtain ⟨b1, b2, b3⟩ := rep_frame h1
  obtain ⟨c1, c2, c3⟩ := rep_frame h2
  obtain ⟨d1, d2, d3⟩ := rep_frame h3
  obtain ⟨e1, e2, e3⟩ := loop_frame _ _ (fun _ _ => pickBody_frame) fuel _ t4 h4
  exact ⟨e1.trans (d1.trans (c1.trans (b1.trans a1))),
    e2.trans (d2.trans (c2.trans (b2.trans a2))),
    e3.trans (d3.trans (c3.trans (b3.trans a3)))⟩

/-- C9: in alias9.c, whatever the fuel, the initial memory and the outcome
of the `malloc` calls, when `main` reaches the line marked HERE the file-scope
`x0` is still null and the file-scope `i` still 0 (and `max` still 50),
whatever its locals `x0`..`x3` hold: `gen0`, `rep` and `main` only assign
their own locals of these names. -/
theorem main_globals_untouched (fuel : Nat) (m : Mem) (e : Env) (out : List (List Int))
    (s : State) (h : main fuel (init m) = some (e, out, s)) :
    s.x0 = Ptr.null ∧ s.i = 0 ∧ s.max = 50 :=
  main_frame h

/-- Witness of C9: from the empty memory, with a `malloc` that never fails and
fuel 51, `main` reaches HERE with four distinct non-null local arrays, prints
`1`, and the file-scope `x0` and `i` are null and 0. -/
theorem main_globals_untouched_witness :
    ∃ e out s, main 51 (init (Mem.empty fun _ => false)) = some (e, out, s) ∧
      e = { x0 := Ptr.mk 0 0, x1 := Ptr.mk 51 0, x2 := Ptr.mk 102 0, x3 := Ptr.mk 153 0 } ∧
      out = [[1]] ∧ s.x0 = Ptr.null ∧ s.i = 0 ∧ s.max = 50 := by
  have h : (main 51 (init (Mem.empty fun _ => false))).map (fun r => (r.1, r.2.1))
      = some ({ x0 := Ptr.mk 0 0, x1 := Ptr.mk 51 0, x2 := Ptr.mk 102 0, x3 := Ptr.mk 153 0 },
          [[1]]) := by
    decide!
  obtain ⟨⟨e, out, s⟩, hr, he⟩ := Option.map_eq_some'.mp h
  simp only [Prod.mk.injEq] at he
  exact ⟨e, out, s, hr, he.1, he.2, main_globals_untouched 51 _ e out s hr⟩

end Alias9

/-! ## alias6.c: the state at the line marked HERE -/

namespace Alias6

/-- The variables and the memory of `main` just before the first `swap`. -/
theorem mainSetup_eq (m : Mem) :
    mainSetup m = some
      ({ card0 := Ptr.mk m.next 0, card1 := Ptr.mk (m.next + 1) 0, card2 := Ptr.mk (m.next + 2) 0,
         orig_c0 := Ptr.mk m.next 0, orig_c1 := Ptr.mk (m.next + 1) 0,
         orig_c2 := Ptr.mk (m.next + 2) 0, c0 := Ptr.mk (m.next + 3) 0,
         c1 := Ptr.mk (m.next + 4) 0, c2 := Ptr.mk (m.next + 5) 0 },
       ((((((((((((((m.grow 2).put m.next 0 (Val.int 1)).put m.next 1 (Val.int 12)).grow 2).put
         (m.next + 1) 0 (Val.int 2)).put (m.next + 1) 1 (Val.int 2)).grow 2).put
         (m.next + 2) 0 (Val.int 3)).put (m.next + 2) 1 (Val.int 2)).grow 1).put
         (m.next + 3) 0 (Val.ptr (Ptr.mk m.next 0))).grow 1).put
         (m.next + 4) 0 (Val.ptr (Ptr.mk (m.next + 1) 0))).grow 1).put
         (m.next + 5) 0 (Val.ptr (Ptr.mk (m.next + 2) 0))) := by
  simp_arith [mainSetup, Mem.alloc, Mem.store_mk, Mem.valid_mk, Mem.grow_size, Ptr.field, suit,
    rank, bind]

/-- The function `main` up to HERE is the declarations followed by the two
calls of `swap`. -/
theorem mainToHere_setup (m : Mem) :
    mainToHere m = (mainSetup m).bind fun r =>
      ((swap r.1.c0 r.1.c1 r.1.c2 r.2).bind (swap r.1.c0 r.1.c1 r.1.c2)).bind fun m2 =>
        some (r.1, m2) := by
  simp [mainToHere, mainSetup, bind, Option.bind_assoc, Mem.alloc]

/-- Two calls of `swap` on distinct cells holding `(a, b, c)` leave
`(b, c, a)` and touch no other cell. -/
theorem swap_twice (m : Mem) (x y z a b c : Ptr) (hxy : x ≠ y) (hyz : y ≠ z) (hxz : x ≠ z)
    (hx : m.loadPtr x = some a) (hy : m.loadPtr y = some b) (hz : m.loadPtr z = some c) :
    ∃ m2, (swap x y z m).bind (swap x y z) = some m2 ∧
      m2.loadPtr x = some b ∧ m2.loadPtr y = some c ∧ m2.loadPtr z = some a ∧
      ∀ q, q ≠ x → q ≠ y → q ≠ z → m2.load q = m.load q := by
  obtain ⟨m1, e1, x1, y1, z1⟩ := swap_loads m x y z a b c hxy hyz hxz hx hy hz
  obtain ⟨m2, e2, x2, y2, z2⟩ := swap_loads m1 x y z c a b hxy hyz hxz x1 y1 z1
  have f1 := swap_eq m x y z a b c hxz hx hy hz
  have f2 := swap_eq m1 x y z c a b hxz x1 y1 z1
  rw [e1] at f1
  rw [e2] at f2
  injection f1 with f1
  injection f2 with f2
  refine ⟨m2, by simp [e1, e2], x2, y2, z2, ?_⟩
  intro q qx qy qz
  rw [f2, f1]
  simp only [Mem.load_write_ne _ _ qx, Mem.load_write_ne _ _ qy, Mem.load_write_ne _ _ qz]

/-- C14: in `main` of alias6.c, for every initial memory, the two calls of
`swap` run from the memory `m0` of the declarations to the memory `m1` at the
line marked HERE, where `c0` holds the value of `orig_c1`, `c1` that of
`orig_c2` and `c2` that of `orig_c0`, three different addresses; every cell of
`card0`, `card1`, `card2` reads in `m1` as in `m0`, namely the initial
`{1, 12}`, `{2, 2}`, `{3, 2}`. -/
theorem main_here_partition (m : Mem) :
    ∃ e m0 m1, mainSetup m = some (e, m0) ∧
      (swap e.c0 e.c1 e.c2 m0).bind (swap e.c0 e.c1 e.c2) = some m1 ∧
      mainToHere m = some (e, m1) ∧
      m1.loadPtr e.c0 = some e.orig_c1 ∧ m1.loadPtr e.c1 = some e.orig_c2 ∧
      m1.loadPtr e.c2 = some e.orig_c0 ∧
      e.orig_c0 ≠ e.orig_c1 ∧ e.orig_c1 ≠ e.orig_c2 ∧ e.orig_c0 ≠ e.orig_c2 ∧
      (∀ k : Nat, m1.load (e.card0.field k) = m0.load (e.card0.field k) ∧
        m1.load (e.card1.field k) = m0.load (e.card1.field k) ∧
        m1.load (e.card2.field k) = m0.load (e.card2.field k)) ∧
      m1.loadInt (e.card0.field suit) = some 1 ∧ m1.loadInt (e.card0.field rank) = some 12 ∧
      m1.loadInt (e.card1.field suit) = some 2 ∧ m1.loadInt (e.card1.field rank) = some 2 ∧
      m1.loadInt (e.card2.field suit) = some 3 ∧ m1.loadInt (e.card2.field rank) = some 2 := by
  have hs := mainSetup_eq m
  generalize hm0 : ((((((((((((((m.grow 2).put m.next 0 (Val.int 1)).put m.next 1 (Val.int 12)).grow 2).put
         (m.next + 1) 0 (Val.int 2)).put (m.next + 1) 1 (Val.int 2)).grow 2).put
         (m.next + 2) 0 (Val.int 3)).put (m.next + 2) 1 (Val.int 2)).grow 1).put
         (m.next + 3) 0 (Val.ptr (Ptr.mk m.next 0))).grow 1).put
         (m.next + 4) 0 (Val.ptr (Ptr.mk (m.next + 1) 0))).grow 1).put
         (m.next + 5) 0 (Val.ptr (Ptr.mk (m.next + 2) 0)) = m0 at hs
  have l0 : m0.loadPtr (Ptr.mk (m.next + 3) 0) = some (Ptr.mk m.next 0) := by
    subst hm0
    simp_arith [Mem.loadPtr, Mem.load_mk, Mem.valid_mk, Mem.put_cell, Mem.grow_cell, Mem.grow_size]
  have l1 : m0.loadPtr (Ptr.mk (m.next + 4) 0) = some (Ptr.mk (m.next + 1) 0) := by
    subst hm0
    simp_arith [Mem.loadPtr, Mem.load_mk, Mem.valid_mk, Mem.put_cell, Mem.grow_cell, Mem.grow_size]
  have l2 : m0.loadPtr (Ptr.mk (m.next + 5) 0) = some (Ptr.mk (m.next + 2) 0) := by
    subst hm0
    simp_arith [Mem.loadPtr, Mem.load_mk, Mem.valid_mk, Mem.put_cell, Mem.grow_cell, Mem.grow_size]
  have ints : m0.loadInt (Ptr.mk m.next 0) = some 1 ∧ m0.loadInt (Ptr.mk m.next 1) = some 12 ∧
      m0.loadInt (Ptr.mk (m.next + 1) 0) = some 2 ∧ m0.loadInt (Ptr.mk (m.next + 1) 1) = some 2 ∧
      m0.loadInt (Ptr.mk (m.next + 2) 0) = some 3 ∧ m0.loadInt (Ptr.mk (m.next + 2) 1) = some 2 := by
    subst hm0
    simp_arith [Mem.loadInt, Mem.load_mk, Mem.valid_mk, Mem.put_cell, Mem.grow_cell, Mem.grow_size]
  obtain ⟨m1, e1, x1, y1, z1, fr⟩ := swap_twice m0 (Ptr.mk (m.next + 3) 0) (Ptr.mk (m.next + 4) 0)
    (Ptr.mk (m.next + 5) 0) _ _ _ (by simp) (by simp) (by simp) l0 l1 l2
  have frc : ∀ (j : Nat) (o : Int), j < 3 →
      m1.load (Ptr.mk (m.next + j) o) = m0.load (Ptr.mk (m.next + j) o) := by
    intro j o hj
    apply fr <;> simp <;> omega
  have fri : ∀ (j : Nat) (o : Int), j < 3 →
      m1.loadInt (Ptr.mk (m.next + j) o) = m0.loadInt (Ptr.mk (m.next + j) o) := by
    intro j o hj
    simp only [Mem.loadInt, frc j o hj]
  refine ⟨_, m0, m1, hs, e1, ?_, x1, y1, z1, by simp, by simp, by simp, ?_, ?_⟩
  · rw [mainToHere_setup, hs]
    simp [e1]
  · intro k
    exact ⟨frc 0 _ (by omega), frc 1 _ (by omega), frc 2 _ (by omega)⟩
  · have i0 := fri 0 0 (by omega)
    have i1 := fri 0 1 (by omega)
    have i2 := fri 1 0 (by omega)
    have i3 := fri 1 1 (by omega)
    have i4 := fri 2 0 (by omega)
    have i5 := fri 2 1 (by omega)
    simp only [Nat.add_zero] at i0 i1
    simp only [Ptr.field, suit, rank, Nat.cast_zero, Nat.cast_one, add_zero, zero_add]
    rw [i0, i1, i2, i3, i4, i5]
    exact ints

end Alias6

/-! ## alias7.c: the invariant of `gen0` -/

namespace Alias7

/-- One call of `gen0` from a state with `0 ≤ i < 3`. -/
theorem gen0_call {s s1 : State} {r : Ptr} (h0 : 0 ≤ s.i) (h3 : s.i < 3)
    (h : gen0 s = some (r, s1)) :
    0 ≤ s1.i ∧ s1.i < 3 ∧ s1.x0 ≠ Ptr.null ∧
      (∃ k : Int, 0 ≤ k ∧ k < 3 ∧ Ptr.add 1 s1.x0 k = some r) ∧
      (s.x0 ≠ Ptr.null → s1.x0 = s.x0 ∧ s1.mem = s.mem) ∧
      (s.x0 = Ptr.null → s1.x0 = (s.mem.malloc 3).1 ∧ s1.mem = (s.mem.malloc 3).2) := by
  have hw : wrap32 (s.i + 1) = s.i + 1 := wrap32_of_range (by omega) (by omega)
  have ht : (s.i + 1).tmod 3 = (s.i + 1) % 3 := Int.tmod_eq_emod (by omega) (by omega)
  by_cases hx : s.x0 = Ptr.null
  · simp only [gen0, hx, if_true, bind, Option.bind_eq_some, Option.some.injEq, Prod.mk.injEq,
      hw, ht] at h
    obtain ⟨q, hq, rfl, rfl⟩ := h
    refine ⟨by simp only; omega, by simp only; omega, ?_, ⟨s.i, h0, h3, hq⟩,
      fun h => absurd hx h, fun _ => ⟨rfl, rfl⟩⟩
    intro hn
    simp only at hn
    simp [hn, Ptr.add] at hq
  · simp only [gen0, hx, if_false, bind, Option.bind_eq_some, Option.some.injEq, Prod.mk.injEq,
      hw, ht] at h
    obtain ⟨q, hq, rfl, rfl⟩ := h
    exact ⟨by simp only; omega, by simp only; omega, hx, ⟨s.i, h0, h3, hq⟩,
      fun _ => ⟨rfl, rfl⟩, fun h => absurd h hx⟩

/-- C15: in alias7.c, a call of `gen0` from a state with `0 ≤ i < 3` leaves
`0 ≤ i < 3` and returns a pointer at offset 0, 1 or 2 from the buffer base
`x0`; it executes `malloc` only when `x0` is null, and otherwise leaves `x0`
and the whole memory as they were.  So after any number `N` of calls from the
initial state `0 ≤ i < 3` holds, every pointer returned lies at offset 0, 1 or
2 from the block the one `malloc` call returned, and for `1 ≤ N` the
file-scope `x0` is that block and `malloc` has been called exactly once; with
a successful `malloc` the `N` calls do return. -/
theorem gen0_invariant (m : Mem) :
    (∀ s r s1, 0 ≤ s.i → s.i < 3 → gen0 s = some (r, s1) →
      0 ≤ s1.i ∧ s1.i < 3 ∧ s1.x0 ≠ Ptr.null ∧
      (∃ k : Int, 0 ≤ k ∧ k < 3 ∧ Ptr.add 1 s1.x0 k = some r) ∧
      (s.x0 ≠ Ptr.null → s1.x0 = s.x0 ∧ s1.mem = s.mem) ∧
      (s.x0 = Ptr.null → s1.x0 = (s.mem.malloc 3).1 ∧ s1.mem = (s.mem.malloc 3).2)) ∧
    (∀ N ps s, calls N (init m) = some (ps, s) →
      0 ≤ s.i ∧ s.i < 3 ∧
      (∀ p ∈ ps, ∃ k : Int, 0 ≤ k ∧ k < 3 ∧ Ptr.add 1 (m.malloc 3).1 k = some p) ∧
      (1 ≤ N → s.x0 = (m.malloc 3).1 ∧ s.x0 ≠ Ptr.null ∧ s.mem = (m.malloc 3).2 ∧
        s.mem.mallocs = m.mallocs + 1)) ∧
    ((m.malloc 3).1 ≠ Ptr.null → ∀ N, ∃ ps s, calls N (init m) = some (ps, s)) := by
  refine ⟨fun s r s1 h0 h3 h => gen0_call h0 h3 h, ?_, ?_⟩
  · intro N
    induction N with
    | zero =>
      intro ps s h
      simp only [calls, Option.some.injEq, Prod.mk.injEq] at h
      obtain ⟨rfl, rfl⟩ := h
      simp [init]
    | succ N ih =>
      intro ps s h
      simp only [calls, bind, Option.bind_eq_some, Option.some.injEq, Prod.mk.injEq] at h
      obtain ⟨⟨ps0, s0⟩, hc, ⟨r, s1⟩, hr, rfl, rfl⟩ := h
      obtain ⟨i0, i3, hps, hx⟩ := ih ps0 s0 hc
      obtain ⟨j0, j3, jn, ⟨k, k0, k3, hk⟩, keep, first⟩ := gen0_call i0 i3 hr
      have hbase : s1.x0 = (m.malloc 3).1 ∧ s1.mem = (m.malloc 3).2 := by
        cases N with
        | zero =>
          simp only [calls, Option.some.injEq, Prod.mk.injEq] at hc
          obtain ⟨_, rfl⟩ := hc
          exact first rfl
        | succ N =>
          obtain ⟨e1, e2, e3, _⟩ := hx (by omega)
          obtain ⟨f1, f2⟩ := keep e2
          exact ⟨f1.trans e1, f2.trans e3⟩
      refine ⟨j0, j3, ?_, fun _ => ⟨hbase.1, jn, hbase.2, ?_⟩⟩
      · intro p hp
        rw [List.mem_append] at hp
        rcases hp with hp | hp
        · exact hps p hp
        · simp only [List.mem_singleton] at hp
          subst hp
          exact ⟨k, k0, k3, by rw [← hbase.1]; exact hk⟩
      · rw [hbase.2]
        simp only [Mem.malloc]
        split <;> rfl
  · intro hm N
    have h := Mem.malloc_ne_null hm
    cases N with
    | zero => exact ⟨_, _, rfl⟩
    | succ n => exact ⟨_, _, calls_succ m h n⟩

/-- Witness of C15 on the empty memory with a `malloc` that never fails: a
call made with the buffer in place and `i = 1` returns slot 1 and leaves
`i = 2`, the buffer pointer and the memory; and seven calls from the initial
state return, with the invariant. -/
theorem gen0_invariant_witness :
    ((0 : Int) ≤ 1 ∧ (1 : Int) < 3 ∧
      ∃ r s1,
        gen0 { x0 := Ptr.mk 0 0, i := 1, mem := ((Mem.empty fun _ => false).malloc 3).2 }
          = some (r, s1) ∧
        0 ≤ s1.i ∧ s1.i < 3 ∧ s1.x0 ≠ Ptr.null ∧
        (∃ k : Int, 0 ≤ k ∧ k < 3 ∧ Ptr.add 1 s1.x0 k = some r) ∧
        s1.x0 = Ptr.mk 0 0 ∧ s1.mem = ((Mem.empty fun _ => false).malloc 3).2) ∧
    ((Mem.empty fun _ => false).malloc 3).1 ≠ Ptr.null ∧
    ∃ ps s, calls 7 (init (Mem.empty fun _ => false)) = some (ps, s) ∧
      0 ≤ s.i ∧ s.i < 3 ∧
      (∀ p ∈ ps, ∃ k : Int, 0 ≤ k ∧ k < 3 ∧
        Ptr.add 1 ((Mem.empty fun _ => false).malloc 3).1 k = some p) ∧
      ((1 : Nat) ≤ 7 → s.x0 = ((Mem.empty fun _ => false).malloc 3).1 ∧ s.x0 ≠ Ptr.null ∧
        s.mem = ((Mem.empty fun _ => false).malloc 3).2 ∧
        s.mem.mallocs = (Mem.empty fun _ => false).mallocs + 1) := by
  have hg := gen0_step 0 1 ((Mem.empty fun _ => false).malloc 3).2 (by decide) (by decide)
  obtain ⟨a0, a3, an, ak, akeep, _⟩ :=
    (gen0_invariant (Mem.empty fun _ => false)).1 _ _ _ (by decide) (by decide) hg
  obtain ⟨ps, s, h⟩ := (gen0_invariant (Mem.empty fun _ => false)).2.2 (by decide) 7
  exact ⟨⟨by decide, by decide, _, _, hg, a0, a3, an, ak, (akeep (by decide)).1,
      (akeep (by decide)).2⟩,
    by decide, ps, s, h, (gen0_invariant (Mem.empty fun _ => false)).2.1 7 ps s h⟩

end Alias7

/-! ## The three `increment_points` -/

/-- The loop `while (i < n)` of the three `increment_points`, seen through
its counter `i`, its cursor `p0`, its memory and the number of observations
made: when each iteration increments the two members `p0` points to and
advances `i` and `p0`, the loop runs from `i` to `n` on an array of
initialised points, increments (modulo 2^32) the members of the points `i`
to `n - 1`, and changes no other cell. -/
theorem points_loop {σ : Type} (iOf : σ → Int) (p0Of : σ → Ptr) (memOf : σ → Mem)
    (cntOf : σ → Nat) (body : σ → Option σ) (b : Nat) (o n : Int)
    (hbody : ∀ s vx vy, 0 ≤ iOf s → iOf s < n → p0Of s = Ptr.mk b (o + iOf s * 2) →
      (memOf s).loadInt (Ptr.mk b (o + iOf s * 2)) = some vx →
      (memOf s).loadInt (Ptr.mk b (o + iOf s * 2 + 1)) = some vy →
      ∃ s1, body s = some s1 ∧ iOf s1 = iOf s + 1 ∧ p0Of s1 = Ptr.mk b (o + (iOf s + 1) * 2) ∧
        memOf s1 = ((memOf s).write (Ptr.mk b (o + iOf s * 2)) (Val.int (wrap32 (vx + 1)))).write
          (Ptr.mk b (o + iOf s * 2 + 1)) (Val.int (wrap32 (vy + 1))) ∧
        cntOf s1 = cntOf s + 1)
    (k : Nat) :
    ∀ s, 0 ≤ iOf s → iOf s + k = n → p0Of s = Ptr.mk b (o + iOf s * 2) →
      (∀ j : Int, iOf s ≤ j → j < n → ∃ vx vy,
        (memOf s).loadInt (Ptr.mk b (o + j * 2)) = some vx ∧
        (memOf s).loadInt (Ptr.mk b (o + j * 2 + 1)) = some vy) →
      ∃ r, whileLoop (fun s => decide (iOf s < n)) body (k + 1) s = some r ∧
        iOf r = n ∧ p0Of r = Ptr.mk b (o + n * 2) ∧ cntOf r = cntOf s + k ∧
        (∀ (j : Int) (v : Int), iOf s ≤ j → j < n →
          ((memOf s).loadInt (Ptr.mk b (o + j * 2)) = some v →
            (memOf r).loadInt (Ptr.mk b (o + j * 2)) = some (wrap32 (v + 1))) ∧
          ((memOf s).loadInt (Ptr.mk b (o + j * 2 + 1)) = some v →
            (memOf r).loadInt (Ptr.mk b (o + j * 2 + 1)) = some (wrap32 (v + 1)))) ∧
        (∀ q, (∀ j : Int, iOf s ≤ j → j < n →
            q ≠ Ptr.mk b (o + j * 2) ∧ q ≠ Ptr.mk b (o + j * 2 + 1)) →
          (memOf r).load q = (memOf s).load q) := by
  induction k with
  | zero =>
    intro s _ hk hp0 _
    have hi : iOf s = n := by simpa using hk
    refine ⟨s, whileLoop_false _ _ 0 s (by simp [hi]), hi, by rw [hp0, hi], rfl, ?_, fun _ _ => rfl⟩
    intro j v h1 h2
    omega
  | succ k ih =>
    intro s hi hk hp0 harr
    have hlt : iOf s < n := by push_cast at hk; omega
    obtain ⟨vx, vy, hx, hy⟩ := harr (iOf s) (le_refl _) hlt
    obtain ⟨s1, hb, hi1, hp1, hm1, hc1⟩ := hbody s vx vy hi hlt hp0 hx hy
    have hvx := Mem.valid_of_loadInt hx
    have hvy := Mem.valid_of_loadInt hy
    have keep : ∀ q, q ≠ Ptr.mk b (o + iOf s * 2) → q ≠ Ptr.mk b (o + iOf s * 2 + 1) →
        (memOf s1).load q = (memOf s).load q := by
      intro q h1 h2
      rw [hm1, Mem.load_write_ne _ _ h2, Mem.load_write_ne _ _ h1]
    have keepInt : ∀ q, q ≠ Ptr.mk b (o + iOf s * 2) → q ≠ Ptr.mk b (o + iOf s * 2 + 1) →
        (memOf s1).loadInt q = (memOf s).loadInt q := by
      intro q h1 h2
      simp only [Mem.loadInt, keep q h1 h2]
    have later : ∀ j : Int, iOf s1 ≤ j →
        Ptr.mk b (o + j * 2) ≠ Ptr.mk b (o + iOf s * 2) ∧
        Ptr.mk b (o + j * 2) ≠ Ptr.mk b (o + iOf s * 2 + 1) ∧
        Ptr.mk b (o + j * 2 + 1) ≠ Ptr.mk b (o + iOf s * 2) ∧
        Ptr.mk b (o + j * 2 + 1) ≠ Ptr.mk b (o + iOf s * 2 + 1) := by
      intro j hj
      simp only [ne_eq, Ptr.mk.injEq, true_and]
      omega
    obtain ⟨r, hr, ri, rp, rc, rinc, rfr⟩ := ih s1 (by omega) (by push_cast at hk; omega)
      (by rw [hp1, hi1]) (by
        intro j hj hjn
        obtain ⟨wx, wy, hwx, hwy⟩ := harr j (by omega) hjn
        obtain ⟨l1, l2, l3, l4⟩ := later j hj
        exact ⟨wx, wy, by rw [keepInt _ l1 l2, hwx], by rw [keepInt _ l3 l4, hwy]⟩)
    refine ⟨r, ?_, ri, rp, by rw [rc, hc1]; omega, ?_, ?_⟩
    · rw [whileLoop]
      simp only [hlt, decide_True, if_true, hb, Option.some_bind]
      exact hr
    · intro j v hj hjn
      by_cases hji : j = iOf s
      · subst hji
        have fx : (memOf r).load (Ptr.mk b (o + iOf s * 2)) =
            (memOf s1).load (Ptr.mk b (o + iOf s * 2)) := by
          apply rfr
          intro j hj _
          obtain ⟨l1, _, l3, _⟩ := later j hj
          exact ⟨l1.symm, l3.symm⟩
        have fy : (memOf r).load (Ptr.mk b (o + iOf s * 2 + 1)) =
            (memOf s1).load (Ptr.mk b (o + iOf s * 2 + 1)) := by
          apply rfr
          intro j hj _
          obtain ⟨_, l2, _, l4⟩ := later j hj
          exact ⟨l2.symm, l4.symm⟩
        constructor
        · intro hv
          rw [hx] at hv
          injection hv with hv
          subst hv
          simp only [Mem.loadInt, fx]
          have hne : Ptr.mk b (o + iOf s * 2) ≠ Ptr.mk b (o + iOf s * 2 + 1) := by simp
          rw [hm1, Mem.load_write_ne _ _ hne, Mem.load_write_same _ hvx]
        · intro hv
          rw [hy] at hv
          injection hv with hv
          subst hv
          simp only [Mem.loadInt, fy]
          rw [hm1, Mem.load_write_same _ (by simpa using hvy)]
      · obtain ⟨l1, l2, l3, l4⟩ := later j (by omega)
        obtain ⟨gx, gy⟩ := rinc j v (by omega) hjn
        exact ⟨fun hv => gx (by rw [keepInt _ l1 l2]; exact hv),
          fun hv => gy (by rw [keepInt _ l3 l4]; exact hv)⟩
    · intro q hq
      obtain ⟨q1, q2⟩ := hq (iOf s) (le_refl _) hlt
      rw [rfr q (fun j hj hjn => hq j (by omega) hjn), keep q q1 q2]


/-- The run of a loop described by `points_loop`, from `i = 0`, stated on the
pointer `p` and its elements: it returns after `n` iterations (none when
`n ≤ 0`), has incremented modulo 2^32 the members of the first `n` points, and
has changed no other cell. -/
theorem points_run {σ : Type} (iOf : σ → Int) (p0Of : σ → Ptr) (memOf : σ → Mem)
    (cntOf : σ → Nat) (body : Ptr → σ → Option σ) (p : Ptr) (n : Int) (m : Mem) (s0 : σ)
    (h0 : iOf s0 = 0 ∧ p0Of s0 = p ∧ memOf s0 = m ∧ cntOf s0 = 0)
    (hbody : ∀ (b : Nat) (o : Int) s vx vy, p = Ptr.mk b o →
      0 ≤ iOf s → iOf s < n → p0Of s = Ptr.mk b (o + iOf s * 2) →
      (memOf s).loadInt (Ptr.mk b (o + iOf s * 2)) = some vx →
      (memOf s).loadInt (Ptr.mk b (o + iOf s * 2 + 1)) = some vy →
      ∃ s1, body p s = some s1 ∧ iOf s1 = iOf s + 1 ∧
        p0Of s1 = Ptr.mk b (o + (iOf s + 1) * 2) ∧
        memOf s1 = ((memOf s).write (Ptr.mk b (o + iOf s * 2)) (Val.int (wrap32 (vx + 1)))).write
          (Ptr.mk b (o + iOf s * 2 + 1)) (Val.int (wrap32 (vy + 1))) ∧
        cntOf s1 = cntOf s + 1)
    (harr : ∀ j : Int, 0 ≤ j → j < n → ∃ q vx vy, Ptr.add Point.sizeof p j = some q ∧
      m.loadInt (q.field Point.x) = some vx ∧ m.loadInt (q.field Point.y) = some vy) :
    ∃ r, whileLoop (fun s => decide (iOf s < n)) (body p) (n.toNat + 1) s0 = some r ∧
      cntOf r = n.toNat ∧ iOf r = max n 0 ∧
      (p ≠ Ptr.null → Ptr.add Point.sizeof p (iOf r) = some (p0Of r)) ∧
      (n ≤ 0 → memOf r = m) ∧
      (∀ (j : Int) (q : Ptr) (v : Int), 0 ≤ j → j < n → Ptr.add Point.sizeof p j = some q →
        (m.loadInt (q.field Point.x) = some v →
          (memOf r).loadInt (q.field Point.x) = some (wrap32 (v + 1))) ∧
        (m.loadInt (q.field Point.y) = some v →
          (memOf r).loadInt (q.field Point.y) = some (wrap32 (v + 1)))) ∧
      (∀ c, (∀ (j : Int) (q : Ptr), 0 ≤ j → j < n → Ptr.add Point.sizeof p j = some q →
          c ≠ q.field Point.x ∧ c ≠ q.field Point.y) →
        (memOf r).load c = m.load c) := by
  obtain ⟨hi0, hp0, hm0, hc0⟩ := h0
  by_cases hn0 : n ≤ 0
  · have ht : n.toNat = 0 := by omega
    refine ⟨s0, ?_, by rw [hc0, ht], by rw [hi0]; omega, ?_, fun _ => hm0, ?_, fun _ _ => by rw [hm0]⟩
    · rw [ht]
      exact whileLoop_false _ _ 0 s0 (by simp [hi0]; omega)
    · intro hp
      cases p with
      | null => exact absurd rfl hp
      | mk b o => simp [hi0, hp0, Ptr.add]
    · intro j q v h1 h2
      omega
  · obtain ⟨q0, _, _, hq0, _, _⟩ := harr 0 (le_refl _) (by omega)
    cases p with
    | null => simp [Ptr.add] at hq0
    | mk b o =>
      obtain ⟨r, hr, ri, rp, rc, rinc, rfr⟩ := points_loop iOf p0Of memOf cntOf (body (Ptr.mk b o))
        b o n (fun s vx vy => hbody b o s vx vy rfl) n.toNat s0 (by omega) (by rw [hi0]; omega)
        (by rw [hp0, hi0]; simp) (by
          intro j hj hjn
          obtain ⟨q, vx, vy, hq, hx, hy⟩ := harr j (by omega) hjn
          simp only [Ptr.add, Point.sizeof, Option.some.injEq] at hq
          subst hq
          simp only [Ptr.field, Point.x, Point.y, Nat.cast_zero, add_zero, Nat.cast_one] at hx hy
          rw [hm0]
          exact ⟨vx, vy, by simpa using hx, by simpa using hy⟩)
      refine ⟨r, hr, by rw [rc, hc0]; omega, by rw [ri]; omega, ?_, fun h => absurd h hn0, ?_, ?_⟩
      · intro _
        rw [ri, rp]
        simp [Ptr.add, Point.sizeof]
      · intro j q v hj hjn hq
        simp only [Ptr.add, Point.sizeof, Option.some.injEq] at hq
        subst hq
        simp only [Ptr.field, Point.x, Point.y, Nat.cast_zero, add_zero, Nat.cast_one]
        have := rinc j v (by omega) hjn
        rw [hm0] at this
        simpa using this
      · intro c hc
        rw [← hm0]
        apply rfr
        intro j hj hjn
        have := hc j (Ptr.mk b (o + j * 2)) (by omega) hjn (by simp [Ptr.add, Point.sizeof])
        simpa [Ptr.field, Point.x, Point.y] using this


namespace Alias2

/-- The run of `increment_points` of alias2.c on an array of `n` initialised
points. -/
theorem run2 (p : Ptr) (n : Int) (m : Mem) (hn : n ≤ 2147483647)
    (harr : ∀ j : Int, 0 ≤ j → j < n → ∃ q vx vy, Ptr.add Point.sizeof p j = some q ∧
      m.loadInt (q.field Point.x) = some vx ∧ m.loadInt (q.field Point.y) = some vy) :
    ∃ r, increment_points (n.toNat + 1) p n m = some r ∧
      r.seen.length = n.toNat ∧ r.env.i = max n 0 ∧
      (p ≠ Ptr.null → Ptr.add Point.sizeof p r.env.i = some r.env.p0) ∧
      (n ≤ 0 → r.mem = m) ∧
      (∀ (j : Int) (q : Ptr) (v : Int), 0 ≤ j → j < n → Ptr.add Point.sizeof p j = some q →
        (m.loadInt (q.field Point.x) = some v →
          r.mem.loadInt (q.field Point.x) = some (wrap32 (v + 1))) ∧
        (m.loadInt (q.field Point.y) = some v →
          r.mem.loadInt (q.field Point.y) = some (wrap32 (v + 1)))) ∧
      (∀ c, (∀ (j : Int) (q : Ptr), 0 ≤ j → j < n → Ptr.add Point.sizeof p j = some q →
          c ≠ q.field Point.x ∧ c ≠ q.field Point.y) →
        r.mem.load c = m.load c) := by
  refine points_run (fun s : Loop => s.env.i) (fun s => s.env.p0) (fun s => s.mem)
    (fun s => s.seen.length) body p n m _ ⟨rfl, rfl, rfl, rfl⟩ ?_ harr
  intro b o s vx vy hp hi hlt hp0 hx hy
  subst hp
  simp only at hi hlt hp0 hx hy
  have hw : wrap32 (s.env.i + 1) = s.env.i + 1 := wrap32_of_range (by omega) (by omega)
  refine ⟨_, body_eq b o s b (o + s.env.i * 2) vx vy hp0 hx hy, hw, ?_, rfl, by simp⟩
  simp only [Ptr.mk.injEq, true_and]
  ring

end Alias2

namespace Alias3b

/-- One iteration of the loop of alias3b.c on an element whose members hold
`vx` and `vy`. -/
theorem body3b_eq (b : Nat) (o : Int) (s : Loop) (b0 : Nat) (o0 vx vy : Int)
    (hp0 : s.env.p0 = Ptr.mk b0 o0)
    (hx : s.mem.loadInt (Ptr.mk b0 o0) = some vx)
    (hy : s.mem.loadInt (Ptr.mk b0 (o0 + 1)) = some vy) :
    body (Ptr.mk b o) s = some
      { env := { i := wrap32 (s.env.i + 1), p0 := Ptr.mk b0 (o0 + 2),
                 p1 := Ptr.mk b (o + s.env.i * 2) },
        mem := (s.mem.write (Ptr.mk b0 o0) (Val.int (wrap32 (vx + 1)))).write
          (Ptr.mk b0 (o0 + 1)) (Val.int (wrap32 (vy + 1))),
        seen := s.seen ++ [{ i := s.env.i, p0 := Ptr.mk b0 (o0 + 2),
                             p1 := Ptr.mk b (o + s.env.i * 2) }] } := by
  have vx0 := Mem.valid_of_loadInt hx
  have vy0 := Mem.valid_of_loadInt hy
  have hne : Ptr.mk b0 (o0 + 1) ≠ Ptr.mk b0 o0 := by simp
  simp [body, hp0, bind, Ptr.field, Point.x, Point.y, Point.sizeof, hx, Mem.store_eq_write, vx0,
    Mem.loadInt_write_ne _ _ hne, hy, vy0, Ptr.add]

/-- The run of `increment_points` of alias3b.c on an array of `n` initialised
points. -/
theorem run3b (p : Ptr) (n : Int) (m : Mem) (hn : n ≤ 2147483647)
    (harr : ∀ j : Int, 0 ≤ j → j < n → ∃ q vx vy, Ptr.add Point.sizeof p j = some q ∧
      m.loadInt (q.field Point.x) = some vx ∧ m.loadInt (q.field Point.y) = some vy) :
    ∃ r, increment_points (n.toNat + 1) p n m = some r ∧
      r.seen.length = n.toNat ∧ r.env.i = max n 0 ∧
      (p ≠ Ptr.null → Ptr.add Point.sizeof p r.env.i = some r.env.p0) ∧
      (n ≤ 0 → r.mem = m) ∧
      (∀ (j : Int) (q : Ptr) (v : Int), 0 ≤ j → j < n → Ptr.add Point.sizeof p j = some q →
        (m.loadInt (q.field Point.x) = some v →
          r.mem.loadInt (q.field Point.x) = some (wrap32 (v + 1))) ∧
        (m.loadInt (q.field Point.y) = some v →
          r.mem.loadInt (q.field Point.y) = some (wrap32 (v + 1)))) ∧
      (∀ c, (∀ (j : Int) (q : Ptr), 0 ≤ j → j < n → Ptr.add Point.sizeof p j = some q →
          c ≠ q.field Point.x ∧ c ≠ q.field Point.y) →
        r.mem.load c = m.load c) := by
  refine points_run (fun s : Loop => s.env.i) (fun s => s.env.p0) (fun s => s.mem)
    (fun s => s.seen.length) body p n m _ ⟨rfl, rfl, rfl, rfl⟩ ?_ harr
  intro b o s vx vy hp hi hlt hp0 hx hy
  subst hp
  simp only at hi hlt hp0 hx hy
  have hw : wrap32 (s.env.i + 1) = s.env.i + 1 := wrap32_of_range (by omega) (by omega)
  refine ⟨_, body3b_eq b o s b (o + s.env.i * 2) vx vy hp0 hx hy, hw, ?_, rfl, by simp⟩
  simp only [Ptr.mk.injEq, true_and]
  ring

end Alias3b

namespace Alias5

/-- One iteration of the loop of alias5.c on an element whose members hold
`vx` and `vy`. -/
theorem body5_eq (b : Nat) (o : Int) (s : Loop) (b0 : Nat) (o0 vx vy : Int)
    (hp0 : s.env.p0 = Ptr.mk b0 o0)
    (hx : s.mem.loadInt (Ptr.mk b0 o0) = some vx)
    (hy : s.mem.loadInt (Ptr.mk b0 (o0 + 1)) = some vy) :
    body (Ptr.mk b o) s = some
      { env := { i := wrap32 (s.env.i + 1), p0 := Ptr.mk b0 (o0 + 2),
                 p1 := Ptr.mk b (o + s.env.i * 2),
                 p2 := Ptr.mk b (o + wrap32 (2 * s.env.i) * 2),
                 p3 := some (Ptr.mk b (o + wrap32 (s.env.i + 1) * 2)),
                 p4 := some (Ptr.mk b (o + wrap32 (wrap32 (s.env.i + 1) - 1) * 2)) },
        mem := (s.mem.write (Ptr.mk b0 o0) (Val.int (wrap32 (vx + 1)))).write
          (Ptr.mk b0 (o0 + 1)) (Val.int (wrap32 (vy + 1))),
        seen := s.seen ++ [{ i := wrap32 (s.env.i + 1), p0 := Ptr.mk b0 (o0 + 2),
                             p1 := Ptr.mk b (o + s.env.i * 2),
                             p2 := Ptr.mk b (o + wrap32 (2 * s.env.i) * 2),
                             p3 := some (Ptr.mk b (o + wrap32 (s.env.i + 1) * 2)),
                             p4 := some (Ptr.mk b
                               (o + wrap32 (wrap32 (s.env.i + 1) - 1) * 2)) }] } := by
  have vx0 := Mem.valid_of_loadInt hx
  have vy0 := Mem.valid_of_loadInt hy
  have hne : Ptr.mk b0 (o0 + 1) ≠ Ptr.mk b0 o0 := by simp
  simp [body, hp0, bind, Ptr.field, Point.x, Point.y, Point.sizeof, hx, Mem.store_eq_write, vx0,
    Mem.loadInt_write_ne _ _ hne, hy, vy0, Ptr.add]

/-- The run of `increment_points` of alias5.c on an array of `n` initialised
points. -/
theorem run5 (p : Ptr) (n : Int) (m : Mem) (hn : n ≤ 2147483647)
    (harr : ∀ j : Int, 0 ≤ j → j < n → ∃ q vx vy, Ptr.add Point.sizeof p j = some q ∧
      m.loadInt (q.field Point.x) = some vx ∧ m.loadInt (q.field Point.y) = some vy) :
    ∃ r, increment_points (n.toNat + 1) p n m = some r ∧
      r.seen.length = n.toNat ∧ r.env.i = max n 0 ∧
      (p ≠ Ptr.null → Ptr.add Point.sizeof p r.env.i = some r.env.p0) ∧
      (n ≤ 0 → r.mem = m) ∧
      (∀ (j : Int) (q : Ptr) (v : Int), 0 ≤ j → j < n → Ptr.add Point.sizeof p j = some q →
        (m.loadInt (q.field Point.x) = some v →
          r.mem.loadInt (q.field Point.x) = some (wrap32 (v + 1))) ∧
        (m.loadInt (q.field Point.y) = some v →
          r.mem.loadInt (q.field Point.y) = some (wrap32 (v + 1)))) ∧
      (∀ c, (∀ (j : Int) (q : Ptr), 0 ≤ j → j < n → Ptr.add Point.sizeof p j = some q →
          c ≠ q.field Point.x ∧ c ≠ q.field Point.y) →
        r.mem.load c = m.load c) := by
  refine points_run (fun s : Loop => s.env.i) (fun s => s.env.p0) (fun s => s.mem)
    (fun s => s.seen.length) body p n m _ ⟨rfl, rfl, rfl, rfl⟩ ?_ harr
  intro b o s vx vy hp hi hlt hp0 hx hy
  subst hp
  simp only at hi hlt hp0 hx hy
  have hw : wrap32 (s.env.i + 1) = s.env.i + 1 := wrap32_of_range (by omega) (by omega)
  refine ⟨_, body5_eq b o s b (o + s.env.i * 2) vx vy hp0 hx hy, hw, ?_, rfl, by simp⟩
  simp only [Ptr.mk.injEq, true_and]
  ring

end Alias5

/-- From the run of `points_run` to the statement on members below
`INT_MAX`: each is increased by exactly 1, and the points of index `n` and
above are unchanged. -/
theorem points_spec {σ : Type} (iOf : σ → Int) (p0Of : σ → Ptr) (memOf : σ → Mem)
    (cntOf : σ → Nat) (res : Option σ) (p : Ptr) (n : Int) (m : Mem)
    (harr : ∀ j : Int, 0 ≤ j → j < n → ∃ q vx vy, Ptr.add Point.sizeof p j = some q ∧
      m.loadInt (q.field Point.x) = some vx ∧ m.loadInt (q.field Point.y) = some vy ∧
      -2147483648 ≤ vx ∧ vx < 2147483647 ∧ -2147483648 ≤ vy ∧ vy < 2147483647)
    (hrun : ∃ r, res = some r ∧
      cntOf r = n.toNat ∧ iOf r = max n 0 ∧
      (p ≠ Ptr.null → Ptr.add Point.sizeof p (iOf r) = some (p0Of r)) ∧
      (n ≤ 0 → memOf r = m) ∧
      (∀ (j : Int) (q : Ptr) (v : Int), 0 ≤ j → j < n → Ptr.add Point.sizeof p j = some q →
        (m.loadInt (q.field Point.x) = some v →
          (memOf r).loadInt (q.field Point.x) = some (wrap32 (v + 1))) ∧
        (m.loadInt (q.field Point.y) = some v →
          (memOf r).loadInt (q.field Point.y) = some (wrap32 (v + 1)))) ∧
      (∀ c, (∀ (j : Int) (q : Ptr), 0 ≤ j → j < n → Ptr.add Point.sizeof p j = some q →
          c ≠ q.field Point.x ∧ c ≠ q.field Point.y) →
        (memOf r).load c = m.load c)) :
    ∃ r, res = some r ∧ cntOf r = n.toNat ∧ iOf r = max n 0 ∧
      (p ≠ Ptr.null → Ptr.add Point.sizeof p (iOf r) = some (p0Of r)) ∧
      (n ≤ 0 → memOf r = m) ∧
      (∀ (j : Int) (q : Ptr) (vx vy : Int), 0 ≤ j → j < n →
        Ptr.add Point.sizeof p j = some q →
        m.loadInt (q.field Point.x) = some vx → m.loadInt (q.field Point.y) = some vy →
        (memOf r).loadInt (q.field Point.x) = some (vx + 1) ∧
        (memOf r).loadInt (q.field Point.y) = some (vy + 1)) ∧
      (∀ (j : Int) (q : Ptr), n ≤ j → Ptr.add Point.sizeof p j = some q →
        (memOf r).load (q.field Point.x) = m.load (q.field Point.x) ∧
        (memOf r).load (q.field Point.y) = m.load (q.field Point.y)) := by
  obtain ⟨r, hr, hc, hi, hp, hm, hinc, hfr⟩ := hrun
  refine ⟨r, hr, hc, hi, hp, hm, ?_, ?_⟩
  · intro j q vx vy hj hjn hq hx hy
    obtain ⟨q1, wx, wy, hq1, hwx, hwy, x0, x1, y0, y1⟩ := harr j hj hjn
    rw [hq] at hq1
    injection hq1 with hq1
    subst hq1
    rw [hx] at hwx
    rw [hy] at hwy
    injection hwx with hwx
    injection hwy with hwy
    subst hwx hwy
    have gx := (hinc j q vx hj hjn hq).1 hx
    have gy := (hinc j q vy hj hjn hq).2 hy
    rw [wrap32_of_range (by omega) (by omega)] at gx gy
    exact ⟨gx, gy⟩
  · intro j q hjn hq
    cases p with
    | null => simp [Ptr.add] at hq
    | mk b o =>
      simp only [Ptr.add, Point.sizeof, Option.some.injEq] at hq
      subst hq
      constructor <;>
      · apply hfr
        intro j1 q1 h0 h1 hq1
        simp only [Ptr.add, Point.sizeof, Option.some.injEq] at hq1
        subst hq1
        simp only [Ptr.field, Point.x, Point.y, ne_eq, Ptr.mk.injEq, true_and]
        constructor <;> (push_cast; omega)


/-- The cursor follows the counter: if `p0 = p + i` with `0 ≤ i < n ≤ INT_MAX`
then `p0 + 1 = p + (i + 1)`, and `i + 1` does not overflow. -/
theorem head_step {p p0 q : Ptr} {i n : Int} (hn : n ≤ 2147483647) (h0 : 0 ≤ i) (hlt : i < n)
    (hp : Ptr.add Point.sizeof p i = some p0) (hq : Ptr.add Point.sizeof p0 1 = some q) :
    wrap32 (i + 1) = i + 1 ∧ Ptr.add Point.sizeof p (wrap32 (i + 1)) = some q := by
  have hw : wrap32 (i + 1) = i + 1 := wrap32_of_range (by omega) (by omega)
  refine ⟨hw, ?_⟩
  cases p with
  | null => simp [Ptr.add] at hp
  | mk b o =>
    simp only [Ptr.add, Point.sizeof, Option.some.injEq] at hp
    subst hp
    simp only [Ptr.add, Point.sizeof, Option.some.injEq] at hq
    subst hq
    simp only [hw, Ptr.add, Point.sizeof, Option.some.injEq, Ptr.mk.injEq, true_and]
    push_cast
    ring

namespace Alias5

/-- What one iteration of the loop of alias5.c does to the locals, when it
completes. -/
theorem body5_some {p : Ptr} {s s1 : Loop} (h : body p s = some s1) :
    ∃ p0 p1 p2 p3 p4, Ptr.add Point.sizeof s.env.p0 1 = some p0 ∧
      Ptr.add Point.sizeof p s.env.i = some p1 ∧
      Ptr.add Point.sizeof p (wrap32 (2 * s.env.i)) = some p2 ∧
      Ptr.add Point.sizeof p (wrap32 (s.env.i + 1)) = some p3 ∧
      Ptr.add Point.sizeof p (wrap32 (wrap32 (s.env.i + 1) - 1)) = some p4 ∧
      s1.env = { i := wrap32 (s.env.i + 1), p0 := p0, p1 := p1, p2 := p2, p3 := some p3,
                 p4 := some p4 } ∧
      s1.seen = s.seen ++ [s1.env] := by
  simp only [body, bind, Option.bind_eq_some, Option.some.injEq] at h
  obtain ⟨_, _, _, _, _, _, _, _, p1, h1, p2, h2, p0, h0, p3, h3, p4, h4, rfl⟩ := h
  exact ⟨p0, p1, p2, p3, p4, h0, h1, h2, h3, h4, rfl, rfl⟩

end Alias5

/-- C13, as the code has it: for `increment_points` of alias2.c, alias3b.c and
alias5.c alike, for every `n` in the range of `int` and every `p` pointing to
at least `n` initialised points whose members are `int` values below
`INT_MAX`: with fuel `n + 1` the function returns after exactly `n` iterations
(none for `n ≤ 0`, and then the memory is unchanged), with `i = n` and
`p0 = p + i`; both members of every point of index `0 ≤ j < n` are increased
by exactly 1, and the points of index `≥ n` are unchanged.  And the loop keeps
`p0 = p + i` at its head: an iteration started with `p0 = p + i` ends with `i`
increased by 1 and again `p0 = p + i`. -/
theorem increment_points_spec (p : Ptr) (n : Int) (m : Mem) (hn : n ≤ 2147483647)
    (harr : ∀ j : Int, 0 ≤ j → j < n → ∃ q vx vy, Ptr.add Point.sizeof p j = some q ∧
      m.loadInt (q.field Point.x) = some vx ∧ m.loadInt (q.field Point.y) = some vy ∧
      -2147483648 ≤ vx ∧ vx < 2147483647 ∧ -2147483648 ≤ vy ∧ vy < 2147483647) :
    ((∃ r, Alias2.increment_points (n.toNat + 1) p n m = some r ∧
        r.seen.length = n.toNat ∧ r.env.i = max n 0 ∧
        (p ≠ Ptr.null → Ptr.add Point.sizeof p r.env.i = some r.env.p0) ∧
        (n ≤ 0 → r.mem = m) ∧
        (∀ (j : Int) (q : Ptr) (vx vy : Int), 0 ≤ j → j < n →
          Ptr.add Point.sizeof p j = some q →
          m.loadInt (q.field Point.x) = some vx → m.loadInt (q.field Point.y) = some vy →
          r.mem.loadInt (q.field Point.x) = some (vx + 1) ∧
          r.mem.loadInt (q.field Point.y) = some (vy + 1)) ∧
        (∀ (j : Int) (q : Ptr), n ≤ j → Ptr.add Point.sizeof p j = some q →
          r.mem.load (q.field Point.x) = m.load (q.field Point.x) ∧
          r.mem.load (q.field Point.y) = m.load (q.field Point.y))) ∧
      (∀ s s1 : Alias2.Loop, 0 ≤ s.env.i → s.env.i < n →
        Ptr.add Point.sizeof p s.env.i = some s.env.p0 → Alias2.body p s = some s1 →
        s1.env.i = s.env.i + 1 ∧ Ptr.add Point.sizeof p s1.env.i = some s1.env.p0)) ∧
    ((∃ r, Alias3b.increment_points (n.toNat + 1) p n m = some r ∧
        r.seen.length = n.toNat ∧ r.env.i = max n 0 ∧
        (p ≠ Ptr.null → Ptr.add Point.sizeof p r.env.i = some r.env.p0) ∧
        (n ≤ 0 → r.mem = m) ∧
        (∀ (j : Int) (q : Ptr) (vx vy : Int), 0 ≤ j → j < n →
          Ptr.add Point.sizeof p j = some q →
          m.loadInt (q.field Point.x) = some vx → m.loadInt (q.field Point.y) = some vy →
          r.mem.loadInt (q.field Point.x) = some (vx + 1) ∧
          r.mem.loadInt (q.field Point.y) = some (vy + 1)) ∧
        (∀ (j : Int) (q : Ptr), n ≤ j → Ptr.add Point.sizeof p j = some q →
          r.mem.load (q.field Point.x) = m.load (q.field Point.x) ∧
          r.mem.load (q.field Point.y) = m.load (q.field Point.y))) ∧
      (∀ s s1 : Alias3b.Loop, 0 ≤ s.env.i → s.env.i < n →
        Ptr.add Point.sizeof p s.env.i = some s.env.p0 → Alias3b.body p s = some s1 →
        s1.env.i = s.env.i + 1 ∧ Ptr.add Point.sizeof p s1.env.i = some s1.env.p0)) ∧
    ((∃ r, Alias5.increment_points (n.toNat + 1) p n m = some r ∧
        r.seen.length = n.toNat ∧ r.env.i = max n 0 ∧
        (p ≠ Ptr.null → Ptr.add Point.sizeof p r.env.i = some r.env.p0) ∧
        (n ≤ 0 → r.mem = m) ∧
        (∀ (j : Int) (q : Ptr) (vx vy : Int), 0 ≤ j → j < n →
          Ptr.add Point.sizeof p j = some q →
          m.loadInt (q.field Point.x) = some vx → m.loadInt (q.field Point.y) = some vy →
          r.mem.loadInt (q.field Point.x) = some (vx + 1) ∧
          r.mem.loadInt (q.field Point.y) = some (vy + 1)) ∧
        (∀ (j : Int) (q : Ptr), n ≤ j → Ptr.add Point.sizeof p j = some q →
          r.mem.load (q.field Point.x) = m.load (q.field Point.x) ∧
          r.mem.load (q.field Point.y) = m.load (q.field Point.y))) ∧
      (∀ s s1 : Alias5.Loop, 0 ≤ s.env.i → s.env.i < n →
        Ptr.add Point.sizeof p s.env.i = some s.env.p0 → Alias5.body p s = some s1 →
        s1.env.i = s.env.i + 1 ∧ Ptr.add Point.sizeof p s1.env.i = some s1.env.p0)) := by
  have harr1 : ∀ j : Int, 0 ≤ j → j < n → ∃ q vx vy, Ptr.add Point.sizeof p j = some q ∧
      m.loadInt (q.field Point.x) = some vx ∧ m.loadInt (q.field Point.y) = some vy := by
    intro j h0 h1
    obtain ⟨q, vx, vy, hq, hx, hy, _⟩ := harr j h0 h1
    exact ⟨q, vx, vy, hq, hx, hy⟩
  refine ⟨⟨?_, ?_⟩, ⟨?_, ?_⟩, ⟨?_, ?_⟩⟩
  · exact points_spec (fun s : Alias2.Loop => s.env.i) (fun s => s.env.p0) (fun s => s.mem)
      (fun s => s.seen.length) _ p n m harr (Alias2.run2 p n m hn harr1)
  · intro s s1 h0 hlt hp hb
    obtain ⟨p0, p1, hq, _, he, _⟩ := Alias2.body_some hb
    obtain ⟨hw, hh⟩ := head_step hn h0 hlt hp hq
    rw [he]
    exact ⟨hw, hh⟩
  · exact points_spec (fun s : Alias3b.Loop => s.env.i) (fun s => s.env.p0) (fun s => s.mem)
      (fun s => s.seen.length) _ p n m harr (Alias3b.run3b p n m hn harr1)
  · intro s s1 h0 hlt hp hb
    obtain ⟨p0, p1, hq, _, he, _⟩ := Alias3b.body3b_some hb
    obtain ⟨hw, hh⟩ := head_step hn h0 hlt hp hq
    rw [he]
    exact ⟨hw, hh⟩
  · exact points_spec (fun s : Alias5.Loop => s.env.i) (fun s => s.env.p0) (fun s => s.mem)
      (fun s => s.seen.length) _ p n m harr (Alias5.run5 p n m hn harr1)
  · intro s s1 h0 hlt hp hb
    obtain ⟨p0, p1, p2, p3, p4, hq, _, _, _, _, he, _⟩ := Alias5.body5_some hb
    obtain ⟨hw, hh⟩ := head_step hn h0 hlt hp hq
    rw [he]
    exact ⟨hw, hh⟩

/-- The block of `fourInts` is an array of two initialised points with
members below `INT_MAX`. -/
theorem fourInts_points : ∀ j : Int, 0 ≤ j → j < 2 → ∃ q vx vy,
    Ptr.add Point.sizeof (Ptr.mk 0 0) j = some q ∧
    fourInts.loadInt (q.field Point.x) = some vx ∧ fourInts.loadInt (q.field Point.y) = some vy ∧
    -2147483648 ≤ vx ∧ vx < 2147483647 ∧ -2147483648 ≤ vy ∧ vy < 2147483647 := by
  intro j h0 h1
  interval_cases j
  · exact ⟨Ptr.mk 0 0, 5, 6, by decide, by decide, by decide, by decide, by decide, by decide,
      by decide⟩
  · exact ⟨Ptr.mk 0 2, 7, 8, by decide, by decide, by decide, by decide, by decide, by decide,
      by decide⟩

/-- Witness of C13 as amended: the three functions on the two points
`(5, 6)` and `(7, 8)` with `n = 2` return after two iterations and leave
`(6, 7)` and `(8, 9)`. -/
theorem increment_points_spec_witness :
    (2 : Int) ≤ 2147483647 ∧
    (∃ r, Alias2.increment_points 3 (Ptr.mk 0 0) 2 fourInts = some r ∧
      r.seen.length = 2 ∧ r.env.i = 2 ∧
      r.mem.loadInt (Ptr.mk 0 0) = some 6 ∧ r.mem.loadInt (Ptr.mk 0 1) = some 7 ∧
      r.mem.loadInt (Ptr.mk 0 2) = some 8 ∧ r.mem.loadInt (Ptr.mk 0 3) = some 9) ∧
    (∃ r, Alias3b.increment_points 3 (Ptr.mk 0 0) 2 fourInts = some r ∧
      r.seen.length = 2 ∧ r.env.i = 2 ∧
      r.mem.loadInt (Ptr.mk 0 0) = some 6 ∧ r.mem.loadInt (Ptr.mk 0 1) = some 7 ∧
      r.mem.loadInt (Ptr.mk 0 2) = some 8 ∧ r.mem.loadInt (Ptr.mk 0 3) = some 9) ∧
    (∃ r, Alias5.increment_points 3 (Ptr.mk 0 0) 2 fourInts = some r ∧
      r.seen.length = 2 ∧ r.env.i = 2 ∧
      r.mem.loadInt (Ptr.mk 0 0) = some 6 ∧ r.mem.loadInt (Ptr.mk 0 1) = some 7 ∧
      r.mem.loadInt (Ptr.mk 0 2) = some 8 ∧ r.mem.loadInt (Ptr.mk 0 3) = some 9) := by
  obtain ⟨⟨⟨r2, h2, l2, i2, _, _, inc2, _⟩, _⟩, ⟨⟨r3, h3, l3, i3, _, _, inc3, _⟩, _⟩,
    ⟨⟨r5, h5, l5, i5, _, _, inc5, _⟩, _⟩⟩ :=
    increment_points_spec (Ptr.mk 0 0) 2 fourInts (by decide) fourInts_points
  have a2 := inc2 0 (Ptr.mk 0 0) 5 6 (by decide) (by decide) (by decide) (by decide) (by decide)
  have b2 := inc2 1 (Ptr.mk 0 2) 7 8 (by decide) (by decide) (by decide) (by decide) (by decide)
  have a3 := inc3 0 (Ptr.mk 0 0) 5 6 (by decide) (by decide) (by decide) (by decide) (by decide)
  have b3 := inc3 1 (Ptr.mk 0 2) 7 8 (by decide) (by decide) (by decide) (by decide) (by decide)
  have a5 := inc5 0 (Ptr.mk 0 0) 5 6 (by decide) (by decide) (by decide) (by decide) (by decide)
  have b5 := inc5 1 (Ptr.mk 0 2) 7 8 (by decide) (by decide) (by decide) (by decide) (by decide)
  exact ⟨by decide, ⟨r2, h2, l2, i2, a2.1, a2.2, b2.1, b2.2⟩, ⟨r3, h3, l3, i3, a3.1, a3.2, b3.1, b3.2⟩,
    ⟨r5, h5, l5, i5, a5.1, a5.2, b5.1, b5.2⟩⟩

/-- C13 as stated fails on a member equal to `INT_MAX`: with `n = 1` on the
point `(2147483647, 0)` each of the three functions leaves `x = -2147483648`,
not `x + 1`. -/
theorem increment_points_overflow_counterexample :
    maxPoint.loadInt ((Ptr.mk 0 0).field Point.x) = some 2147483647 ∧
    (Alias2.increment_points 2 (Ptr.mk 0 0) 1 maxPoint).bind
      (fun r => r.mem.loadInt ((Ptr.mk 0 0).field Point.x)) = some (-2147483648) ∧
    (Alias3b.increment_points 2 (Ptr.mk 0 0) 1 maxPoint).bind
      (fun r => r.mem.loadInt ((Ptr.mk 0 0).field Point.x)) = some (-2147483648) ∧
    (Alias5.increment_points 2 (Ptr.mk 0 0) 1 maxPoint).bind
      (fun r => r.mem.loadInt ((Ptr.mk 0 0).field Point.x)) = some (-2147483648) ∧
    (-2147483648 : Int) ≠ 2147483647 + 1 := by
  decide

/-! ## alias5.c: the line marked HERE -/

namespace Alias5

/-- The loop invariant of `increment_points` of alias5.c on a non-null `p`
and an `n` in the range of `int`: `i` counts the observations, `p0 = p + i`,
and observation number `j` (from 0) was made with `i = j + 1`, `p0 = p3 =
p + (j + 1)`, `p1 = p4 = p + j` and `p2 = p + 2 * j` (modulo 2^32). -/
theorem loop5_inv (b : Nat) (o n : Int) (hn : n ≤ 2147483647) (fuel : Nat) (m : Mem) (r : Loop)
    (h : increment_points fuel (Ptr.mk b o) n m = some r) :
    0 ≤ r.env.i ∧ r.env.i ≤ 2147483647 ∧ (r.seen.length : Int) = r.env.i ∧
      r.env.p0 = Ptr.mk b (o + r.env.i * 2) ∧
      ∀ (j : Nat) (e : Env), r.seen[j]? = some e →
        e.i = j + 1 ∧ e.p0 = Ptr.mk b (o + (j + 1) * 2) ∧ e.p1 = Ptr.mk b (o + j * 2) ∧
        e.p2 = Ptr.mk b (o + wrap32 (2 * j) * 2) ∧ e.p3 = some e.p0 ∧ e.p4 = some e.p1 := by
  refine (whileLoop_inv _ _
    (fun s : Loop => 0 ≤ s.env.i ∧ s.env.i ≤ 2147483647 ∧ (s.seen.length : Int) = s.env.i ∧
      s.env.p0 = Ptr.mk b (o + s.env.i * 2) ∧
      ∀ (j : Nat) (e : Env), s.seen[j]? = some e →
        e.i = j + 1 ∧ e.p0 = Ptr.mk b (o + (j + 1) * 2) ∧ e.p1 = Ptr.mk b (o + j * 2) ∧
        e.p2 = Ptr.mk b (o + wrap32 (2 * j) * 2) ∧ e.p3 = some e.p0 ∧ e.p4 = some e.p1)
    ?_ fuel _ r ?_ h).1
  · intro s s1 ⟨hi, _, hlen, hp0, hseen⟩ hc hb
    obtain ⟨p0, p1, p2, p3, p4, h0, h1, h2, h3, h4, he, hs⟩ := body5_some hb
    have hlt : s.env.i < n := by simpa using hc
    have hw : wrap32 (s.env.i + 1) = s.env.i + 1 := wrap32_of_range (by omega) (by omega)
    have hw1 : wrap32 (s.env.i + 1 - 1) = s.env.i := by
      rw [wrap32_of_range (by omega) (by omega)]
      omega
    simp only [hw, hw1, hp0, Ptr.add, Point.sizeof, Option.some.injEq] at h0 h1 h2 h3 h4
    subst h0 h1 h2 h3 h4
    refine ⟨by rw [he]; simp only [hw]; omega, by rw [he]; simp only [hw]; omega, ?_, ?_, ?_⟩
    · rw [hs, he, hw]
      simp only [List.length_append, List.length_singleton]
      push_cast
      omega
    · rw [he, hw]
      simp only [Ptr.mk.injEq, true_and]
      push_cast
      ring
    · intro j e hj
      rw [hs, List.getElem?_append] at hj
      split_ifs at hj with hjl
      · exact hseen j e hj
      · have hj0 : j - s.seen.length = 0 := by
          by_contra hne
          have : [s1.env][j - s.seen.length]? = none := by
            apply List.getElem?_eq_none
            simp only [List.length_singleton]
            omega
          rw [this] at hj
          exact Option.noConfusion hj
        rw [hj0] at hj
        simp only [List.getElem?_cons_zero, Option.some.injEq] at hj
        subst hj
        have hji : (j : Int) = s.env.i := by omega
        rw [he, hw]
        simp only [hji, Ptr.mk.injEq, true_and, and_true]
        push_cast
        ring_nf
        simp
  · simp

/-- With a null `p` the loop body of alias5.c cannot complete, so nothing is
observed. -/
theorem loop5_null (n : Int) (fuel : Nat) (m : Mem) (r : Loop)
    (h : increment_points fuel Ptr.null n m = some r) : r.seen = [] := by
  refine (whileLoop_inv _ _ (fun s : Loop => s.env.p0 = Ptr.null ∧ s.seen = []) ?_ fuel _ r ?_ h).1.2
  · intro s s1 ⟨hp0, _⟩ _ hb
    obtain ⟨p0, _, _, _, _, h0, _⟩ := body5_some hb
    simp [hp0, Ptr.add] at h0
  · simp

/-- C11: in `increment_points` of alias5.c, for every `p`, every `n` in the
range of `int` and every memory, the observation made at the line marked HERE
in iteration number `j` (from 0) has `i = j + 1`, `p0 = p3 = p + i`,
`p1 = p4 = p + i - 1`, `p0 ≠ p1`, and `p2 = p1` exactly when `j = 0`,
`p2 = p0` exactly when `j = 1`.  When `3 ≤ n` and `p` points to `n`
initialised points, every iteration is observed and in the third `p2` differs
from `p0` and from `p1`: only `p0, p3` and `p1, p4` are equal every time. -/
theorem here_must_alias (p : Ptr) (n : Int) (m : Mem) (hn : n ≤ 2147483647) :
    (∀ fuel r, increment_points fuel p n m = some r →
      ∀ (j : Nat) (e : Env), r.seen[j]? = some e →
        e.i = j + 1 ∧ Ptr.add Point.sizeof p e.i = some e.p0 ∧ e.p3 = some e.p0 ∧
        Ptr.add Point.sizeof p (e.i - 1) = some e.p1 ∧ e.p4 = some e.p1 ∧ e.p0 ≠ e.p1 ∧
        (e.p2 = e.p1 ↔ j = 0) ∧ (e.p2 = e.p0 ↔ j = 1)) ∧
    (3 ≤ n →
      (∀ j : Int, 0 ≤ j → j < n → ∃ q vx vy, Ptr.add Point.sizeof p j = some q ∧
        m.loadInt (q.field Point.x) = some vx ∧ m.loadInt (q.field Point.y) = some vy) →
      ∃ r, increment_points (n.toNat + 1) p n m = some r ∧ r.seen.length = n.toNat ∧
        ∃ e, r.seen[2]? = some e ∧ e.p2 ≠ e.p0 ∧ e.p2 ≠ e.p1) := by
  have part1 : ∀ fuel r, increment_points fuel p n m = some r →
      ∀ (j : Nat) (e : Env), r.seen[j]? = some e →
        e.i = j + 1 ∧ Ptr.add Point.sizeof p e.i = some e.p0 ∧ e.p3 = some e.p0 ∧
        Ptr.add Point.sizeof p (e.i - 1) = some e.p1 ∧ e.p4 = some e.p1 ∧ e.p0 ≠ e.p1 ∧
        (e.p2 = e.p1 ↔ j = 0) ∧ (e.p2 = e.p0 ↔ j = 1) := by
    intro fuel r h j e hj
    cases p with
    | null => simp [loop5_null n fuel m r h] at hj
    | mk b o =>
      obtain ⟨_, hi, hlen, _, hseen⟩ := loop5_inv b o n hn fuel m r h
      obtain ⟨ei, e0, e1, e2, e3, e4⟩ := hseen j e hj
      have hjlt : j < r.seen.length := by
        by_contra hge
        rw [List.getElem?_eq_none (by omega)] at hj
        exact Option.noConfusion hj
      have hj31 : (j : Int) < 2147483647 := by omega
      refine ⟨ei, ?_, e3, ?_, e4, ?_, ?_, ?_⟩
      · rw [ei, e0]
        simp [Ptr.add, Point.sizeof]
      · rw [ei, e1]
        simp [Ptr.add, Point.sizeof]
      · rw [e0, e1]
        simp
      · rw [e2, e1]
        simp only [Ptr.mk.injEq, true_and, wrap32]
        omega
      · rw [e2, e0]
        simp only [Ptr.mk.injEq, true_and, wrap32]
        omega
  refine ⟨part1, ?_⟩
  intro h3 harr
  obtain ⟨r, hr, hlen, _⟩ := run5 p n m hn harr
  have h2 : 2 < r.seen.length := by omega
  obtain ⟨_, _, _, _, _, _, k1, k0⟩ := part1 _ r hr 2 r.seen[2] (List.getElem?_eq_getElem h2)
  exact ⟨r, hr, hlen, r.seen[2], List.getElem?_eq_getElem h2,
    fun h => absurd (k0.mp h) (by decide), fun h => absurd (k1.mp h) (by decide)⟩

/-- Witness of C11: three iterations over a block of three points. -/
theorem here_must_alias_witness :
    (3 : Int) ≤ 2147483647 ∧
    ∃ r, increment_points 4 (Ptr.mk 0 0) 3 threePoints = some r ∧ r.seen.length = 3 ∧
      (∀ (j : Nat) (e : Env), r.seen[j]? = some e →
        e.i = j + 1 ∧ Ptr.add Point.sizeof (Ptr.mk 0 0) e.i = some e.p0 ∧ e.p3 = some e.p0 ∧
        Ptr.add Point.sizeof (Ptr.mk 0 0) (e.i - 1) = some e.p1 ∧ e.p4 = some e.p1 ∧
        e.p0 ≠ e.p1 ∧ (e.p2 = e.p1 ↔ j = 0) ∧ (e.p2 = e.p0 ↔ j = 1)) ∧
      ∃ e, r.seen[2]? = some e ∧ e.p2 ≠ e.p0 ∧ e.p2 ≠ e.p1 := by
  obtain ⟨r, hr, hlen, he⟩ := (here_must_alias (Ptr.mk 0 0) 3 threePoints (by decide)).2
    (by decide) (by
      intro j h0 h1
      interval_cases j
      · exact ⟨Ptr.mk 0 0, 1, 2, by decide, by decide, by decide⟩
      · exact ⟨Ptr.mk 0 2, 3, 4, by decide, by decide, by decide⟩
      · exact ⟨Ptr.mk 0 4, 5, 6, by decide, by decide, by decide⟩)
  exact ⟨by decide, r, hr, hlen,
    (here_must_alias (Ptr.mk 0 0) 3 threePoints (by decide)).1 4 r hr, he⟩

end Alias5

/-! ## alias9.c: the arrays at the line marked HERE -/

/-- Two functions whose maps over `List.range n` agree, agree below `n`. -/
theorem map_range_eq {α : Type} {f g : Nat → α} {n : Nat}
    (h : (List.range n).map f = (List.range n).map g) : ∀ i, i < n → f i = g i := by
  intro i hi
  have h1 := congrArg (fun l => l[i]?) h
  simpa [List.getElem?_map, List.getElem?_range hi] using h1

/-- A counted loop runs to its end: when, under an invariant, the condition
is `i < n` and the body completes, adds 1 to `i` and keeps the invariant, the
loop started with `i + k = n` and more than `k` units of fuel returns with
`i = n` and the invariant. -/
theorem whileLoop_count {σ : Type} (cond : σ → Bool) (body : σ → Option σ) (iOf : σ → Int)
    (n : Int) (Inv : σ → Prop)
    (hc : ∀ s, Inv s → (cond s = true ↔ iOf s < n))
    (hstep : ∀ s, Inv s → iOf s < n → ∃ s1, body s = some s1 ∧ iOf s1 = iOf s + 1 ∧ Inv s1) :
    ∀ (k fuel : Nat) (s : σ), iOf s + k = n → k < fuel → Inv s →
      ∃ r, whileLoop cond body fuel s = some r ∧ iOf r = n ∧ Inv r := by
  intro k
  induction k with
  | zero =>
    intro fuel s hk hf hI
    obtain ⟨f, rfl⟩ : ∃ f, fuel = f + 1 := ⟨fuel - 1, by omega⟩
    have hi : iOf s = n := by simpa using hk
    have hcf : cond s = false := by
      cases h : cond s with
      | false => rfl
      | true => have := (hc s hI).mp h; omega
    exact ⟨s, whileLoop_false _ _ f s hcf, hi, hI⟩
  | succ k ih =>
    intro fuel s hk hf hI
    obtain ⟨f, rfl⟩ : ∃ f, fuel = f + 1 := ⟨fuel - 1, by omega⟩
    have hlt : iOf s < n := by push_cast at hk; omega
    obtain ⟨s1, hb, hi1, hI1⟩ := hstep s hI hlt
    obtain ⟨r, hr, ri, rI⟩ := ih f s1 (by push_cast at hk; omega) (by omega) hI1
    refine ⟨r, ?_, ri, rI⟩
    rw [whileLoop]
    simp only [(hc s hI).mpr hlt, if_true, hb, Option.some_bind]
    exact hr

/-- Library `memcpy` between two different allocated blocks that have at
least `n` cells: it returns, cell `j < n` of the destination block holds what
the source block holds there, and nothing else has changed. -/
theorem memcpy_spec (bd bs : Nat) (hne : bd ≠ bs) (n : Nat) :
    ∀ m : Mem, bd < m.next → bs < m.next → n ≤ m.size bd → n ≤ m.size bs →
      ∃ m1, memcpy (Ptr.mk bd 0) (Ptr.mk bs 0) n m = some m1 ∧
        m1.next = m.next ∧ m1.size = m.size ∧ m1.mallocs = m.mallocs ∧ m1.oom = m.oom ∧
        (∀ j : Nat, j < n → m1.cell bd j = m.cell bs j) ∧
        (∀ (b : Nat) (o : Int), b ≠ bd ∨ o < 0 ∨ (n : Int) ≤ o → m1.cell b o = m.cell b o) := by
  induction n with
  | zero =>
    intro m _ _ _ _
    exact ⟨m, rfl, rfl, rfl, rfl, rfl, fun j hj => by omega, fun _ _ _ => rfl⟩
  | succ k ih =>
    intro m hd hs hdn hsn
    obtain ⟨m1, h1, n1, z1, c1, o1, cp, fr⟩ := ih m hd hs (by omega) (by omega)
    have hvs : m1.valid (Ptr.mk bs k) = true := by
      rw [Mem.valid_mk, n1, z1]
      omega
    have hvd : m1.valid (Ptr.mk bd k) = true := by
      rw [Mem.valid_mk, n1, z1]
      omega
    refine ⟨m1.put bd k (m1.cell bs k), ?_, by simpa using n1, by simpa using z1,
      by simpa using c1, by simpa using o1, ?_, ?_⟩
    · simp [memcpy, bind, h1, Ptr.add, Mem.load_mk, hvs, Mem.store_mk, hvd]
    · intro j hj
      by_cases hjk : j = k
      · subst hjk
        simp only [Mem.put_cell, and_self, if_true]
        exact fr bs j (Or.inl hne.symm)
      · have : ¬ ((j : Int) = k) := by omega
        simp only [Mem.put_cell, this, and_false, if_false]
        exact cp j (by omega)
    · intro b o hb
      have : ¬ (b = bd ∧ o = (k : Int)) := by
        rintro ⟨rfl, rfl⟩
        push_cast at hb
        omega
      simp only [Mem.put_cell, this, if_false]
      exact fr b o (by push_cast at hb; omega)

namespace Alias9

/-- The first call of `gen0` from the initial state, all `malloc` calls
succeeding: the array is block 0 and its cell `i` holds the address of block
`1 + i`. -/
theorem gen0_first :
    (gen0 51 (init (Mem.empty fun _ => false))).map
        (fun r => (r.1, (List.range 50).map
          (fun i : Nat => (Ptr.add 1 r.1 i).bind r.2.mem.loadPtr))) =
      some (Ptr.mk 0 0, (List.range 50).map (fun i : Nat => some (Ptr.mk (1 + i) 0))) := by
  decide!

/-- The run of `main` from the initial state, all `malloc` calls succeeding:
the four arrays, for each index the four pointers they hold there, and the
values `x0[0]->a`, `x0[2]->a` the parity test reads at indices 0 and 2. -/
theorem main_run :
    (main 51 (init (Mem.empty fun _ => false))).map
        (fun r => (r.1, (List.range 50).map
          (fun i : Nat => [(Ptr.add 1 r.1.x0 i).bind r.2.2.mem.loadPtr,
            (Ptr.add 1 r.1.x1 i).bind r.2.2.mem.loadPtr,
            (Ptr.add 1 r.1.x2 i).bind r.2.2.mem.loadPtr,
            (Ptr.add 1 r.1.x3 i).bind r.2.2.mem.loadPtr]),
          [loadA r.1.x0 0 r.2.2.mem, loadA r.1.x0 2 r.2.2.mem])) =
      some ({ x0 := Ptr.mk 0 0, x1 := Ptr.mk 51 0, x2 := Ptr.mk 102 0, x3 := Ptr.mk 153 0 },
        (List.range 50).map (fun i : Nat => [some (Ptr.mk (1 + i) 0), some (Ptr.mk (1 + i) 0),
          some (Ptr.mk (1 + i) 0), some (Ptr.mk (1 + i) 0)]),
        [some 1, some 2]) := by
  decide!

/-- Whichever branch of the parity test is taken, an iteration of the loop
of `main` that finds the same pointer in `x1[i]` and `x2[i]` leaves it in
`x3[i]`. -/
theorem pickBody_same {e : Env} {t t1 : Int × State} {q : Ptr} (h : pickBody e t = some t1)
    (h1 : (Ptr.add 1 e.x1 t.1).bind t.2.mem.loadPtr = some q)
    (h2 : (Ptr.add 1 e.x2 t.1).bind t.2.mem.loadPtr = some q) :
    (Ptr.add 1 e.x3 t.1).bind t1.2.mem.loadPtr = some q := by
  simp only [Option.bind_eq_some] at h1 h2
  obtain ⟨c1, hc1, hq1⟩ := h1
  obtain ⟨c2, hc2, hq2⟩ := h2
  simp only [pickBody, bind, Option.bind_eq_some] at h
  obtain ⟨v, _, h⟩ := h
  have key : ∃ c3 m, Ptr.add 1 e.x3 t.1 = some c3 ∧ t.2.mem.store c3 (Val.ptr q) = some m ∧
      t1.2.mem = m := by
    split_ifs at h
    · simp only [hc1, Option.bind_eq_some, Option.some.injEq] at h
      obtain ⟨_, rfl, w, hw, c3, h3, m, hs, rfl⟩ := h
      rw [hq1] at hw
      injection hw with hw
      subst hw
      exact ⟨c3, m, h3, hs, rfl⟩
    · simp only [hc2, Option.bind_eq_some, Option.some.injEq] at h
      obtain ⟨_, rfl, w, hw, c3, h3, m, hs, rfl⟩ := h
      rw [hq2] at hw
      injection hw with hw
      subst hw
      exact ⟨c3, m, h3, hs, rfl⟩
  obtain ⟨c3, m, h3, hs, hm⟩ := key
  obtain ⟨hv, rfl⟩ := Mem.store_eq_some hs
  simp only [h3, Option.some_bind, hm]
  exact Mem.loadPtr_write_same q hv

/-! ### The calls of `gen0` and `rep` and the run of `main`, from any state -/

/-- One iteration of the first loop of `gen0`, on the array block `N` of 50
cells when the next free block is `N + 1 + i` and `malloc` succeeds: the new
block becomes `x0[i]`. -/
theorem allocBody_eq (N : Nat) (i : Int) (st : State) (h0 : 0 ≤ i) (h1 : i < 50)
    (hnext : (st.mem.next : Int) = N + 1 + i) (hsize : st.mem.size N = 50)
    (hok : st.mem.oom st.mem.mallocs = false) :
    allocBody (Ptr.mk N 0) (i, st) = some (i + 1,
      { st with mem := (st.mem.malloc 1).2.put N i (Val.ptr (Ptr.mk st.mem.next 0)) }) := by
  have hw : wrap32 (i + 1) = i + 1 := wrap32_of_range (by omega) (by omega)
  have hN : N ≠ st.mem.next := by omega
  have hv : (st.mem.malloc 1).2.valid (Ptr.mk N i) = true := by
    rw [Mem.malloc_of_ok 1 hok, Mem.valid_mk]
    simp only [Mem.grow, hN, if_false, hsize]
    omega
  have h1 : (st.mem.malloc 1).1 = Ptr.mk st.mem.next 0 := by rw [Mem.malloc_of_ok 1 hok]
  simp only [allocBody, h1, Ptr.add, bind, Option.some_bind, Nat.cast_one,
    mul_one, zero_add, Mem.store_mk, hv, if_true, hw]

/-- The first loop of `gen0`, when the 51 `malloc` calls of `gen0` succeed:
it returns with the array in block `N = s.mem.next`, cell `j` of which holds
the address of the fresh one-cell block `N + 1 + j`; the blocks below `N` are
as before. -/
theorem alloc_loop (s : State) (hmax : s.max = 50)
    (hok : ∀ k : Nat, k < 51 → s.mem.oom (s.mem.mallocs + k) = false)
    (fuel : Nat) (hf : 51 ≤ fuel) :
    ∃ r, whileLoop (fun t : Int × State => decide (t.1 < t.2.max))
        (allocBody (Ptr.mk s.mem.next 0)) fuel (0, { s with mem := (s.mem.malloc 50).2 })
        = some r ∧ r.1 = 50 ∧
      r.2.x0 = s.x0 ∧ r.2.i = s.i ∧ r.2.max = 50 ∧
      r.2.mem.next = s.mem.next + 51 ∧ r.2.mem.mallocs = s.mem.mallocs + 51 ∧
      r.2.mem.oom = s.mem.oom ∧ r.2.mem.size s.mem.next = 50 ∧
      (∀ j : Nat, j < 50 → r.2.mem.size (s.mem.next + 1 + j) = 1 ∧
        r.2.mem.cell s.mem.next j = Val.ptr (Ptr.mk (s.mem.next + 1 + j) 0)) ∧
      (∀ (b : Nat) (o : Int), b < s.mem.next →
        r.2.mem.size b = s.mem.size b ∧ r.2.mem.cell b o = s.mem.cell b o) := by
  have hok0 : s.mem.oom s.mem.mallocs = false := hok 0 (by omega)
  obtain ⟨r, hr, ri, rI⟩ := whileLoop_count (fun t : Int × State => decide (t.1 < t.2.max))
    (allocBody (Ptr.mk s.mem.next 0)) (fun t => t.1) 50
    (fun t => 0 ≤ t.1 ∧ t.1 ≤ 50 ∧ t.2.x0 = s.x0 ∧ t.2.i = s.i ∧ t.2.max = 50 ∧
      (t.2.mem.next : Int) = s.mem.next + 1 + t.1 ∧
      (t.2.mem.mallocs : Int) = s.mem.mallocs + 1 + t.1 ∧
      t.2.mem.oom = s.mem.oom ∧ t.2.mem.size s.mem.next = 50 ∧
      (∀ j : Nat, (j : Int) < t.1 → t.2.mem.size (s.mem.next + 1 + j) = 1 ∧
        t.2.mem.cell s.mem.next j = Val.ptr (Ptr.mk (s.mem.next + 1 + j) 0)) ∧
      (∀ (b : Nat) (o : Int), b < s.mem.next →
        t.2.mem.size b = s.mem.size b ∧ t.2.mem.cell b o = s.mem.cell b o))
    (by
      intro t hI
      simp only [hI.2.2.2.2.1, decide_eq_true_eq])
    (by
      rintro ⟨i, st⟩ ⟨h0, _, hx, hi, hm, hnext, hmal, hoom, hsize, harr, hold⟩ hlt
      simp only at h0 hx hi hm hnext hmal hoom hsize harr hold hlt
      have hmk : st.mem.oom st.mem.mallocs = false := by
        rw [hoom]
        have : st.mem.mallocs = s.mem.mallocs + (1 + i.toNat) := by omega
        rw [this]
        exact hok _ (by omega)
      refine ⟨_, allocBody_eq s.mem.next i st h0 hlt hnext hsize hmk, rfl, ?_⟩
      have hne : s.mem.next ≠ st.mem.next := by omega
      simp only [Mem.malloc_of_ok 1 hmk, Mem.put_next, Mem.put_size, Mem.put_mallocs, Mem.put_oom,
        Mem.grow_next, Mem.grow_oom, Mem.put_cell, Mem.grow_size, Mem.grow_cell, hne, if_false]
      refine ⟨by omega, by omega, hx, hi, hm, by push_cast; omega, by push_cast; omega, hoom,
        hsize, ?_, ?_⟩
      · intro j hj
        by_cases hji : (j : Int) = i
        · have e1 : s.mem.next + 1 + j = st.mem.next := by omega
          simp [e1, hji]
        · have e1 : s.mem.next + 1 + j ≠ st.mem.next := by omega
          obtain ⟨a1, a2⟩ := harr j (by omega)
          simp [e1, hji, a1, a2]
      · intro b o hb
        have e1 : b ≠ st.mem.next := by omega
        have e2 : b ≠ s.mem.next := by omega
        obtain ⟨a1, a2⟩ := hold b o hb
        simp [e1, e2, a1, a2])
    50 fuel (0, { s with mem := (s.mem.malloc 50).2 }) (by simp) (by omega)
    (by
      refine ⟨le_refl _, by norm_num, rfl, rfl, hmax, ?_, ?_, ?_, ?_, ?_, ?_⟩
      · simp [Mem.malloc_of_ok 50 hok0]
      · simp [Mem.malloc_of_ok 50 hok0]
      · simp [Mem.malloc_of_ok 50 hok0]
      · simp [Mem.malloc_of_ok 50 hok0, Mem.grow]
      · intro j hj
        simp only at hj
        omega
      · intro b o hb
        have e1 : b ≠ s.mem.next := by omega
        simp [Mem.malloc_of_ok 50 hok0, Mem.grow, e1])
  obtain ⟨_, _, hx, hi, hm, hnext, hmal, hoom, hsize, harr, hold⟩ := rI
  refine ⟨r, hr, ri, hx, hi, hm, by omega, by omega, hoom, hsize, ?_, hold⟩
  intro j hj
  exact harr j (by omega)

/-- Reading `x0[j]` in an array. -/
theorem loadPtr_of_isArray {m : Mem} {A S : Nat} (h : IsArray m A S) {j : Nat} (hj : j < 50) :
    (Ptr.add 1 (Ptr.mk A 0) j).bind m.loadPtr = some (Ptr.mk (S + j) 0) := by
  obtain ⟨h1, h2, h3⟩ := h
  have hv : m.valid (Ptr.mk A j) = true := by
    rw [Mem.valid_mk, h2]
    omega
  simp [Ptr.add, Mem.loadPtr, Mem.load_mk, hv, h3 j hj]

/-- Reading `x0[j]->a` in an array whose structs are filled up to `k`. -/
theorem loadA_of_isArray {m : Mem} {A S k : Nat} (h : IsArray m A S) (hs : HasStructs m S k)
    {j : Nat} (hj : j < k) (hj50 : j < 50) :
    loadA (Ptr.mk A 0) j m = some (gen0Values.getD j 0) := by
  have hp := loadPtr_of_isArray h hj50
  simp only [Option.bind_eq_some] at hp
  obtain ⟨c, hc, hq⟩ := hp
  obtain ⟨s1, s2, s3⟩ := hs
  have hv : m.valid (Ptr.mk (S + j) 0) = true := by
    rw [Mem.valid_mk, s2 j hj50]
    omega
  simp [loadA, bind, hc, hq, Ptr.field, a, Mem.loadInt, Mem.load_mk, hv, s3 j hj]

/-- Writing `x0[j]->a` in an array. -/
theorem storeA_of_isArray {m : Mem} {A S k : Nat} (h : IsArray m A S) (hs : HasStructs m S k)
    {j : Nat} (hj50 : j < 50) (v : Int) :
    storeA (Ptr.mk A 0) j v m = some (m.put (S + j) 0 (Val.int v)) := by
  have hp := loadPtr_of_isArray h hj50
  simp only [Option.bind_eq_some] at hp
  obtain ⟨c, hc, hq⟩ := hp
  obtain ⟨s1, s2, s3⟩ := hs
  have hv : m.valid (Ptr.mk (S + j) 0) = true := by
    rw [Mem.valid_mk, s2 j hj50]
    omega
  simp [storeA, bind, hc, hq, Ptr.field, a, Mem.store_mk, hv]

/-- A write outside block `A` keeps the array in `A`. -/
theorem isArray_put {m : Mem} {A S : Nat} (h : IsArray m A S) (b : Nat) (o : Int) (v : Val)
    (hb : b ≠ A) : IsArray (m.put b o v) A S := by
  obtain ⟨h1, h2, h3⟩ := h
  refine ⟨h1, h2, fun j hj => ?_⟩
  simp [Mem.put_cell, hb.symm, h3 j hj]

/-- Writing value number `k` into struct `k` fills the structs up to `k + 1`. -/
theorem hasStructs_put {m : Mem} {S k : Nat} (h : HasStructs m S k) (hk : k < 50) :
    HasStructs (m.put (S + k) 0 (Val.int (gen0Values.getD k 0))) S (k + 1) := by
  obtain ⟨h1, h2, h3⟩ := h
  refine ⟨h1, h2, fun j hj => ?_⟩
  by_cases hjk : j = k
  · subst hjk
    simp [Mem.put_cell]
  · simp [Mem.put_cell, hjk, h3 j (by omega)]

/-- A write outside the blocks `S` to `S + 49` keeps the structs. -/
theorem hasStructs_put_other {m : Mem} {S k : Nat} (h : HasStructs m S k) (hk : k ≤ 50)
    (b : Nat) (o : Int) (v : Val) (hb : b < S ∨ S + 50 ≤ b) : HasStructs (m.put b o v) S k := by
  obtain ⟨h1, h2, h3⟩ := h
  refine ⟨h1, h2, fun j hj => ?_⟩
  have : S + j ≠ b := by omega
  simp [Mem.put_cell, this, h3 j hj]

/-- A write at block `N` or above keeps the agreement below `N`. -/
theorem agreeBelow_put {m m1 : Mem} {N : Nat} (h : AgreeBelow m m1 N) (b : Nat) (o : Int)
    (v : Val) (hb : N ≤ b) : AgreeBelow m (m1.put b o v) N := by
  intro b1 o1 hb1
  have : b1 ≠ b := by omega
  simp [Mem.put_cell, this, h b1 o1 hb1]

/-- Each value of `gen0Values` from the third on is the sum of the two
before it, reduced modulo 2^32. -/
theorem gen0Values_step : ∀ k : Nat, k < 48 →
    wrap32 (gen0Values.getD (k + 1) 0 + gen0Values.getD k 0) = gen0Values.getD (k + 2) 0 := by
  decide!

/-- One iteration of the second loop of `gen0` on an array whose structs are
filled up to `k + 2`: it fills struct `k + 2`. -/
theorem fillBody_eq {A S : Nat} {k : Nat} {st : State} (hk : k < 48)
    (hA : IsArray st.mem A S) (hS : HasStructs st.mem S (k + 2)) :
    fillBody (Ptr.mk A 0) (((k + 2 : Nat) : Int), st) = some (((k + 3 : Nat) : Int),
      { st with mem := st.mem.put (S + (k + 2)) 0 (Val.int (gen0Values.getD (k + 2) 0)) }) := by
  have w1 : wrap32 (((k + 2 : Nat) : Int) - 1) = ((k + 1 : Nat) : Int) := by
    rw [wrap32_of_range (by omega) (by omega)]
    omega
  have w2 : wrap32 (((k + 2 : Nat) : Int) - 2) = ((k : Nat) : Int) := by
    rw [wrap32_of_range (by omega) (by omega)]
    omega
  have w3 : wrap32 (((k + 2 : Nat) : Int) + 1) = ((k + 3 : Nat) : Int) := by
    rw [wrap32_of_range (by omega) (by omega)]
    omega
  simp only [fillBody, bind, w1, w2, w3, loadA_of_isArray hA hS (j := k + 1) (by omega) (by omega),
    loadA_of_isArray hA hS (j := k) (by omega) (by omega), Option.some_bind,
    storeA_of_isArray hA hS (j := k + 2) (by omega), gen0Values_step k hk]

/-- The second loop of `gen0`, on an array whose first two structs are
filled: it returns having filled all 50, and has written nowhere else. -/
theorem fill_loop {A S : Nat} (st : State) (hmax : st.max = 50) (hAS : A < S ∨ S + 50 ≤ A)
    (hA : IsArray st.mem A S) (hS : HasStructs st.mem S 2) (fuel : Nat) (hf : 49 ≤ fuel) :
    ∃ r, whileLoop (fun t : Int × State => decide (t.1 < t.2.max)) (fillBody (Ptr.mk A 0)) fuel
        (2, st) = some r ∧ r.1 = 50 ∧
      r.2.x0 = st.x0 ∧ r.2.i = st.i ∧ r.2.max = 50 ∧
      r.2.mem.next = st.mem.next ∧ r.2.mem.mallocs = st.mem.mallocs ∧
      r.2.mem.oom = st.mem.oom ∧ r.2.mem.size = st.mem.size ∧
      IsArray r.2.mem A S ∧ HasStructs r.2.mem S 50 ∧
      (∀ (b : Nat) (o : Int), b < S ∨ S + 50 ≤ b → r.2.mem.cell b o = st.mem.cell b o) := by
  obtain ⟨r, hr, ri, rI⟩ := whileLoop_count (fun t : Int × State => decide (t.1 < t.2.max))
    (fillBody (Ptr.mk A 0)) (fun t => t.1) 50
    (fun t => 2 ≤ t.1 ∧ t.1 ≤ 50 ∧ t.2.x0 = st.x0 ∧ t.2.i = st.i ∧ t.2.max = 50 ∧
      t.2.mem.next = st.mem.next ∧ t.2.mem.mallocs = st.mem.mallocs ∧
      t.2.mem.oom = st.mem.oom ∧ t.2.mem.size = st.mem.size ∧
      IsArray t.2.mem A S ∧ HasStructs t.2.mem S t.1.toNat ∧
      (∀ (b : Nat) (o : Int), b < S ∨ S + 50 ≤ b → t.2.mem.cell b o = st.mem.cell b o))
    (by
      intro t hI
      simp only [hI.2.2.2.2.1, decide_eq_true_eq])
    (by
      rintro ⟨i, t⟩ ⟨h2, _, hx, hi, hm, hnext, hmal, hoom, hsize, hA1, hS1, hfr⟩ hlt
      simp only at h2 hx hi hm hnext hmal hoom hsize hA1 hS1 hfr hlt
      obtain ⟨k, rfl⟩ : ∃ k : Nat, i = ((k + 2 : Nat) : Int) := ⟨i.toNat - 2, by omega⟩
      have hk : k < 48 := by omega
      have hS2 : HasStructs t.mem S (k + 2) := by simpa using hS1
      refine ⟨_, fillBody_eq hk hA1 hS2, by push_cast; ring, ?_⟩
      refine ⟨by simp only; omega, by simp only; omega, hx, hi, hm, hnext, hmal, hoom, hsize,
        isArray_put hA1 _ _ _ (by omega), ?_, ?_⟩
      · have := hasStructs_put hS2 (by omega)
        simpa using this
      · intro b o hb
        have : b ≠ S + (k + 2) := by omega
        simp [Mem.put_cell, this, hfr b o hb])
    48 fuel (2, st) (by norm_num) (by omega)
    ⟨le_refl _, by norm_num, rfl, rfl, hmax, rfl, rfl, rfl, rfl, hA, by simpa using hS,
      fun _ _ _ => rfl⟩
  obtain ⟨_, _, hx, hi, hm, hnext, hmal, hoom, hsize, hA1, hS1, hfr⟩ := rI
  have ri' : r.1 = 50 := ri
  rw [ri'] at hS1
  exact ⟨r, hr, ri, hx, hi, hm, hnext, hmal, hoom, hsize, hA1, by simpa using hS1, hfr⟩

/-- The function `gen0` in general: with `max = 50`, at least 51 units of
fuel and its 51 `malloc` calls succeeding, it returns the fresh block
`N = s.mem.next`, an array whose cell `j` holds the address of block
`N + 1 + j`, in which `a` is value number `j` of `gen0Values`; it allocates the
blocks `N` to `N + 50` and leaves the blocks below `N` as they were. -/
theorem gen0_spec (fuel : Nat) (hf : 51 ≤ fuel) (s : State) (hmax : s.max = 50)
    (hok : ∀ k : Nat, k < 51 → s.mem.oom (s.mem.mallocs + k) = false) :
    ∃ s1, gen0 fuel s = some (Ptr.mk s.mem.next 0, s1) ∧
      s1.x0 = s.x0 ∧ s1.i = s.i ∧ s1.max = 50 ∧
      s1.mem.next = s.mem.next + 51 ∧ s1.mem.mallocs = s.mem.mallocs + 51 ∧
      s1.mem.oom = s.mem.oom ∧
      IsArray s1.mem s.mem.next (s.mem.next + 1) ∧ HasStructs s1.mem (s.mem.next + 1) 50 ∧
      AgreeBelow s.mem s1.mem s.mem.next := by
  have hok0 : s.mem.oom s.mem.mallocs = false := hok 0 (by omega)
  have hx0 : (s.mem.malloc 50).1 = Ptr.mk s.mem.next 0 := by rw [Mem.malloc_of_ok 50 hok0]
  obtain ⟨t1, h1, _, x1, i1, m1, n1, c1, o1, z1, a1, f1⟩ := alloc_loop s hmax hok fuel hf
  have hA1 : IsArray t1.2.mem s.mem.next (s.mem.next + 1) :=
    ⟨by omega, z1, fun j hj => (a1 j hj).2⟩
  have hS0 : HasStructs t1.2.mem (s.mem.next + 1) 0 :=
    ⟨by omega, fun j hj => (a1 j hj).1, fun j hj => by omega⟩
  have e0 := storeA_of_isArray hA1 hS0 (j := 0) (by omega) 1
  have hS1 := hasStructs_put hS0 (by omega)
  have hA2 := isArray_put hA1 (s.mem.next + 1 + 0) 0 (Val.int (gen0Values.getD 0 0)) (by omega)
  have e1 := storeA_of_isArray hA2 hS1 (j := 1) (by omega) 1
  have hS2 := hasStructs_put hS1 (by omega)
  have hA3 := isArray_put hA2 (s.mem.next + 1 + 1) 0 (Val.int (gen0Values.getD 1 0)) (by omega)
  have g0 : gen0Values.getD 0 0 = 1 := by decide
  have g1 : gen0Values.getD 1 0 = 1 := by decide
  rw [g0] at hS1 hA2 hS2 hA3 e1
  rw [g1] at hS2 hA3
  simp only [Nat.cast_zero, Nat.cast_one, zero_add] at e0 e1 hS2 hA3
  obtain ⟨M2, hM2⟩ : ∃ M2, M2 = (t1.2.mem.put (s.mem.next + 1 + 0) 0 (Val.int 1)).put
      (s.mem.next + 1 + 1) 0 (Val.int 1) := ⟨_, rfl⟩
  rw [← hM2] at e1 hS2 hA3
  obtain ⟨t2, h2, _, x2, i2, m2, n2, c2, o2, z2, a2, s2, f2⟩ := fill_loop
    (A := s.mem.next) (S := s.mem.next + 1) { t1.2 with mem := M2 }
    m1 (by omega) hA3 hS2 fuel (by omega)
  simp only [hM2] at n2 c2 o2 z2 f2
  refine ⟨t2.2, ?_, x2.trans x1, i2.trans i1, m2, by rw [n2]; simpa using n1,
    by rw [c2]; simpa using c1, by rw [o2]; simpa using o1, a2, s2, ?_⟩
  · have htn : s.max.toNat = 50 := by rw [hmax]; rfl
    simp only [gen0, htn, bind, hx0, Option.bind_eq_some]
    refine ⟨t1, h1, ?_⟩
    simp only [e0, Option.bind_eq_some]
    exact ⟨_, rfl, _, e1, t2, h2, rfl⟩
  · intro b o hb
    have hb1 : b < s.mem.next + 1 ∨ s.mem.next + 1 + 50 ≤ b := by omega
    have hne0 : b ≠ s.mem.next + 1 + 0 := by omega
    have hne1 : b ≠ s.mem.next + 1 + 1 := by omega
    rw [z2, f2 b o hb1]
    simp only [Mem.put_size, Mem.put_cell, hne0, hne1, false_and, if_false]
    exact f1 b o hb

/-- An array below `N` is kept by a memory that agrees below `N`. -/
theorem isArray_agree {m m1 : Mem} {A S N : Nat} (h : IsArray m A S) (hag : AgreeBelow m m1 N)
    (hA : A < N) (hn : m.next ≤ m1.next) : IsArray m1 A S := by
  obtain ⟨h1, h2, h3⟩ := h
  exact ⟨by omega, by rw [(hag A 0 hA).1]; exact h2, fun j hj => by rw [(hag A j hA).2]; exact h3 j hj⟩

/-- Structs below `N` are kept by a memory that agrees below `N`. -/
theorem hasStructs_agree {m m1 : Mem} {S k N : Nat} (h : HasStructs m S k)
    (hag : AgreeBelow m m1 N) (hS : S + 50 ≤ N) (hk : k ≤ 50) (hn : m.next ≤ m1.next) :
    HasStructs m1 S k := by
  obtain ⟨h1, h2, h3⟩ := h
  exact ⟨by omega, fun j hj => by rw [(hag (S + j) 0 (by omega)).1]; exact h2 j hj,
    fun j hj => by rw [(hag (S + j) 0 (by omega)).2]; exact h3 j hj⟩

/-- The call `rep(0)` is the call of `gen0`. -/
theorem rep_null (fuel : Nat) (s : State) : rep fuel Ptr.null s = gen0 fuel s := by
  simp only [rep, bind, ne_eq, not_true_eq_false, if_false]
  cases gen0 fuel s <;> rfl

/-- The call `rep(orig)` on an array `orig` whose cells hold the addresses
of the blocks `S + j`: the fresh array it returns holds the same addresses;
the structs `gen0` allocated for it are still there, and the blocks below it
are as before. -/
theorem rep_copy (fuel : Nat) (hf : 51 ≤ fuel) (s : State) (hmax : s.max = 50)
    (hok : ∀ k : Nat, k < 51 → s.mem.oom (s.mem.mallocs + k) = false) {A S : Nat}
    (hA : IsArray s.mem A S) :
    ∃ s1, rep fuel (Ptr.mk A 0) s = some (Ptr.mk s.mem.next 0, s1) ∧
      s1.x0 = s.x0 ∧ s1.i = s.i ∧ s1.max = 50 ∧
      s1.mem.next = s.mem.next + 51 ∧ s1.mem.mallocs = s.mem.mallocs + 51 ∧
      s1.mem.oom = s.mem.oom ∧
      IsArray s1.mem s.mem.next S ∧ HasStructs s1.mem (s.mem.next + 1) 50 ∧
      AgreeBelow s.mem s1.mem s.mem.next := by
  obtain ⟨t, ht, x1, i1, m1, n1, c1, o1, a1, s1, f1⟩ := gen0_spec fuel hf s hmax hok
  have hAlt : A < s.mem.next := hA.1
  obtain ⟨m2, h2, n2, z2, c2, o2, cp, fr⟩ := memcpy_spec s.mem.next A (by omega) 50 t.mem
    a1.1 (by omega) (by rw [a1.2.1]) (by rw [(f1 A 0 hAlt).1, hA.2.1])
  have htn : t.max.toNat = 50 := by rw [m1]; rfl
  refine ⟨{ t with mem := m2 }, ?_, x1, i1, m1, by simpa [n2] using n1, by simpa [c2] using c1,
    by simpa [o2] using o1, ?_, ?_, ?_⟩
  · simp only [rep, bind, ht, Option.some_bind, ne_eq, not_false_eq_true, if_true, htn, h2,
      reduceCtorEq]
  · refine ⟨by simp only [n2]; exact a1.1, by simp only [z2]; exact a1.2.1, fun j hj => ?_⟩
    simp only
    rw [cp j hj, (f1 A j hAlt).2]
    exact hA.2.2 j hj
  · obtain ⟨b1, b2, b3⟩ := s1
    refine ⟨by simp only [n2]; exact b1, fun j hj => by simp only [z2]; exact b2 j hj,
      fun j hj => ?_⟩
    simp only
    rw [fr _ _ (Or.inl (by omega))]
    exact b3 j hj
  · intro b o hb
    simp only [z2]
    rw [fr b o (Or.inl (by omega))]
    exact f1 b o hb

/-- One iteration of the loop of `main` when `x0`, `x1`, `x2` are arrays
holding the addresses of the same filled structs and `x3` is a block of 50
cells: whichever branch is taken, `x3[j]` receives the address of struct
`j`. -/
theorem pickBody_eq {A0 A1 A2 A3 S : Nat} {j : Nat} {st : State} (hj : j < 50)
    (h0 : IsArray st.mem A0 S) (hS : HasStructs st.mem S 50)
    (h1 : IsArray st.mem A1 S) (h2 : IsArray st.mem A2 S)
    (h3 : A3 < st.mem.next) (hz : st.mem.size A3 = 50) :
    pickBody { x0 := Ptr.mk A0 0, x1 := Ptr.mk A1 0, x2 := Ptr.mk A2 0, x3 := Ptr.mk A3 0 }
        ((j : Int), st) = some (((j + 1 : Nat) : Int),
      { st with mem := st.mem.put A3 j (Val.ptr (Ptr.mk (S + j) 0)) }) := by
  have w : wrap32 ((j : Int) + 1) = ((j + 1 : Nat) : Int) := by
    rw [wrap32_of_range (by omega) (by omega)]
    omega
  have hv : st.mem.valid (Ptr.mk A3 j) = true := by
    rw [Mem.valid_mk, hz]
    omega
  have p1 := loadPtr_of_isArray h1 hj
  have p2 := loadPtr_of_isArray h2 hj
  have e3 : Ptr.add 1 (Ptr.mk A3 0) (j : Int) = some (Ptr.mk A3 j) := by simp [Ptr.add]
  simp only [Option.bind_eq_some] at p1 p2
  obtain ⟨c1, hc1, hq1⟩ := p1
  obtain ⟨c2, hc2, hq2⟩ := p2
  simp only [pickBody, bind, loadA_of_isArray h0 hS hj hj, Option.some_bind, w]
  split_ifs
  · simp only [hc1, Option.some_bind, hq1, e3, Mem.store_mk, hv, if_true]
  · simp only [hc2, Option.some_bind, hq2, e3, Mem.store_mk, hv, if_true]

/-- The loop of `main`: it returns with `x3` an array holding the same
addresses as `x0`, `x1` and `x2`, and has written nowhere but in `x3`. -/
theorem pick_loop (A0 A1 A2 A3 S : Nat) (st : State) (hmax : st.max = 50)
    (h30 : A3 ≠ A0) (h31 : A3 ≠ A1) (h32 : A3 ≠ A2) (h3S : A3 < S ∨ S + 50 ≤ A3)
    (h0 : IsArray st.mem A0 S) (hS : HasStructs st.mem S 50)
    (h1 : IsArray st.mem A1 S) (h2 : IsArray st.mem A2 S)
    (h3 : A3 < st.mem.next) (hz : st.mem.size A3 = 50) (fuel : Nat) (hf : 51 ≤ fuel) :
    ∃ r, whileLoop (fun t : Int × State => decide (t.1 < t.2.max))
        (pickBody { x0 := Ptr.mk A0 0, x1 := Ptr.mk A1 0, x2 := Ptr.mk A2 0, x3 := Ptr.mk A3 0 })
        fuel (0, st) = some r ∧ r.1 = 50 ∧
      r.2.x0 = st.x0 ∧ r.2.i = st.i ∧ r.2.max = 50 ∧
      r.2.mem.next = st.mem.next ∧ r.2.mem.mallocs = st.mem.mallocs ∧
      r.2.mem.oom = st.mem.oom ∧ r.2.mem.size = st.mem.size ∧
      IsArray r.2.mem A0 S ∧ HasStructs r.2.mem S 50 ∧ IsArray r.2.mem A1 S ∧
      IsArray r.2.mem A2 S ∧ IsArray r.2.mem A3 S ∧
      (∀ (b : Nat) (o : Int), b ≠ A3 → r.2.mem.cell b o = st.mem.cell b o) := by
  obtain ⟨r, hr, ri, rI⟩ := whileLoop_count (fun t : Int × State => decide (t.1 < t.2.max))
    (pickBody { x0 := Ptr.mk A0 0, x1 := Ptr.mk A1 0, x2 := Ptr.mk A2 0, x3 := Ptr.mk A3 0 })
    (fun t => t.1) 50
    (fun t => 0 ≤ t.1 ∧ t.1 ≤ 50 ∧ t.2.x0 = st.x0 ∧ t.2.i = st.i ∧ t.2.max = 50 ∧
      t.2.mem.next = st.mem.next ∧ t.2.mem.mallocs = st.mem.mallocs ∧
      t.2.mem.oom = st.mem.oom ∧ t.2.mem.size = st.mem.size ∧
      IsArray t.2.mem A0 S ∧ HasStructs t.2.mem S 50 ∧ IsArray t.2.mem A1 S ∧
      IsArray t.2.mem A2 S ∧
      (∀ j : Nat, (j : Int) < t.1 → t.2.mem.cell A3 j = Val.ptr (Ptr.mk (S + j) 0)) ∧
      (∀ (b : Nat) (o : Int), b ≠ A3 → t.2.mem.cell b o = st.mem.cell b o))
    (by
      intro t hI
      simp only [hI.2.2.2.2.1, decide_eq_true_eq])
    (by
      rintro ⟨i, t⟩ ⟨hi0, _, hx, hi, hm, hnext, hmal, hoom, hsize, a0, aS, a1, a2, a3, hfr⟩ hlt
      simp only at hi0 hx hi hm hnext hmal hoom hsize a0 aS a1 a2 a3 hfr hlt
      obtain ⟨j, rfl⟩ : ∃ j : Nat, i = (j : Int) := ⟨i.toNat, by omega⟩
      have hj : j < 50 := by omega
      refine ⟨_, pickBody_eq hj a0 aS a1 a2 (by rw [hnext]; exact h3) (by rw [hsize]; exact hz),
        by push_cast; ring, ?_⟩
      refine ⟨by simp only; omega, by simp only; omega, hx, hi, hm, hnext, hmal, hoom, hsize,
        isArray_put a0 _ _ _ h30, hasStructs_put_other aS (le_refl _) _ _ _ h3S,
        isArray_put a1 _ _ _ h31, isArray_put a2 _ _ _ h32, ?_, ?_⟩
      · intro k hk
        simp only at hk
        by_cases hkj : k = j
        · subst hkj
          simp [Mem.put_cell]
        · have : (k : Int) ≠ (j : Int) := by omega
          simp [Mem.put_cell, this, a3 k (by omega)]
      · intro b o hb
        simp [Mem.put_cell, hb, hfr b o hb])
    50 fuel (0, st) (by norm_num) (by omega)
    ⟨le_refl _, by norm_num, rfl, rfl, hmax, rfl, rfl, rfl, rfl, h0, hS, h1, h2,
      fun j hj => by simp only at hj; omega, fun _ _ _ => rfl⟩
  obtain ⟨_, _, hx, hi, hm, hnext, hmal, hoom, hsize, a0, aS, a1, a2, a3, hfr⟩ := rI
  have ri1 : r.1 = 50 := ri
  refine ⟨r, hr, ri, hx, hi, hm, hnext, hmal, hoom, hsize, a0, aS, a1, a2, ?_, hfr⟩
  exact ⟨by rw [hnext]; exact h3, by rw [hsize]; exact hz, fun j hj => a3 j (by omega)⟩

/-- The function `main` in general: with `max = 50`, at least 51 units of
fuel and its 204 `malloc` calls succeeding, it reaches the line marked HERE
with the four arrays in the fresh blocks `N`, `N + 51`, `N + 102`, `N + 153`
(`N = s.mem.next`), each holding in cell `j` the address of block `N + 1 + j`,
the struct number `j` of the first call of `gen0`; it prints 1. -/
theorem main_spec (fuel : Nat) (hf : 51 ≤ fuel) (s : State) (hmax : s.max = 50)
    (hok : ∀ k : Nat, k < 204 → s.mem.oom (s.mem.mallocs + k) = false) :
    ∃ s1, main fuel s = some (Env.mk (Ptr.mk s.mem.next 0) (Ptr.mk (s.mem.next + 51) 0)
        (Ptr.mk (s.mem.next + 102) 0) (Ptr.mk (s.mem.next + 153) 0), [[1]], s1) ∧
      IsArray s1.mem s.mem.next (s.mem.next + 1) ∧
      IsArray s1.mem (s.mem.next + 51) (s.mem.next + 1) ∧
      IsArray s1.mem (s.mem.next + 102) (s.mem.next + 1) ∧
      IsArray s1.mem (s.mem.next + 153) (s.mem.next + 1) ∧
      HasStructs s1.mem (s.mem.next + 1) 50 ∧ AgreeBelow s.mem s1.mem s.mem.next := by
  -- x0 = rep(0)
  obtain ⟨sa, ha, _, _, ma, na, ca, oa, aa, sta, fa⟩ :=
    gen0_spec fuel hf s hmax (fun k hk => hok k (by omega))
  -- x1 = rep(x0)
  obtain ⟨sb, hb, _, _, mb, nb, cb, ob, ab, _, fb⟩ := rep_copy fuel hf sa ma
    (fun k hk => by rw [oa, ca, Nat.add_assoc]; exact hok _ (by omega)) aa
  rw [na] at hb ab fb
  have ab0 : IsArray sb.mem s.mem.next (s.mem.next + 1) :=
    isArray_agree aa fb (by omega) (by omega)
  have stb : HasStructs sb.mem (s.mem.next + 1) 50 :=
    hasStructs_agree sta fb (by omega) (le_refl _) (by omega)
  -- x2 = rep(x1)
  obtain ⟨sc, hc, _, _, mc, nc, cc, oc, ac, _, fc⟩ := rep_copy fuel hf sb mb
    (fun k hk => by rw [ob, oa, cb, ca, Nat.add_assoc, Nat.add_assoc]; exact hok _ (by omega)) ab
  have nb1 : sb.mem.next = s.mem.next + 102 := by omega
  rw [nb1] at hc ac fc
  have ac0 : IsArray sc.mem s.mem.next (s.mem.next + 1) :=
    isArray_agree ab0 fc (by omega) (by omega)
  have ac1 : IsArray sc.mem (s.mem.next + 51) (s.mem.next + 1) :=
    isArray_agree ab fc (by omega) (by omega)
  have stc : HasStructs sc.mem (s.mem.next + 1) 50 :=
    hasStructs_agree stb fc (by omega) (le_refl _) (by omega)
  -- x3 = rep(0)
  obtain ⟨sd, hd, _, _, md, nd, cd, od, ad, _, fd⟩ := gen0_spec fuel hf sc mc
    (fun k hk => by
      rw [oc, ob, oa, cc, cb, ca, Nat.add_assoc, Nat.add_assoc, Nat.add_assoc]
      exact hok _ (by omega))
  have nc1 : sc.mem.next = s.mem.next + 153 := by omega
  rw [nc1] at hd ad fd
  have ad0 : IsArray sd.mem s.mem.next (s.mem.next + 1) :=
    isArray_agree ac0 fd (by omega) (by omega)
  have ad1 : IsArray sd.mem (s.mem.next + 51) (s.mem.next + 1) :=
    isArray_agree ac1 fd (by omega) (by omega)
  have ad2 : IsArray sd.mem (s.mem.next + 102) (s.mem.next + 1) :=
    isArray_agree ac fd (by omega) (by omega)
  have std : HasStructs sd.mem (s.mem.next + 1) 50 :=
    hasStructs_agree stc fd (by omega) (le_refl _) (by omega)
  -- the loop
  obtain ⟨r, hr, _, _, _, _, nr, _, _, zr, e0, eS, e1, e2, e3, fr⟩ := pick_loop
    s.mem.next (s.mem.next + 51) (s.mem.next + 102) (s.mem.next + 153) (s.mem.next + 1) sd md (by omega) (by omega) (by omega)
    (by omega) ad0 std ad1 ad2 ad.1 ad.2.1 fuel hf
  have hv : loadA (Ptr.mk (s.mem.next + 153) 0) 0 r.2.mem = some 1 :=
    loadA_of_isArray e3 eS (j := 0) (by omega) (by omega)
  refine ⟨r.2, ?_, e0, e1, e2, e3, eS, ?_⟩
  · simp only [main, bind, rep_null, ha, Option.some_bind, hb, hc, hd, hr, hv]
  · intro b o hb1
    rw [zr, fr b o (by omega)]
    exact ⟨((fd b o (by omega)).1.trans ((fc b o (by omega)).1.trans
        ((fb b o (by omega)).1.trans (fa b o hb1).1))),
      ((fd b o (by omega)).2.trans ((fc b o (by omega)).2.trans
        ((fb b o (by omega)).2.trans (fa b o hb1).2)))⟩

/-! ### The arrays at the line marked HERE -/

/-- C12: in alias9.c, from any state with `max = 50`, with at least 51 units
of fuel and the 204 `malloc` calls of `main` succeeding (each returns a fresh
block, by the memory model), `main` reaches the line marked HERE, where for
every index `i < 50` the cells `x0[i]`, `x1[i]`, `x2[i]`, `x3[i]` all hold the
pointer that the first call of `gen0` stored in cell `i` of its array, the
address of a fresh block of its own for each `i`; the four arrays are pairwise
distinct.  Both branches of the parity test occur (`x0[0]->a = 1`,
`x0[2]->a = 2`), and whichever is taken, an iteration that finds one pointer
in `x1[i]` and `x2[i]` leaves it in `x3[i]`. -/
theorem main_arrays_alias (fuel : Nat) (s : State) (hf : 51 ≤ fuel) (hmax : s.max = 50)
    (hok : ∀ k : Nat, k < 204 → s.mem.oom (s.mem.mallocs + k) = false) :
    (∃ e out s1 a sg, main fuel s = some (e, out, s1) ∧
      gen0 fuel s = some (a, sg) ∧ e.x0 = a ∧
      (∀ i : Nat, i < 50 → ∃ q, (Ptr.add 1 a i).bind sg.mem.loadPtr = some q ∧
        q = Ptr.mk (s.mem.next + 1 + i) 0 ∧
        (Ptr.add 1 e.x0 i).bind s1.mem.loadPtr = some q ∧
        (Ptr.add 1 e.x1 i).bind s1.mem.loadPtr = some q ∧
        (Ptr.add 1 e.x2 i).bind s1.mem.loadPtr = some q ∧
        (Ptr.add 1 e.x3 i).bind s1.mem.loadPtr = some q) ∧
      e.x0 ≠ e.x1 ∧ e.x0 ≠ e.x2 ∧ e.x0 ≠ e.x3 ∧ e.x1 ≠ e.x2 ∧ e.x1 ≠ e.x3 ∧ e.x2 ≠ e.x3 ∧
      loadA e.x0 0 s1.mem = some 1 ∧ loadA e.x0 2 s1.mem = some 2) ∧
    (∀ (e : Env) (t t1 : Int × State) (q : Ptr), pickBody e t = some t1 →
      (Ptr.add 1 e.x1 t.1).bind t.2.mem.loadPtr = some q →
      (Ptr.add 1 e.x2 t.1).bind t.2.mem.loadPtr = some q →
      (Ptr.add 1 e.x3 t.1).bind t1.2.mem.loadPtr = some q) := by
  refine ⟨?_, fun e t t1 q h h1 h2 => pickBody_same h h1 h2⟩
  obtain ⟨s1, hm, a0, a1, a2, a3, hS, _⟩ := main_spec fuel hf s hmax hok
  obtain ⟨sg, hg, _, _, _, _, _, _, ag, _, _⟩ :=
    gen0_spec fuel hf s hmax (fun k hk => hok k (by omega))
  have ne : ∀ a b : Nat, a ≠ b → Ptr.mk a 0 ≠ Ptr.mk b 0 := by
    intro a b hab h
    injection h with h
    exact hab h
  refine ⟨_, _, s1, _, sg, hm, hg, rfl, ?_, ne _ _ (by omega), ne _ _ (by omega),
    ne _ _ (by omega), ne _ _ (by omega), ne _ _ (by omega), ne _ _ (by omega),
    loadA_of_isArray a0 hS (j := 0) (by omega) (by omega),
    loadA_of_isArray a0 hS (j := 2) (by omega) (by omega)⟩
  intro i hi
  exact ⟨_, loadPtr_of_isArray ag hi, rfl, loadPtr_of_isArray a0 hi, loadPtr_of_isArray a1 hi,
    loadPtr_of_isArray a2 hi, loadPtr_of_isArray a3 hi⟩

/-- Witness of C12: the run of `main` from the initial state on the empty
memory, with a `malloc` that never fails and fuel 51. -/
theorem main_arrays_alias_witness :
    51 ≤ 51 ∧ (init (Mem.empty fun _ => false)).max = 50 ∧
    ∃ e out s1 a sg, main 51 (init (Mem.empty fun _ => false)) = some (e, out, s1) ∧
      gen0 51 (init (Mem.empty fun _ => false)) = some (a, sg) ∧ e.x0 = a ∧
      (∀ i : Nat, i < 50 → ∃ q, (Ptr.add 1 a i).bind sg.mem.loadPtr = some q ∧
        q = Ptr.mk (0 + 1 + i) 0 ∧
        (Ptr.add 1 e.x0 i).bind s1.mem.loadPtr = some q ∧
        (Ptr.add 1 e.x1 i).bind s1.mem.loadPtr = some q ∧
        (Ptr.add 1 e.x2 i).bind s1.mem.loadPtr = some q ∧
        (Ptr.add 1 e.x3 i).bind s1.mem.loadPtr = some q) ∧
      e.x0 ≠ e.x1 ∧ e.x0 ≠ e.x2 ∧ e.x0 ≠ e.x3 ∧ e.x1 ≠ e.x2 ∧ e.x1 ≠ e.x3 ∧ e.x2 ≠ e.x3 ∧
      loadA e.x0 0 s1.mem = some 1 ∧ loadA e.x0 2 s1.mem = some 2 :=
  ⟨by decide, rfl,
    (main_arrays_alias 51 (init (Mem.empty fun _ => false)) (by decide) rfl
      (fun _ _ => rfl)).1⟩

/-! ### The values stored by `gen0` -/

/-- The run of `gen0` from the initial state: `x0[i]->a` for `i < 50`. -/
theorem gen0_values :
    (gen0 51 (init (Mem.empty fun _ => false))).map
        (fun r => (List.range 50).map (fun i : Nat => loadA r.1 i r.2.mem)) =
      some ((List.range 50).map (fun i : Nat => gen0Values[i]?)) := by
  decide!

/-- C16: in `gen0` of alias9.c, run from any state with `max = 50`, with at
least 51 units of fuel and its 51 `malloc` calls succeeding: afterwards
`x0[i]->a` is the Fibonacci number `F (i + 1)` for every `i ≤ 45`; for
`2 ≤ i ≤ 45` the sum `x0[i-1]->a + x0[i-2]->a` that iteration `i` computes
lies in the range of a 32-bit `int` and is the value stored; the sum computed
at `i = 46` is 2971215073, above `2^31 - 1`, and what is stored in `x0[46]->a`
is its reduction modulo 2^32, -1323752223, which is not `F 47`. -/
theorem gen0_fibonacci (fuel : Nat) (s : State) (hf : 51 ≤ fuel) (hmax : s.max = 50)
    (hok : ∀ k : Nat, k < 51 → s.mem.oom (s.mem.mallocs + k) = false) :
    ∃ x0 s1, gen0 fuel s = some (x0, s1) ∧ s1.max = 50 ∧
      (∀ i : Nat, i ≤ 45 → loadA x0 i s1.mem = some (Nat.fib (i + 1) : Int)) ∧
      (∀ i : Nat, 2 ≤ i → i ≤ 45 → ∃ v1 v2 : Int,
        loadA x0 ((i : Int) - 1) s1.mem = some v1 ∧ loadA x0 ((i : Int) - 2) s1.mem = some v2 ∧
        -2147483648 ≤ v1 + v2 ∧ v1 + v2 ≤ 2147483647 ∧ loadA x0 i s1.mem = some (v1 + v2)) ∧
      (∃ v1 v2 : Int, loadA x0 45 s1.mem = some v1 ∧ loadA x0 44 s1.mem = some v2 ∧
        v1 + v2 = 2971215073 ∧ 2147483647 < v1 + v2 ∧
        loadA x0 46 s1.mem = some (wrap32 (v1 + v2)) ∧ wrap32 (v1 + v2) = -1323752223 ∧
        wrap32 (v1 + v2) ≠ (Nat.fib 47 : Int)) := by
  obtain ⟨s1, hg, _, _, hm, _, _, _, hA, hS, _⟩ := gen0_spec fuel hf s hmax hok
  have get : ∀ i : Nat, i < 50 →
      loadA (Ptr.mk s.mem.next 0) i s1.mem = some (gen0Values.getD i 0) :=
    fun i hi => loadA_of_isArray hA hS hi hi
  refine ⟨_, s1, hg, hm, ?_, ?_, ?_⟩
  · intro i hi
    rw [get i (by omega)]
    have key : ∀ i : Nat, i ≤ 45 → gen0Values.getD i 0 = (Nat.fib (i + 1) : Int) := by
      decide!
    rw [key i hi]
  · intro i h2 hi
    obtain ⟨k, rfl⟩ : ∃ k, i = k + 2 := ⟨i - 2, by omega⟩
    have e1 : ((k + 2 : Nat) : Int) - 1 = ((k + 1 : Nat) : Int) := by push_cast; ring
    have e2 : ((k + 2 : Nat) : Int) - 2 = ((k : Nat) : Int) := by push_cast; ring
    rw [e1, e2, get (k + 1) (by omega), get k (by omega), get (k + 2) (by omega)]
    have key : ∀ k : Nat, k ≤ 43 →
        -2147483648 ≤ gen0Values.getD (k + 1) 0 + gen0Values.getD k 0 ∧
        gen0Values.getD (k + 1) 0 + gen0Values.getD k 0 ≤ 2147483647 ∧
        gen0Values.getD (k + 2) 0 = gen0Values.getD (k + 1) 0 + gen0Values.getD k 0 := by
      decide!
    obtain ⟨k1, k2, k3⟩ := key k (by omega)
    exact ⟨_, _, rfl, rfl, k1, k2, by rw [k3]⟩
  · have h45 := get 45 (by decide)
    have h44 := get 44 (by decide)
    have h46 := get 46 (by decide)
    exact ⟨1836311903, 1134903170, h45, h44, by decide, by decide, h46, by decide, by decide!⟩

/-- Witness of C16: the run of `gen0` from the initial state on the empty
memory, with a `malloc` that never fails and fuel 51. -/
theorem gen0_fibonacci_witness :
    51 ≤ 51 ∧ (init (Mem.empty fun _ => false)).max = 50 ∧
    ∃ x0 s1, gen0 51 (init (Mem.empty fun _ => false)) = some (x0, s1) ∧ s1.max = 50 ∧
      (∀ i : Nat, i ≤ 45 → loadA x0 i s1.mem = some (Nat.fib (i + 1) : Int)) ∧
      (∀ i : Nat, 2 ≤ i → i ≤ 45 → ∃ v1 v2 : Int,
        loadA x0 ((i : Int) - 1) s1.mem = some v1 ∧ loadA x0 ((i : Int) - 2) s1.mem = some v2 ∧
        -2147483648 ≤ v1 + v2 ∧ v1 + v2 ≤ 2147483647 ∧ loadA x0 i s1.mem = some (v1 + v2)) ∧
      (∃ v1 v2 : Int, loadA x0 45 s1.mem = some v1 ∧ loadA x0 44 s1.mem = some v2 ∧
        v1 + v2 = 2971215073 ∧ 2147483647 < v1 + v2 ∧
        loadA x0 46 s1.mem = some (wrap32 (v1 + v2)) ∧ wrap32 (v1 + v2) = -1323752223 ∧
        wrap32 (v1 + v2) ≠ (Nat.fib 47 : Int)) :=
  ⟨by decide, rfl,
    gen0_fibonacci 51 (init (Mem.empty fun _ => false)) (by decide) rfl (fun _ _ => rfl)⟩

end Alias9

end CSem
